import Mathlib

/-!
# Anonymous pool: the pool core and its React client

Two layers are embedded here.

* The pool core (`Core`): the on-chain contract `AnonymousPool.sol` is not part of the
  sources at hand (only its callers are), so the accumulator, the nullifier registry,
  the vault and the ledger are modelled from the specification, sections 4.1 to 4.5.
* The client (`Client`): the React components `AnonymousWithdrawal.jsx` and
  `AnonymousDeposit.jsx`, translated from the sources.  A handler is embedded as the
  ordered list of effects it performs (state setters and external calls); the external
  world (pool contract, token contract, injected wallet, the `ethers` helpers) answers
  through a record of responses.  A handler reads the state of the render it was created
  in and its setters are applied in order; events are handled one at a time, and a timer
  scheduled by a handler is an event of its own.
-/

deriving instance DecidableEq for Except

namespace Core

/-- Modelled from the spec: the error taxonomy of section 7 (contract `AnonymousPool.sol`
is absent from the sources). -/
inductive PoolError where
  | CapacityExceeded
  | AmountMismatch
  | TransferFailed
  | InsufficientAllowance
  | UnknownRoot
  | AlreadySpent
  | InvalidRecipient
  deriving DecidableEq, Repr

/-- Modelled from the spec: the asset descriptor of section 3, native currency or a token
contract address. -/
inductive Asset where
  | Native
  | Token (address : Nat)
  deriving DecidableEq, Repr

/-- Modelled from the spec: the construction-time constants of the pool (section 6) together
with the two-input hash of section 4.1 and the placeholder leaf of section 4.2.  The hash
construction itself is left open by the spec, so it is a field. -/
structure Params where
  hash : Nat → Nat → Nat
  zeroLeaf : Nat
  depth : Nat
  historySize : Nat
  DEPOSIT_AMOUNT : Nat
  FEE : Nat

/-- Modelled from the spec: section 4.2, the hash of the placeholder leaf replicated up
each level. -/
def zeros (P : Params) : Nat → Nat
  | 0 => P.zeroLeaf
  | l + 1 => P.hash (zeros P l) (zeros P l)

/-- Modelled from the spec: the state of the MerkleAccumulator of section 4.2: the leaves in
insertion order, the cached inner-node hashes (by level and index) and the ring of recent
roots, most recent first. -/
structure MerkleAccumulator where
  leaves : List Nat
  cache : Nat → Nat → Nat
  rootHistory : List Nat

/-- Modelled from the spec: the empty accumulator; every cached node is the empty-subtree
hash of its level and the ring holds the empty-tree root. -/
def MerkleAccumulator.empty (P : Params) : MerkleAccumulator :=
  { leaves := [], cache := fun l _ => zeros P l, rootHistory := [zeros P P.depth] }

/-- Overwrite one cached node. -/
def setNode (c : Nat → Nat → Nat) (l i v : Nat) : Nat → Nat → Nat :=
  fun l2 i2 => if l2 = l ∧ i2 = i then v else c l2 i2

/-- Modelled from the spec: section 4.2, recomputation of the root bottom-up along the
affected path; `k` levels remain above level `l`, `cur` is the hash of node `idx` at level
`l`, and the sibling is read from the cache. -/
def updatePath (P : Params) : Nat → Nat → Nat → Nat → (Nat → Nat → Nat) → (Nat → Nat → Nat)
  | 0, l, idx, cur, c => setNode c l idx cur
  | k + 1, l, idx, cur, c =>
    let parent := if idx % 2 = 0 then P.hash cur (c l (idx + 1)) else P.hash (c l (idx - 1)) cur
    updatePath P k (l + 1) (idx / 2) parent (setNode c l idx cur)

/-- Modelled from the spec: section 4.2, `currentRoot`, the most recent root. -/
def MerkleAccumulator.currentRoot (P : Params) (t : MerkleAccumulator) : Nat :=
  t.rootHistory.headD (zeros P P.depth)

/-- Modelled from the spec: section 4.2, `isKnownRoot`, membership in the retained ring. -/
def MerkleAccumulator.isKnownRoot (t : MerkleAccumulator) (root : Nat) : Bool :=
  decide (root ∈ t.rootHistory)

/-- Modelled from the spec: section 4.2, `insertLeaf`; fails with `CapacityExceeded` when
`leaves.length == 2^D`, otherwise appends, recomputes the path, pushes the new root into the
bounded ring and returns the new index. -/
def MerkleAccumulator.insertLeaf (P : Params) (t : MerkleAccumulator) (commitment : Nat) :
    Except PoolError (MerkleAccumulator × Nat) :=
  if t.leaves.length = 2 ^ P.depth then .error .CapacityExceeded
  else
    let index := t.leaves.length
    let cache := updatePath P P.depth 0 index commitment t.cache
    let root := cache P.depth 0
    .ok ({ leaves := t.leaves ++ [commitment], cache := cache,
           rootHistory := (root :: t.rootHistory).take P.historySize }, index)

/-- Modelled from the spec: the aggregate ledger state of sections 4.3 to 4.5: accumulator,
spent nullifier hashes, vault holdings (native and per token) and the counters. -/
structure PoolLedger where
  tree : MerkleAccumulator
  spent : List Nat
  nativeBalance : Nat
  tokenBalance : Nat → Nat
  depositsCount : Nat
  withdrawalsCount : Nat

/-- Modelled from the spec: the ledger at construction time. -/
def PoolLedger.init (P : Params) : PoolLedger :=
  { tree := MerkleAccumulator.empty P, spent := [], nativeBalance := 0,
    tokenBalance := fun _ => 0, depositsCount := 0, withdrawalsCount := 0 }

/-- Modelled from the spec: section 4.3, `isSpent`. -/
def PoolLedger.isSpent (s : PoolLedger) (h : Nat) : Bool := decide (h ∈ s.spent)

/-- Modelled from the spec: the lookup `nullifierHashes[h]` of section 6. -/
def PoolLedger.nullifierHashes (s : PoolLedger) (h : Nat) : Bool := s.isSpent h

/-- Modelled from the spec: `getLatestRoot` of section 4.6. -/
def PoolLedger.getLatestRoot (P : Params) (s : PoolLedger) : Nat := s.tree.currentRoot P

/-- Modelled from the spec: section 4.4, `balance(descriptor)`. -/
def PoolLedger.balance (s : PoolLedger) : Asset → Nat
  | .Native => s.nativeBalance
  | .Token a => s.tokenBalance a

/-- Modelled from the spec: section 4.4, `receive`; for the native asset the transferred value
must equal the amount, for a token the outcome of the external pull is given by `ext`
(`none` when the external call succeeded). -/
def PoolLedger.receive (s : PoolLedger) (asset : Asset) (amount value : Nat)
    (ext : Option PoolError) : Except PoolError PoolLedger :=
  match asset with
  | .Native =>
    if value = amount then .ok { s with nativeBalance := s.nativeBalance + amount }
    else .error .AmountMismatch
  | .Token a =>
    match ext with
    | some e => .error e
    | none => .ok { s with tokenBalance := fun b => if b = a then s.tokenBalance a + amount
                                                    else s.tokenBalance b }

/-- Modelled from the spec: section 4.4, `pay`; fails with `TransferFailed` on shortfall or
when the external recipient rejects (`accepted = false`). -/
def PoolLedger.pay (s : PoolLedger) (asset : Asset) (amount : Nat) (accepted : Bool) :
    Except PoolError PoolLedger :=
  if s.balance asset < amount ∨ accepted = false then .error .TransferFailed
  else
    match asset with
    | .Native => .ok { s with nativeBalance := s.nativeBalance - amount }
    | .Token a => .ok { s with tokenBalance := fun b => if b = a then s.tokenBalance a - amount
                                                        else s.tokenBalance b }

/-- Modelled from the spec: section 4.5, `Deposit(commitment, asset, amount, payer)`, steps 1
to 3 (the event of step 4 is not stored state).  A failure at any step leaves the ledger as
it was before the call. -/
def PoolLedger.depositAsset (P : Params) (s : PoolLedger) (commitment : Nat) (asset : Asset)
    (amount value : Nat) (ext : Option PoolError) : PoolLedger × Except PoolError (Nat × Nat) :=
  match s.receive asset amount value ext with
  | .error e => (s, .error e)
  | .ok s1 =>
    match s1.tree.insertLeaf P commitment with
    | .error e => (s, .error e)
    | .ok (t, leafIndex) =>
      ({ s1 with tree := t, depositsCount := s1.depositsCount + 1 },
        .ok (leafIndex, t.currentRoot P))

/-- Modelled from the spec: the `deposit` operation of section 6 (commitment, native value);
the value must equal `DEPOSIT_AMOUNT`. -/
def PoolLedger.deposit (P : Params) (s : PoolLedger) (commitment value : Nat) :
    PoolLedger × Except PoolError (Nat × Nat) :=
  s.depositAsset P commitment .Native P.DEPOSIT_AMOUNT value none

/-- Modelled from the spec: the `insertLeaf` operation of section 6, used for the token flow
where funds move through a separate transfer. -/
def PoolLedger.insertLeaf (P : Params) (s : PoolLedger) (commitment : Nat) :
    PoolLedger × Except PoolError (Nat × Nat) :=
  match s.tree.insertLeaf P commitment with
  | .error e => (s, .error e)
  | .ok (t, leafIndex) => ({ s with tree := t }, .ok (leafIndex, t.currentRoot P))

/-- Modelled from the spec: section 4.5, `Withdraw`: the three validations of steps 1 to 3,
then steps 4 to 6 (mark spent, pay, count).  The steps name the failure of each validation
and do not say which one is reported when several fail; section 8 says it for a spent
nullifier hash, which is refused with `AlreadySpent` regardless of the recipient or root
supplied.  So the registry is consulted first, then the recipient and the root as listed.
`recipient` is `none` for a null recipient and `some 0` for the zero address; `accepted`
tells whether the external recipients accept the payment. -/
def PoolLedger.withdrawAsset (P : Params) (s : PoolLedger) (nullifierHash : Nat)
    (recipient : Option Nat) (root : Nat) (asset : Asset) (amount : Nat)
    (feeBeneficiary : Option Nat) (accepted : Bool) : PoolLedger × Except PoolError Unit :=
  if s.isSpent nullifierHash then (s, .error .AlreadySpent)
  else
    match recipient with
    | none => (s, .error .InvalidRecipient)
    | some r =>
      if r = 0 then (s, .error .InvalidRecipient)
      else if s.tree.isKnownRoot root = false then (s, .error .UnknownRoot)
      else
        let s1 := { s with spent := nullifierHash :: s.spent }
        let paid : Except PoolError PoolLedger :=
          match asset with
          | .Native =>
            match s1.pay .Native (P.DEPOSIT_AMOUNT - P.FEE) accepted with
            | .error e => .error e
            | .ok s2 =>
              match feeBeneficiary with
              | some _ => s2.pay .Native P.FEE accepted
              | none => .ok s2
          | .Token a => s1.pay (.Token a) amount accepted
        match paid with
        | .error e => (s, .error e)
        | .ok s3 => ({ s3 with withdrawalsCount := s3.withdrawalsCount + 1 }, .ok ())

/-- Modelled from the spec: the `withdraw` operation of section 6 (native payout). -/
def PoolLedger.withdraw (P : Params) (s : PoolLedger) (nullifierHash : Nat)
    (recipient : Option Nat) (root : Nat) (feeBeneficiary : Option Nat) (accepted : Bool) :
    PoolLedger × Except PoolError Unit :=
  s.withdrawAsset P nullifierHash recipient root .Native 0 feeBeneficiary accepted

/-- Modelled from the spec: the `withdrawTokens` operation of section 6 (token payout of a
caller-supplied amount, no fee). -/
def PoolLedger.withdrawTokens (P : Params) (s : PoolLedger) (nullifierHash : Nat)
    (recipient : Option Nat) (root : Nat) (tokenAddress amount : Nat) (accepted : Bool) :
    PoolLedger × Except PoolError Unit :=
  s.withdrawAsset P nullifierHash recipient root (.Token tokenAddress) amount none accepted

/-- Modelled from the spec: one call of the external interface of section 6, with the
outcome of the external transfer it may trigger. -/
inductive Op where
  | deposit (commitment value : Nat)
  | insertLeaf (commitment : Nat)
  | withdraw (nullifierHash : Nat) (recipient : Option Nat) (root : Nat)
      (feeBeneficiary : Option Nat) (accepted : Bool)
  | withdrawTokens (nullifierHash : Nat) (recipient : Option Nat) (root : Nat)
      (tokenAddress amount : Nat) (accepted : Bool)

/-- The nullifier hash borne by a call, when it is a withdrawal. -/
def Op.bears : Op → Option Nat
  | .withdraw h _ _ _ _ => some h
  | .withdrawTokens h _ _ _ _ _ => some h
  | _ => none

/-- The error of a result, `none` when the call succeeded. -/
def errorOf {α : Type} : Except PoolError α → Option PoolError
  | .ok _ => none
  | .error e => some e

/-- Run one call: the new ledger and the error of the call when it failed. -/
def PoolLedger.step (P : Params) (s : PoolLedger) : Op → PoolLedger × Option PoolError
  | .deposit c v => ((s.deposit P c v).1, errorOf (s.deposit P c v).2)
  | .insertLeaf c => ((s.insertLeaf P c).1, errorOf (s.insertLeaf P c).2)
  | .withdraw h r root fb acc =>
    ((s.withdraw P h r root fb acc).1, errorOf (s.withdraw P h r root fb acc).2)
  | .withdrawTokens h r root tok amt acc =>
    ((s.withdrawTokens P h r root tok amt acc).1,
      errorOf (s.withdrawTokens P h r root tok amt acc).2)

/-- Run a sequence of calls in order. -/
def PoolLedger.run (P : Params) (s : PoolLedger) : List Op → PoolLedger
  | [] => s
  | op :: ops => PoolLedger.run P (s.step P op).1 ops

/-- The number of successful withdrawals bearing `h` in a sequence of calls run from `s`. -/
def PoolLedger.successes (P : Params) (h : Nat) (s : PoolLedger) : List Op → Nat
  | [] => 0
  | op :: ops =>
    (if op.bears = some h ∧ (s.step P op).2 = none then 1 else 0)
      + PoolLedger.successes P h (s.step P op).1 ops

/-- A small concrete pool used to evaluate the model: depth 2, a ring of 4 roots, a toy
hash. -/
def toyParams : Params :=
  { hash := fun a b => (31 * a + 17 * b + 7) % 1009, zeroLeaf := 0, depth := 2,
    historySize := 4, DEPOSIT_AMOUNT := 1000, FEE := 10 }

/-- The recipient supplied with a withdrawal call. -/
def Op.recipient : Op → Option Nat
  | .withdraw _ r _ _ _ => r
  | .withdrawTokens _ r _ _ _ _ => r
  | _ => none

/-- The root supplied with a withdrawal call. -/
def Op.root : Op → Nat
  | .withdraw _ _ root _ _ => root
  | .withdrawTokens _ _ root _ _ _ => root
  | _ => 0

/-- A recipient that passes the validation of step 1 of `Withdraw`: present and not the zero
address. -/
def validRecipient : Option Nat → Bool
  | some r => decide (r ≠ 0)
  | none => false

/-- The toy pool after one deposit of commitment 11. -/
def toyLedger : PoolLedger :=
  ((PoolLedger.init toyParams).step toyParams (.deposit 11 1000)).1

/-- Reference algorithm, one level: hash adjacent pairs of a row of nodes. -/
def hashPairs (P : Params) : List Nat → List Nat
  | a :: b :: rest => P.hash a b :: hashPairs P rest
  | _ => []

/-- Reference algorithm: the leaf sequence padded with the zero leaf up to `2^D` entries. -/
def padLeaves (P : Params) (leaves : List Nat) : List Nat :=
  leaves ++ List.replicate (2 ^ P.depth - leaves.length) P.zeroLeaf

/-- Reference algorithm: reduce a row of nodes `k` times. -/
def reduceLevels (P : Params) : Nat → List Nat → List Nat
  | 0, row => row
  | k + 1, row => reduceLevels P k (hashPairs P row)

/-- Reference Merkle root, following the words of the spec (section 8): recompute the whole
tree from the padded leaf sequence, level by level, and take the single node left. -/
def referenceRoot (P : Params) (leaves : List Nat) : Nat :=
  (reduceLevels P P.depth (padLeaves P leaves)).headD P.zeroLeaf

/-- The hash of node `j` at level `l` of the tree over a row of leaves (entries beyond the
row count as `d`). -/
def nodeOf (P : Params) (d : Nat) (row : List Nat) : Nat → Nat → Nat
  | 0, j => row.getD j d
  | l + 1, j => P.hash (nodeOf P d row l (2 * j)) (nodeOf P d row l (2 * j + 1))

/-- An insertion call: through `deposit` with the fixed native amount, or through
`insertLeaf`. -/
def insertOp (P : Params) (viaDeposit : Bool) (commitment : Nat) : Op :=
  if viaDeposit then .deposit commitment P.DEPOSIT_AMOUNT else .insertLeaf commitment

/-- The calls inserting a sequence of commitments, each tagged with the operation used. -/
def insertOps (P : Params) (cs : List (Bool × Nat)) : List Op :=
  cs.map (fun c => insertOp P c.1 c.2)

/-- The accumulator agrees with the tree over its leaves: every cached node up to the root
level, and the most recent root. -/
def Consistent (P : Params) (t : MerkleAccumulator) : Prop :=
  (∀ l j, l ≤ P.depth → t.cache l j = nodeOf P P.zeroLeaf t.leaves l j) ∧
  t.currentRoot P = nodeOf P P.zeroLeaf t.leaves P.depth 0 ∧
  t.leaves.length ≤ 2 ^ P.depth

/-- The hardhat deployment script `deploy_pool.js` constructs the pool with this depth
(`const TREE_DEPTH = 10; // 2^10 = 1024`). -/
def TREE_DEPTH : Nat := 10

/-- The calls making one native deposit of the fixed amount per commitment. -/
def depositOps (P : Params) (cs : List Nat) : List Op :=
  cs.map (fun c => Op.deposit c P.DEPOSIT_AMOUNT)

/-- A toy pool constructed with the deployed depth. -/
def toyDeployed : Params :=
  { hash := fun a b => (31 * a + 17 * b + 7) % 1009, zeroLeaf := 0, depth := TREE_DEPTH,
    historySize := 4, DEPOSIT_AMOUNT := 1000, FEE := 10 }

end Core

namespace Client

/-! ## JavaScript values and the injected wallet -/

/-- JavaScript values as they occur in the flags of an injected wallet provider. -/
inductive JsValue where
  | undefined
  | null
  | boolean (b : Bool)
  | number (n : Int)
  | string (s : String)
  | object
  deriving DecidableEq, Repr

/-- JavaScript truthiness. -/
def JsValue.truthy : JsValue → Bool
  | .undefined => false
  | .null => false
  | .boolean b => b
  | .number n => decide (n ≠ 0)
  | .string s => decide (s ≠ "")
  | .object => true

/-- An entry of `window.ethereum.providers`. -/
structure InjectedProvider where
  isMetaMask : JsValue
  isCoinbaseWallet : JsValue
  deriving DecidableEq, Repr

/-- The `providers` field of `window.ethereum`: missing or falsy, a truthy value that is not
an array, or an array. -/
inductive ProvidersField where
  | absent
  | notArray
  | array (ps : List InjectedProvider)
  deriving DecidableEq, Repr

/-- The object `window.ethereum`. -/
structure Ethereum where
  isMetaMask : JsValue
  isCoinbaseWallet : JsValue
  providers : ProvidersField
  deriving DecidableEq, Repr

/-- The injected provider a selection settles on: an element of `providers` (with its
position) or `window.ethereum` itself. -/
inductive Selected where
  | element (index : Nat) (p : InjectedProvider)
  | window (e : Ethereum)
  deriving DecidableEq, Repr

/-- The method `Array.prototype.find`, with the position of the element found. -/
def findFrom (f : InjectedProvider → Bool) : List InjectedProvider → Nat → Option Selected
  | [], _ => none
  | p :: ps, i => if f p then some (.element i p) else findFrom f ps (i + 1)

/-- The read-only provider selection repeated in `loadPoolInfo`, `generateCommitment`,
`loadPoolStats` and `handleGenerateNullifierHash`:
`providers.find(p => p.isMetaMask)` when `providers` is an array, else `window.ethereum`
when its `isMetaMask` is truthy. -/
def readOnlyProvider (win : Option Ethereum) : Option Selected :=
  match win with
  | none => none
  | some e =>
    match e.providers with
    | .array ps => findFrom (fun p => p.isMetaMask.truthy) ps 0
    | _ => if e.isMetaMask.truthy then some (.window e) else none

/-! ## Values exchanged with the chain -/

/-- A thrown JavaScript error, with the fields the handlers read (`""` when absent). -/
structure JsError where
  reason : String
  message : String
  code : String
  data : String
  deriving DecidableEq, Repr

/-- An error raised by the `ethers` library itself. -/
def libraryError (message code : String) : JsError :=
  { reason := "", message := message, code := code, data := "" }

/-- JavaScript `a || b` on strings. -/
def orElse (a b : String) : String := if a = "" then b else a

/-- Whether the characters `sub` open the list `cs`. -/
def startsWithChars : List Char → List Char → Bool
  | _, [] => true
  | [], _ :: _ => false
  | c :: cs, d :: ds => c = d && startsWithChars cs ds

/-- Search for `sub` at every position of `cs`. -/
def includesChars : List Char → List Char → Bool
  | [], sub => startsWithChars [] sub
  | c :: cs, sub => startsWithChars (c :: cs) sub || includesChars cs sub

/-- JavaScript `String.prototype.includes`. -/
def includes (s sub : String) : Bool := includesChars s.data sub.data

/-- A signer object; only its presence matters to the handlers. -/
structure Signer where
  address : String
  deriving DecidableEq, Repr

/-- A token record as kept in `deployedTokens`. -/
structure Token where
  address : String
  name : String
  symbol : String
  decimals : Nat
  deriving DecidableEq, Repr

/-- The status banner of a component. -/
structure Status where
  type : String
  message : String
  deriving DecidableEq, Repr

/-- A log of a receipt after `iface.parseLog` succeeded, with the event arguments the
handlers read. -/
structure ParsedLog where
  name : String
  toAddress : String
  nullifierHash : String
  commitment : String
  leafIndex : Nat
  deriving DecidableEq, Repr

/-- A transaction receipt; each log carries the outcome of `iface.parseLog` on it (`none`
when parsing throws or yields null). -/
structure Receipt where
  hash : String
  logs : List (Option ParsedLog)
  deriving DecidableEq, Repr

/-- A submitted transaction and the outcome of `tx.wait()`. -/
structure Tx where
  hash : String
  wait : Except JsError Receipt
  deriving DecidableEq

/-- The tuple returned by `pool.getStats()`. -/
structure Stats where
  poolBalance : Nat
  deposits : Nat
  withdrawals : Nat
  anonymitySet : Nat
  deriving DecidableEq, Repr

/-- The props handed down by `App`. -/
structure Props where
  signer : Option Signer
  account : Option String
  poolAddress : String
  deployedTokens : List Token
  deriving DecidableEq, Repr

/-- JavaScript truthiness of the `account` prop (null or a string). -/
def accountSet (account : Option String) : Bool :=
  match account with
  | none => false
  | some a => decide (a ≠ "")

/-- The constant `ethers.ZeroAddress`. -/
def ZeroAddress : String := "0x0000000000000000000000000000000000000000"

/-! ## The `ethers` unit conversions

`formatUnits` and `parseUnits` of ethers v6 go through `FixedNumber` with width 512; the
definitions below follow `FixedNumber.toString` and `FixedNumber.fromString`. -/

/-- The value of a string of decimal digits, as `BigInt(string)` reads it. -/
def digitsValue (cs : List Char) : Nat :=
  cs.foldl (fun acc c => 10 * acc + (c.toNat - 48)) 0

/-- The loop `while (str[0] === "0" && str[1] !== ".") str = str.substring(1)`; applied to the
reversed string it is the loop trimming the decimal component. -/
def trimZeros : List Char → List Char
  | a :: c :: rest => if a = '0' ∧ c ≠ '.' then trimZeros (c :: rest) else a :: c :: rest
  | [a] => if a = '0' then [] else [a]
  | [] => []

/-- The string of `FixedNumber.toString` for a non-negative value: pad in front with zeros,
four at a time, while the length is at most `decimals`, insert the point, trim the whole and
the decimal component. -/
def formatUnitsChars (value decimals : Nat) : List Char :=
  let str := Nat.toDigits 10 value
  if decimals = 0 then str
  else
    let padded := List.replicate (4 * ((decimals + 1 - str.length + 3) / 4)) '0' ++ str
    let index := padded.length - decimals
    let withPoint := padded.take index ++ '.' :: padded.drop index
    (trimZeros (trimZeros withPoint).reverse).reverse

/-- The bound `2^511` of a signed fixed-point value of width 512. -/
def fixedLimit : Nat := 2 ^ 255 * 2 ^ 256

/-- The part of the pattern `\.?([0-9]*)$` after the whole digits. -/
def fractionOf : List Char → Option (List Char)
  | [] => some []
  | c :: f => if c = '.' ∧ f.all Char.isDigit then some f else none

/-- The value of `FixedNumber.fromString`: match `^(-?)([0-9]*)\.?([0-9]*)$`, pad the decimals
with zeros, four at a time, refuse excess precision, cut to `decimals` digits, refuse
overflow. -/
def parseUnitsChars (cs : List Char) (decimals : Nat) : Except JsError Int :=
  let negative := cs.head? = some '-'
  let body := if negative then cs.tail else cs
  let whole := body.takeWhile Char.isDigit
  match fractionOf (body.dropWhile Char.isDigit) with
  | none => .error (libraryError "invalid FixedNumber string value" "INVALID_ARGUMENT")
  | some frac =>
    if whole.length + frac.length = 0 then
      .error (libraryError "invalid FixedNumber string value" "INVALID_ARGUMENT")
    else if (frac.drop decimals).all (fun c => c = '0') = false then
      .error (libraryError "too many decimals for format" "NUMERIC_FAULT")
    else
      let decimal :=
        (frac ++ List.replicate (4 * ((decimals - frac.length + 3) / 4)) '0').take decimals
      let magnitude := digitsValue (whole ++ decimal)
      if negative then
        if fixedLimit < magnitude then .error (libraryError "overflow" "NUMERIC_FAULT")
        else .ok (- (magnitude : Int))
      else
        if fixedLimit ≤ magnitude then .error (libraryError "overflow" "NUMERIC_FAULT")
        else .ok (magnitude : Int)

/-- The library function `ethers.formatUnits` on an unsigned amount. -/
def formatUnits (value decimals : Nat) : String := String.mk (formatUnitsChars value decimals)

/-- The library function `ethers.parseUnits`. -/
def parseUnits (value : String) (decimals : Nat) : Except JsError Int :=
  parseUnitsChars value.data decimals

/-- The library function `ethers.formatEther`, `formatUnits` with 18 decimals. -/
def formatEther (wei : Nat) : String := formatUnits wei 18

/-- The library function `ethers.parseEther`, `parseUnits` with 18 decimals. -/
def parseEther (ether : String) : Except JsError Int := parseUnits ether 18

/-- A hexadecimal digit, upper or lower case. -/
def isHexDigit (c : Char) : Bool :=
  c.isDigit || ('a' ≤ c && c ≤ 'f') || ('A' ≤ c && c ≤ 'F')

/-- The library function `ethers.isAddress` on strings whose validity does not depend on the
keccak checksum: an optional `0x` followed by 40 hexadecimal digits all of one case.
Mixed-case and ICAP strings, which need the checksum, are reported invalid here; concrete
worlds use this function, the general statements take `isAddress` as a field of the world. -/
def isHexAddress (s : String) : Bool :=
  let body := if s.data.take 2 = ['0', 'x'] then s.data.drop 2 else s.data
  body.length = 40 && body.all isHexDigit &&
    !(body.any (fun c => 'a' ≤ c && c ≤ 'f') && body.any (fun c => 'A' ≤ c && c ≤ 'F'))

/-! ## External calls and the world answering them -/

/-- The external calls the two components issue. -/
inductive Call where
  | getStats
  | getLatestRoot
  | DEPOSIT_AMOUNT
  | FEE
  | generateCommitment (secret nullifier : String)
  | generateNullifierHash (nullifier : String)
  | nullifierHashes (nullifierHash : String)
  | deposit (commitment : String) (value : Int)
  | insertLeaf (commitment : String)
  | withdraw (nullifierHash recipient root relayer : String)
  | withdrawTokens (nullifierHash recipient root token : String) (amount : Int)
  | balanceOf (token owner : String)
  | transfer (token recipient : String) (amount : Int)
  deriving DecidableEq, Repr

/-- Whether a call asks the pool to pay out. -/
def Call.isPayout : Call → Bool
  | .withdraw _ _ _ _ => true
  | .withdrawTokens _ _ _ _ _ => true
  | _ => false

/-- Whether a call is addressed to the pool contract. -/
def Call.isPoolCall : Call → Bool
  | .balanceOf _ _ => false
  | .transfer _ _ _ => false
  | _ => true

/-- The answers of everything outside the component: the pool contract, the token contracts,
the ABI file, the injected wallet and `ethers.isAddress`. -/
structure World where
  ethereum : Option Ethereum
  isAddress : String → Bool
  hasWithdrawTokens : Bool
  DEPOSIT_AMOUNT : Except JsError Nat
  FEE : Except JsError Nat
  generateCommitment : String → String → Except JsError String
  generateNullifierHash : String → Except JsError String
  getStats : Except JsError Stats
  getLatestRoot : Except JsError String
  nullifierHashes : String → Except JsError Bool
  deposit : String → Int → Except JsError Tx
  insertLeaf : String → Except JsError Tx
  withdraw : String → String → String → String → Except JsError Tx
  withdrawTokens : String → String → String → String → Int → Except JsError Tx
  balanceOf : String → String → Except JsError Nat
  transfer : String → String → Int → Except JsError Tx

/-- How a block of a handler ends: it runs to its end, executes `return`, or throws. -/
inductive Outcome where
  | finished
  | returned
  | threw (e : JsError)
  deriving DecidableEq, Repr

/-- Put effects in front of a run. -/
def andThen {ε : Type} (pre : List ε) (r : List ε × Outcome) : List ε × Outcome :=
  (pre ++ r.1, r.2)

/-- An awaited external call: it is recorded with its success, a failure throws. -/
def callThen {ε α : Type} (mk : Bool → ε) (resp : Except JsError α)
    (k : α → List ε × Outcome) : List ε × Outcome :=
  match resp with
  | .error e => ([mk false], .threw e)
  | .ok a => andThen [mk true] (k a)

/-- The first log of a receipt, in order, that parses as the event `name`. -/
def findEvent (name : String) : List (Option ParsedLog) → Option ParsedLog
  | [] => none
  | none :: logs => findEvent name logs
  | some l :: logs => if l.name = name then some l else findEvent name logs

/-- The contract provider of a read-only call: the signer if there is one, else the
read-only selection. -/
def hasContractProvider (p : Props) (w : World) : Bool :=
  p.signer.isSome || (readOnlyProvider w.ethereum).isSome

/-! ## `AnonymousWithdrawal.jsx` -/

/-- The displayed pool statistics (`poolStats`). -/
structure PoolStats where
  balance : String
  deposits : String
  withdrawals : String
  anonymitySet : String
  deriving DecidableEq, Repr

/-- The record `withdrawalInfo` (fields not set by a path are `""`). -/
structure WithdrawalInfo where
  recipient : String
  nullifierHash : String
  txHash : String
  withdrawalType : String
  tokenAddress : String
  tokenSymbol : String
  tokenAmount : String
  poolAddress : String
  poolBalance : String
  note : String
  deriving DecidableEq, Repr

/-- The state of the component `AnonymousWithdrawal` (its `useState` cells). -/
structure WState where
  nullifier : String
  nullifierHash : String
  recipient : String
  root : String
  status : Option Status
  loading : Bool
  withdrawalInfo : Option WithdrawalInfo
  poolStats : Option PoolStats
  withdrawalType : String
  selectedToken : Option Token
  tokenAmount : String
  tokenDecimals : Nat
  deriving DecidableEq, Repr

/-- The initial values of the `useState` cells. -/
def WState.initial : WState :=
  { nullifier := "", nullifierHash := "", recipient := "", root := "", status := none,
    loading := false, withdrawalInfo := none, poolStats := none, withdrawalType := "ETH",
    selectedToken := none, tokenAmount := "", tokenDecimals := 18 }

/-- What a handler of `AnonymousWithdrawal` does, in program order: calls of the state
setters, external calls with their success (`call` when the request is made, `mined` when
`tx.wait()` settles) and the start of `loadPoolStats()`. -/
inductive WEffect where
  | setNullifier (v : String)
  | setNullifierHash (v : String)
  | setRecipient (v : String)
  | setRoot (v : String)
  | setStatus (v : Option Status)
  | setLoading (v : Bool)
  | setWithdrawalInfo (v : Option WithdrawalInfo)
  | setPoolStats (v : Option PoolStats)
  | setWithdrawalType (v : String)
  | setSelectedToken (v : Option Token)
  | setTokenAmount (v : String)
  | setTokenDecimals (v : Nat)
  | call (c : Call) (ok : Bool)
  | mined (c : Call) (ok : Bool)
  | startLoadPoolStats
  deriving DecidableEq, Repr

/-- The state after one effect. -/
def WState.apply (s : WState) : WEffect → WState
  | .setNullifier v => { s with nullifier := v }
  | .setNullifierHash v => { s with nullifierHash := v }
  | .setRecipient v => { s with recipient := v }
  | .setRoot v => { s with root := v }
  | .setStatus v => { s with status := v }
  | .setLoading v => { s with loading := v }
  | .setWithdrawalInfo v => { s with withdrawalInfo := v }
  | .setPoolStats v => { s with poolStats := v }
  | .setWithdrawalType v => { s with withdrawalType := v }
  | .setSelectedToken v => { s with selectedToken := v }
  | .setTokenAmount v => { s with tokenAmount := v }
  | .setTokenDecimals v => { s with tokenDecimals := v }
  | .call _ _ => s
  | .mined _ _ => s
  | .startLoadPoolStats => s

/-- The state after a list of effects. -/
def WState.applyAll (s : WState) (effects : List WEffect) : WState :=
  effects.foldl WState.apply s

/-- The calls requested in a list of effects. -/
def wCalls : List WEffect → List Call
  | [] => []
  | .call c _ :: rest => c :: wCalls rest
  | _ :: rest => wCalls rest

/-- An error banner. -/
def errorStatus (message : String) : Option Status := some { type := "error", message := message }

/-- An information banner. -/
def infoStatus (message : String) : Option Status := some { type := "info", message := message }

/-- A success banner. -/
def successStatus (message : String) : Option Status :=
  some { type := "success", message := message }

/-- The function `loadPoolStats` of `AnonymousWithdrawal`. -/
def loadPoolStats (p : Props) (w : World) : List WEffect :=
  if p.poolAddress = "" then []
  else if hasContractProvider p w = false then []
  else
    match w.getStats with
    | .error _ =>
      [.call .getStats false, .setStatus (errorStatus
        "Failed to load pool stats. Make sure you\x27re on Sepolia network.")]
    | .ok stats =>
      match w.getLatestRoot with
      | .error _ =>
        [.call .getStats true, .call .getLatestRoot false, .setStatus (errorStatus
          "Failed to load pool stats. Make sure you\x27re on Sepolia network.")]
      | .ok latestRoot =>
        [.call .getStats true, .call .getLatestRoot true,
         .setPoolStats (some { balance := formatEther stats.poolBalance,
                               deposits := Nat.repr stats.deposits,
                               withdrawals := Nat.repr stats.withdrawals,
                               anonymitySet := Nat.repr stats.anonymitySet }),
         .setRoot latestRoot]

/-- The effect hook of `AnonymousWithdrawal` on `[account, poolAddress, signer]`. -/
def withdrawalEffectHook (p : Props) (w : World) : List WEffect :=
  (match p.account with
   | some a => if a = "" then [] else [.setRecipient a]
   | none => []) ++ loadPoolStats p w

/-- The function `handleGenerateNullifierHash`. -/
def handleGenerateNullifierHash (p : Props) (s : WState) (w : World) : List WEffect :=
  if s.nullifier = "" ∨ p.poolAddress = "" then
    [.setStatus (errorStatus "Please enter a nullifier")]
  else if hasContractProvider p w = false then
    [.setStatus (errorStatus "Please connect MetaMask wallet")]
  else
    .setStatus (infoStatus "Generating nullifier hash...") ::
      (match w.generateNullifierHash s.nullifier with
       | .ok hash =>
         [.call (.generateNullifierHash s.nullifier) true, .setNullifierHash hash,
          .setStatus (successStatus "Nullifier hash generated!")]
       | .error e =>
         [.call (.generateNullifierHash s.nullifier) false,
          .setStatus (errorStatus
            (orElse e.reason (orElse e.message "Failed to generate nullifier hash")))])

/-- The test `isMissingFunction` of the inner `catch` of the token withdrawal. -/
def isMissingFunction (e : JsError) : Bool :=
  includes e.message "withdrawTokens" || includes e.message "does not exist" ||
    includes e.message "execution reverted (unknown custom error)" ||
    (e.code = "CALL_EXCEPTION" && e.data = "0x90b8ec18")

/-- The inner `catch` of the token withdrawal: the banner, the record `withdrawalInfo` with
`txHash: 'not_executed'`, then `setLoading(false); return`. -/
def tokenWithdrawalFailed (p : Props) (s : WState) (tok : Token) (poolBalance : Nat)
    (e : JsError) : List WEffect × Outcome :=
  ([.setStatus (errorStatus
      (if isMissingFunction e || (e.code = "CALL_EXCEPTION" && e.data = "0x90b8ec18") then
        "The pool contract at " ++ p.poolAddress ++ " doesn\x27t have a withdrawTokens function. This might mean: (1) The contract was deployed before the function was added, (2) The browser cache needs to be cleared (Ctrl+Shift+R), or (3) A new pool needs to be deployed. Pool has " ++ formatUnits poolBalance tok.decimals ++ " " ++ tok.symbol ++ " available."
       else
        "Withdrawal failed: " ++
          orElse e.reason (orElse e.message (orElse e.data "Failed to withdraw tokens")) ++
          ". Check browser console for details.")),
    .setWithdrawalInfo (some
      { recipient := s.recipient, nullifierHash := s.nullifierHash, txHash := "not_executed",
        withdrawalType := "TOKEN", tokenAddress := tok.address, tokenSymbol := tok.symbol,
        tokenAmount := s.tokenAmount, poolAddress := p.poolAddress,
        poolBalance := formatUnits poolBalance tok.decimals,
        note := "Pool contract needs withdrawTokens function. Deploy a new pool with token support." }),
    .setLoading false], .returned)

/-- The branch `withdrawalType === 'TOKEN'` of `handleWithdraw`, inside the outer `try`. -/
def tokenWithdrawal (p : Props) (s : WState) (w : World) : List WEffect × Outcome :=
  match s.selectedToken with
  | none =>
    ([.setStatus (errorStatus "Please select token and enter amount for token withdrawal"),
      .setLoading false], .returned)
  | some tok =>
    if s.tokenAmount = "" then
      ([.setStatus (errorStatus "Please select token and enter amount for token withdrawal"),
        .setLoading false], .returned)
    else
      match parseUnits s.tokenAmount tok.decimals with
      | .error e => ([], .threw e)
      | .ok amount =>
        callThen (WEffect.call (.balanceOf tok.address p.poolAddress))
          (w.balanceOf tok.address p.poolAddress) fun poolBalance =>
        if (poolBalance : Int) < amount then
          ([.setStatus (errorStatus ("Pool doesn\x27t have enough tokens. Pool balance: " ++
              formatUnits poolBalance tok.decimals ++ " " ++ tok.symbol)),
            .setLoading false], .returned)
        else
          callThen (WEffect.call (.nullifierHashes s.nullifierHash))
            (w.nullifierHashes s.nullifierHash) fun isUsed =>
          if isUsed then
            ([.setStatus (errorStatus
                "This nullifier has already been used. Each deposit can only be withdrawn once."),
              .setLoading false], .returned)
          else
            andThen [.setStatus (infoStatus "Checking contract function...")]
              (if w.hasWithdrawTokens = false then
                ([.setStatus (errorStatus
                    "The pool contract ABI doesn\x27t include withdrawTokens function. Please refresh the page or update the ABI file."),
                  .setLoading false], .returned)
               else
                andThen [.setStatus (infoStatus "Withdrawing tokens...")]
                  (match w.withdrawTokens s.nullifierHash s.recipient s.root tok.address
                      amount with
                   | .error e =>
                     andThen [.call (.withdrawTokens s.nullifierHash s.recipient s.root
                        tok.address amount) false] (tokenWithdrawalFailed p s tok poolBalance e)
                   | .ok tx =>
                     andThen [.call (.withdrawTokens s.nullifierHash s.recipient s.root
                        tok.address amount) true,
                       .setStatus (infoStatus "Transaction pending...")]
                       (match tx.wait with
                        | .error e =>
                          andThen [.mined (.withdrawTokens s.nullifierHash s.recipient s.root
                            tok.address amount) false]
                            (tokenWithdrawalFailed p s tok poolBalance e)
                        | .ok receipt =>
                          (.mined (.withdrawTokens s.nullifierHash s.recipient s.root
                              tok.address amount) true ::
                            (match findEvent "TokenWithdrawal" receipt.logs with
                             | some parsed =>
                               [.setWithdrawalInfo (some
                                  { recipient := parsed.toAddress,
                                    nullifierHash := parsed.nullifierHash,
                                    txHash := receipt.hash, withdrawalType := "TOKEN",
                                    tokenAddress := tok.address, tokenSymbol := tok.symbol,
                                    tokenAmount := s.tokenAmount, poolAddress := "",
                                    poolBalance := "", note := "" }),
                                .setStatus (successStatus ("Token withdrawal successful! " ++
                                  s.tokenAmount ++ " " ++ tok.symbol ++ " sent to " ++
                                  s.recipient))]
                             | none =>
                               [.setStatus (successStatus "Token withdrawal successful!")]),
                           .finished))))

/-- The `else` branch of `handleWithdraw` (ETH withdrawal), inside the outer `try`. -/
def ethWithdrawal (s : WState) (w : World) : List WEffect × Outcome :=
  callThen (WEffect.call (.withdraw s.nullifierHash s.recipient s.root ZeroAddress))
    (w.withdraw s.nullifierHash s.recipient s.root ZeroAddress) fun tx =>
  andThen [.setStatus (infoStatus "Transaction pending...")]
    (callThen (WEffect.mined (.withdraw s.nullifierHash s.recipient s.root ZeroAddress))
      tx.wait fun receipt =>
      (match findEvent "Withdrawal" receipt.logs with
       | some parsed =>
         [.setWithdrawalInfo (some
            { recipient := parsed.toAddress, nullifierHash := parsed.nullifierHash,
              txHash := receipt.hash, withdrawalType := "ETH", tokenAddress := "",
              tokenSymbol := "", tokenAmount := "", poolAddress := "", poolBalance := "",
              note := "" }),
          .setStatus (successStatus "ETH withdrawal successful!")]
       | none => [.setStatus (successStatus "Withdrawal successful!")],
       .finished))

/-- The `try`, `catch` and `finally` of `handleWithdraw`, after its four guards. -/
def withdrawBody (p : Props) (s : WState) (w : World) : List WEffect :=
  let branch := if s.withdrawalType = "TOKEN" then tokenWithdrawal p s w else ethWithdrawal s w
  (match branch.2 with
   | .finished =>
     branch.1 ++ [.startLoadPoolStats, .setNullifier "", .setNullifierHash ""] ++
       (if s.withdrawalType = "TOKEN" then [.setSelectedToken none, .setTokenAmount ""] else [])
   | .returned => branch.1
   | .threw e =>
     branch.1 ++ [.setStatus (errorStatus (orElse e.reason (orElse e.message
       "Failed to withdraw")))]) ++ [.setLoading false]

/-- The function `handleWithdraw`. -/
def handleWithdraw (p : Props) (s : WState) (w : World) : List WEffect :=
  if p.signer.isNone ∨ accountSet p.account = false then
    [.setStatus (errorStatus "Please connect your wallet first")]
  else if s.nullifierHash = "" then
    [.setStatus (errorStatus "Please generate nullifier hash first")]
  else if s.recipient = "" ∨ w.isAddress s.recipient = false then
    [.setStatus (errorStatus "Please enter a valid recipient address")]
  else if s.root = "" then
    [.setStatus (errorStatus "Please load the latest root first")]
  else
    [.setLoading true, .setStatus none] ++ withdrawBody p s w

/-- The user and lifecycle events of `AnonymousWithdrawal`. -/
inductive WEvent where
  | effectHook
  | refreshPoolInfo
  | generateNullifierHash
  | withdraw
  | editNullifier (v : String)
  | editRecipient (v : String)
  | selectWithdrawalType (v : String)
  | selectToken (address : String)
  | editTokenAmount (v : String)
  deriving DecidableEq, Repr

/-- The effects of an event: the handler attached to it in the JSX. -/
def WEvent.effects (p : Props) (s : WState) (w : World) : WEvent → List WEffect
  | .effectHook => withdrawalEffectHook p w
  | .refreshPoolInfo => loadPoolStats p w
  | .generateNullifierHash => handleGenerateNullifierHash p s w
  | .withdraw => handleWithdraw p s w
  | .editNullifier v => [.setNullifier v]
  | .editRecipient v => [.setRecipient v]
  | .selectWithdrawalType v => [.setWithdrawalType v, .setSelectedToken none, .setTokenAmount ""]
  | .selectToken address =>
    match p.deployedTokens.find? (fun t => t.address = address) with
    | some t => [.setSelectedToken (some t), .setTokenDecimals t.decimals]
    | none => [.setSelectedToken none]
  | .editTokenAmount v => [.setTokenAmount v]

/-- The state after an event. -/
def WState.after (p : Props) (s : WState) (w : World) (ev : WEvent) : WState :=
  s.applyAll (ev.effects p s w)

/-- The roots returned by `pool.getLatestRoot()` during a list of effects. -/
def observedRoots (w : World) : List WEffect → List String
  | [] => []
  | .call .getLatestRoot true :: rest =>
    (match w.getLatestRoot with
     | .ok r => [r]
     | .error _ => []) ++ observedRoots w rest
  | _ :: rest => observedRoots w rest

/-- The states of `AnonymousWithdrawal` reachable from the initial one by any sequence of
events, each handled to its end under any props and any world, together with the roots
`pool.getLatestRoot()` has returned so far. -/
inductive WReachable : WState → List String → Prop where
  | initial : WReachable WState.initial []
  | step (s : WState) (seen : List String) (p : Props) (w : World) (ev : WEvent) :
      WReachable s seen →
      WReachable (s.after p w ev) (seen ++ observedRoots w (ev.effects p s w))

/-! ## `AnonymousDeposit.jsx` -/

/-- The record `depositInfo` (fields not set by a path are `""`). -/
structure DepositInfo where
  commitment : String
  leafIndex : String
  txHash : String
  tokenAddress : String
  tokenAmount : String
  tokenSymbol : String
  depositType : String
  deriving DecidableEq, Repr

/-- The state of the component `AnonymousDeposit` (its `useState` cells). -/
structure DState where
  secret : String
  nullifier : String
  commitment : String
  status : Option Status
  loading : Bool
  depositAmount : Option String
  fee : Option String
  depositInfo : Option DepositInfo
  depositType : String
  selectedToken : Option Token
  tokenBalance : Option Nat
  tokenDecimals : Nat
  tokenAmount : String
  approved : Bool
  deriving DecidableEq, Repr

/-- The initial values of the `useState` cells. -/
def DState.initial : DState :=
  { secret := "", nullifier := "", commitment := "", status := none, loading := false,
    depositAmount := none, fee := none, depositInfo := none, depositType := "ETH",
    selectedToken := none, tokenBalance := none, tokenDecimals := 18, tokenAmount := "",
    approved := false }

/-- What a handler of `AnonymousDeposit` does, in program order: calls of the state setters,
external calls with their success, and `setTimeout(() => generateCommitment(s, n), 100)`. -/
inductive DEffect where
  | setSecret (v : String)
  | setNullifier (v : String)
  | setCommitment (v : String)
  | setStatus (v : Option Status)
  | setLoading (v : Bool)
  | setDepositAmount (v : Option String)
  | setFee (v : Option String)
  | setDepositInfo (v : Option DepositInfo)
  | setDepositType (v : String)
  | setSelectedToken (v : Option Token)
  | setTokenAmount (v : String)
  | setApproved (v : Bool)
  | call (c : Call) (ok : Bool)
  | mined (c : Call) (ok : Bool)
  | scheduleGenerateCommitment (secret nullifier : String)
  deriving DecidableEq, Repr

/-- The state after one effect. -/
def DState.apply (s : DState) : DEffect → DState
  | .setSecret v => { s with secret := v }
  | .setNullifier v => { s with nullifier := v }
  | .setCommitment v => { s with commitment := v }
  | .setStatus v => { s with status := v }
  | .setLoading v => { s with loading := v }
  | .setDepositAmount v => { s with depositAmount := v }
  | .setFee v => { s with fee := v }
  | .setDepositInfo v => { s with depositInfo := v }
  | .setDepositType v => { s with depositType := v }
  | .setSelectedToken v => { s with selectedToken := v }
  | .setTokenAmount v => { s with tokenAmount := v }
  | .setApproved v => { s with approved := v }
  | .call _ _ => s
  | .mined _ _ => s
  | .scheduleGenerateCommitment _ _ => s

/-- The state after a list of effects. -/
def DState.applyAll (s : DState) (effects : List DEffect) : DState :=
  effects.foldl DState.apply s

/-- The calls requested in a list of effects. -/
def dCalls : List DEffect → List Call
  | [] => []
  | .call c _ :: rest => c :: dCalls rest
  | _ :: rest => dCalls rest

/-- The function `loadPoolInfo` of `AnonymousDeposit`. -/
def loadPoolInfo (p : Props) (w : World) : List DEffect :=
  if p.poolAddress = "" then []
  else if hasContractProvider p w = false then []
  else
    match w.DEPOSIT_AMOUNT with
    | .error _ =>
      [.call .DEPOSIT_AMOUNT false, .setStatus (errorStatus
        "Failed to load pool info. Make sure you\x27re on Sepolia network.")]
    | .ok deposit =>
      match w.FEE with
      | .error _ =>
        [.call .DEPOSIT_AMOUNT true, .call .FEE false, .setStatus (errorStatus
          "Failed to load pool info. Make sure you\x27re on Sepolia network.")]
      | .ok poolFee =>
        [.call .DEPOSIT_AMOUNT true, .call .FEE true,
         .setDepositAmount (some (formatEther deposit)), .setFee (some (formatEther poolFee))]

/-- The library function `ethers.hexlify` on a byte array: `0x` and two lower-case
hexadecimal digits per byte. -/
def hexlify (bytes : List Nat) : String :=
  String.mk ('0' :: 'x' :: bytes.flatMap (fun b => [Nat.digitChar (b / 16 % 16),
    Nat.digitChar (b % 16)]))

/-- The function `generateRandomBytes`: `ethers.hexlify(ethers.randomBytes(32))`, given the
32 bytes the random source returned. -/
def generateRandomBytes (randomBytes : List Nat) : String := hexlify randomBytes

/-- The function `generateSecrets`, given the outcomes of its two draws of 32 random
bytes. -/
def generateSecrets (p : Props) (draw1 draw2 : List Nat) : List DEffect :=
  [.setSecret (generateRandomBytes draw1), .setNullifier (generateRandomBytes draw2),
   .setCommitment "", .setStatus none] ++
  (if p.poolAddress = "" then []
   else [.scheduleGenerateCommitment (generateRandomBytes draw1) (generateRandomBytes draw2)])

/-- The function `generateCommitment(secretValue, nullifierValue)`; an argument left out is
`""`. -/
def generateCommitment (p : Props) (s : DState) (w : World) (secretValue nullifierValue : String) :
    List DEffect :=
  if p.poolAddress = "" then [.setStatus (errorStatus "Pool address not configured")]
  else if orElse secretValue s.secret = "" ∨ orElse nullifierValue s.nullifier = "" then
    [.setStatus (errorStatus "Please generate secrets first")]
  else if hasContractProvider p w = false then
    [.setStatus (errorStatus "Please connect MetaMask wallet")]
  else
    .setStatus (infoStatus "Generating commitment...") ::
      (match w.generateCommitment (orElse secretValue s.secret)
          (orElse nullifierValue s.nullifier) with
       | .ok commitmentHash =>
         [.call (.generateCommitment (orElse secretValue s.secret)
            (orElse nullifierValue s.nullifier)) true,
          .setCommitment commitmentHash,
          .setStatus (successStatus "Commitment generated successfully!")]
       | .error e =>
         [.call (.generateCommitment (orElse secretValue s.secret)
            (orElse nullifierValue s.nullifier)) false,
          .setStatus (errorStatus
            (orElse e.reason (orElse e.message "Failed to generate commitment")))])

/-- The ETH branch of `handleDeposit` with the code after the branches, inside the `try`:
`pool.deposit(commitment, value: parseEther(depositAmount || '0.001'))`, then the receipt
and the `Deposit` event. -/
def ethDeposit (s : DState) (w : World) : List DEffect × Outcome :=
  match parseEther (match s.depositAmount with
                    | some a => orElse a "0.001"
                    | none => "0.001") with
  | .error e => ([], .threw e)
  | .ok value =>
    callThen (DEffect.call (.deposit s.commitment value)) (w.deposit s.commitment value) fun tx =>
    andThen [.setStatus (infoStatus "Transaction pending...")]
      (callThen (DEffect.mined (.deposit s.commitment value)) tx.wait fun receipt =>
        (match findEvent "Deposit" receipt.logs with
         | some parsed =>
           [.setDepositInfo (some
              { commitment := parsed.commitment, leafIndex := Nat.repr parsed.leafIndex,
                txHash := receipt.hash, tokenAddress := "", tokenAmount := "",
                tokenSymbol := "", depositType := "ETH" }),
            .setStatus (successStatus ("Deposit successful! Leaf index: " ++
              Nat.repr parsed.leafIndex))]
         | none => [.setStatus (successStatus "Deposit successful!")],
         .finished))

/-- The token branch of `handleDeposit`, inside the `try`: balance check, `token.transfer`
to the pool, `pool.insertLeaf`, the record and the clearing of the form. -/
def tokenDeposit (p : Props) (s : DState) (w : World) : List DEffect × Outcome :=
  match s.selectedToken with
  | none => ([], .threw (libraryError "Cannot read properties of null" "TypeError"))
  | some tok =>
    match parseUnits s.tokenAmount tok.decimals with
    | .error e => ([], .threw e)
    | .ok amount =>
      callThen (DEffect.call (.balanceOf tok.address (p.account.getD "")))
        (w.balanceOf tok.address (p.account.getD "")) fun balance =>
      if (balance : Int) < amount then
        ([.setStatus (errorStatus "Insufficient token balance"), .setLoading false], .returned)
      else
        andThen [.setStatus (infoStatus "Transferring tokens to pool...")]
          (callThen (DEffect.call (.transfer tok.address p.poolAddress amount))
            (w.transfer tok.address p.poolAddress amount) fun transferTx =>
           callThen (DEffect.mined (.transfer tok.address p.poolAddress amount))
            transferTx.wait fun _ =>
           andThen [.setStatus (infoStatus "Creating commitment in pool..."),
                    .setStatus (infoStatus "Adding commitment to merkle tree...")]
            (callThen (DEffect.call (.insertLeaf s.commitment)) (w.insertLeaf s.commitment)
              fun insertTx =>
             callThen (DEffect.mined (.insertLeaf s.commitment)) insertTx.wait
              fun insertReceipt =>
              ([.setDepositInfo (some
                  { commitment := s.commitment,
                    leafIndex := (match findEvent "LeafInserted" insertReceipt.logs with
                                  | some parsed => Nat.repr parsed.leafIndex
                                  | none => "unknown"),
                    txHash := transferTx.hash, tokenAddress := tok.address,
                    tokenAmount := s.tokenAmount, tokenSymbol := tok.symbol,
                    depositType := "TOKEN" }),
                .setStatus (successStatus ("Token deposit successful! " ++
                  (match findEvent "LeafInserted" insertReceipt.logs with
                   | some parsed => "Leaf index: " ++ Nat.repr parsed.leafIndex
                   | none => "Tokens transferred and commitment added"))),
                .setTokenAmount "", .setSelectedToken none, .setSecret "", .setNullifier "",
                .setCommitment "", .setApproved false, .setLoading false], .returned)))

/-- The `try`, `catch` and `finally` of `handleDeposit`, after its three guards. -/
def depositBody (p : Props) (s : DState) (w : World) : List DEffect :=
  let branch := if s.depositType = "ETH" then ethDeposit s w else tokenDeposit p s w
  (match branch.2 with
   | .threw e =>
     branch.1 ++ [.setStatus (errorStatus (orElse e.reason (orElse e.message
       "Failed to make deposit")))]
   | _ => branch.1) ++ [.setLoading false]

/-- The function `handleDeposit`. -/
def handleDeposit (p : Props) (s : DState) (w : World) : List DEffect :=
  if p.signer.isNone ∨ accountSet p.account = false then
    [.setStatus (errorStatus "Please connect your wallet first")]
  else if s.secret = "" ∨ s.nullifier = "" ∨ s.commitment = "" then
    [.setStatus (errorStatus "Please generate secrets and commitment first")]
  else if s.depositType = "TOKEN" ∧ (s.selectedToken = none ∨ s.tokenAmount = "") then
    [.setStatus (errorStatus "Please select a token and enter amount")]
  else
    [.setLoading true, .setStatus none] ++ depositBody p s w

/-- The balances of one token held by the payer and by the pool. -/
structure TokenBalances where
  payer : Int
  pool : Int
  deriving DecidableEq, Repr

/-- The effect of a handler run on the token balances: every transfer to the pool that was
mined moves its amount from the payer to the pool (the semantics of ERC-20 `transfer`);
no other effect of the component moves tokens. -/
def balancesAfter (token poolAddress : String) : List DEffect → TokenBalances → TokenBalances
  | [], b => b
  | .mined (.transfer t dest amount) true :: rest, b =>
    balancesAfter token poolAddress rest
      (if t = token ∧ dest = poolAddress then { payer := b.payer - amount, pool := b.pool + amount }
       else b)
  | _ :: rest, b => balancesAfter token poolAddress rest b

/-- The component with its pending timers: `generateSecrets` schedules a call of
`generateCommitment` with the values just drawn. -/
structure DSystem where
  state : DState
  timers : List (String × String)
  deriving DecidableEq, Repr

/-- The timers scheduled in a list of effects. -/
def scheduled : List DEffect → List (String × String)
  | [] => []
  | .scheduleGenerateCommitment s n :: rest => (s, n) :: scheduled rest
  | _ :: rest => scheduled rest

/-- The user, lifecycle and timer events of `AnonymousDeposit`. -/
inductive DEvent where
  | effectHook
  | generateSecrets (draw1 draw2 : List Nat)
  | timerFires (index : Nat)
  | clickGenerateCommitment
  | deposit
  | selectDepositType (v : String)
  | selectToken (address : String)
  | editTokenAmount (v : String)
  deriving DecidableEq, Repr

/-- The effects of an event: the handler attached to it in the JSX; a timer that fires runs
`generateCommitment` with the values captured when it was scheduled. -/
def DEvent.effects (p : Props) (sys : DSystem) (w : World) : DEvent → List DEffect
  | .effectHook => loadPoolInfo p w
  | .generateSecrets draw1 draw2 => Client.generateSecrets p draw1 draw2
  | .timerFires index =>
    match sys.timers.get? index with
    | some (secret, nullifier) => generateCommitment p sys.state w secret nullifier
    | none => []
  | .clickGenerateCommitment => generateCommitment p sys.state w "" ""
  | .deposit => handleDeposit p sys.state w
  | .selectDepositType v =>
    [.setDepositType v, .setSelectedToken none, .setTokenAmount "", .setApproved false]
  | .selectToken address =>
    [.setSelectedToken (p.deployedTokens.find? (fun t => t.address = address)),
     .setTokenAmount "", .setApproved false]
  | .editTokenAmount v => [.setTokenAmount v, .setApproved false]

/-- The system after an event: the state after the effects, the fired timer removed and the
newly scheduled timers added. -/
def DSystem.after (p : Props) (sys : DSystem) (w : World) (ev : DEvent) : DSystem :=
  { state := sys.state.applyAll (ev.effects p sys w),
    timers := (match ev with
               | .timerFires index => sys.timers.eraseIdx index
               | _ => sys.timers) ++ scheduled (ev.effects p sys w) }

/-- Run a list of events in order, each under the same props and world. -/
def DSystem.run (p : Props) (w : World) : DSystem → List DEvent → DSystem
  | sys, [] => sys
  | sys, ev :: evs => DSystem.run p w (sys.after p w ev) evs

/-- Run a list of events of `AnonymousWithdrawal` in order, each under the same props and
world. -/
def WState.run (p : Props) (w : World) : WState → List WEvent → WState
  | s, [] => s
  | s, ev :: evs => WState.run p w (s.after p w ev) evs

/-! ## Concrete props, states and worlds used to evaluate the handlers -/

/-- Props of a connected wallet, with the pool address of `App.jsx`. -/
def demoProps : Props :=
  { signer := some { address := "0x1111111111111111111111111111111111111111" },
    account := some "0x1111111111111111111111111111111111111111",
    poolAddress := "0xB4bc248dCE51D479b8DF381FC716B74D10DfE14D",
    deployedTokens := [] }

/-- A 32-byte word written as `0x` and 64 times one hexadecimal digit. -/
def word (c : Char) : String := String.mk ('0' :: 'x' :: List.replicate 64 c)

/-- A stand-in for the pool hash in the demo worlds: the first 32 hexadecimal digits of each
input, the second input padded with zeros.  It is deterministic and returns 32-byte words;
the construction of the deployed hash is not part of the sources. -/
def toyHash (a b : String) : String :=
  String.mk ('0' :: 'x' :: ((a.data.drop 2).take 32 ++
    ((b.data.drop 2).take 32 ++ List.replicate 32 '0').take 32))

/-- The error a reverted transaction throws. -/
def revertError (reason : String) : JsError :=
  { reason := reason, message := "execution reverted", code := "CALL_EXCEPTION", data := "" }

/-- A receipt without logs. -/
def plainTx (hash : String) : Tx := { hash := hash, wait := .ok { hash := hash, logs := [] } }

/-- A world whose pool answers every request: the stand-in hash, deposit
amount 0.002 ETH, every transaction mined, no nullifier spent. -/
def demoWorld : World :=
  { ethereum := none,
    isAddress := isHexAddress,
    hasWithdrawTokens := true,
    DEPOSIT_AMOUNT := .ok 2000000000000000,
    FEE := .ok 100000000000000,
    generateCommitment := fun s n => .ok (toyHash s n),
    generateNullifierHash := fun n => .ok (toyHash n ""),
    getStats := .ok { poolBalance := 0, deposits := 0, withdrawals := 0, anonymitySet := 0 },
    getLatestRoot := .ok (word 'c'),
    nullifierHashes := fun _ => .ok false,
    deposit := fun _ _ => .ok (plainTx (word '5')),
    insertLeaf := fun _ => .ok (plainTx (word '6')),
    withdraw := fun _ _ _ _ => .ok (plainTx (word '7')),
    withdrawTokens := fun _ _ _ _ _ => .ok (plainTx (word '8')),
    balanceOf := fun _ _ => .ok 100,
    transfer := fun _ _ _ => .ok (plainTx (word '9')) }

/-- A world whose pool has every nullifier hash spent: the lookup answers true and the pool
reverts withdrawals. -/
def spentWorld : World :=
  { demoWorld with
    nullifierHashes := fun _ => .ok true,
    withdraw := fun _ _ _ _ => .error (revertError "Nullifier already used"),
    withdrawTokens := fun _ _ _ _ _ => .error (revertError "Nullifier already used") }

/-- A world whose pool is full: `insertLeaf` reverts. -/
def fullWorld : World :=
  { demoWorld with insertLeaf := fun _ => .error (revertError "Tree is full") }

/-- A token of the demo worlds. -/
def demoToken : Token :=
  { address := "0x2222222222222222222222222222222222222222", name := "Demo", symbol := "DMO",
    decimals := 0 }

/-- A withdrawal form filled in for an ETH withdrawal. -/
def ethForm : WState :=
  { WState.initial with
    nullifier := word '1', nullifierHash := toyHash (word '1') "",
    recipient := "0x3333333333333333333333333333333333333333", root := word 'c' }

/-- The same form for a token withdrawal of 40 units. -/
def tokenForm : WState :=
  { ethForm with withdrawalType := "TOKEN", selectedToken := some demoToken, tokenAmount := "40" }

/-- A deposit form filled in for a token deposit of 40 units. -/
def tokenDepositForm : DState :=
  { DState.initial with
    secret := word 'a', nullifier := word 'b', commitment := toyHash (word 'a') (word 'b'),
    depositType := "TOKEN", selectedToken := some demoToken, tokenAmount := "40" }

/-- A deposit form for an ETH deposit made before `loadPoolInfo` stored the amount. -/
def ethDepositForm : DState :=
  { DState.initial with
    secret := word 'a', nullifier := word 'b', commitment := toyHash (word 'a') (word 'b') }

/-- Whether an effect writes the `root` cell. -/
def WEffect.isSetRoot : WEffect → Bool
  | .setRoot _ => true
  | _ => false

/-- The root argument of a payout call. -/
def Call.rootArg : Call → Option String
  | .withdraw _ _ root _ => some root
  | .withdrawTokens _ _ root _ _ => some root
  | _ => none

/-- An effect that is not a payout request, or is one carrying the root held in state. -/
def WEffect.carriesRoot (s : WState) : WEffect → Bool
  | .call c _ => !c.isPayout || decide (c.rootArg = some s.root)
  | _ => true

/-- The deposit component after `generateSecrets` has run twice, drawing the bytes
`01..01`, `02..02` and then `03..03`, `04..04`, and the timer of the first run has fired. -/
def afterSecondSecrets : DSystem :=
  DSystem.run demoProps demoWorld { state := DState.initial, timers := [] }
    [.generateSecrets (List.replicate 32 1) (List.replicate 32 2),
     .generateSecrets (List.replicate 32 3) (List.replicate 32 4),
     .timerFires 0]

/-- The withdrawal component after the nullifier `0x11..11` was entered and hashed and the
nullifier was then edited to `0x22..22`. -/
def afterNullifierEdit : WState :=
  WState.run demoProps demoWorld WState.initial
    [.editNullifier (word '1'), .generateNullifierHash, .editNullifier (word '2')]

/-! ## Hexadecimal words -/

/-- A lower-case hexadecimal digit, as `ethers.hexlify` writes them. -/
def isLowerHexDigit (c : Char) : Bool :=
  c.isDigit || ('a' ≤ c && c ≤ 'f')

/-- The value of a hexadecimal digit. -/
def hexDigitValue (c : Char) : Nat :=
  if c.isDigit then c.toNat - 48 else c.toNat - 87

/-- The number a string of hexadecimal digits denotes. -/
def hexValue (cs : List Char) : Nat :=
  cs.foldl (fun acc c => 16 * acc + hexDigitValue c) 0

/-- The number a byte array denotes, most significant byte first. -/
def bytesValue (bytes : List Nat) : Nat :=
  bytes.foldl (fun acc b => 256 * acc + b) 0

/-- A `0x`-prefixed string of exactly 64 lower-case hexadecimal digits. -/
def isHexWord (s : String) : Bool :=
  s.data.take 2 = ['0', 'x'] && (s.data.drop 2).length = 64 &&
    (s.data.drop 2).all isLowerHexDigit

/-! ## `App.jsx`: the choice of the injected provider -/

/-- The comparison `v === true`. -/
def JsValue.isTrue : JsValue → Bool
  | .boolean true => true
  | _ => false

/-- The function `getEthereumProvider` of `App.jsx`.  With `window.ethereum` undefined every
`window.ethereum?.x` is undefined and the result is null.  Strategy 1 handles an array of
providers; strategies 2 to 4 look at `window.ethereum` itself. -/
def getEthereumProvider (win : Option Ethereum) : Option Selected :=
  match win with
  | none => none
  | some e =>
    match e.providers with
    | .array ps =>
      findFrom (fun p => p.isMetaMask.isTrue && !p.isCoinbaseWallet.truthy) ps 0
    | _ =>
      if (e.isMetaMask.isTrue && !e.isCoinbaseWallet.truthy) && !e.isCoinbaseWallet.isTrue then
        some (.window e)
      else if e.isCoinbaseWallet.isTrue then none
      else if e.isMetaMask.isTrue then some (.window e)
      else none

/-- The flag `isMetaMask` of a selected provider. -/
def Selected.isMetaMask : Selected → JsValue
  | .element _ p => p.isMetaMask
  | .window e => e.isMetaMask

/-- The flag `isCoinbaseWallet` of a selected provider. -/
def Selected.isCoinbaseWallet : Selected → JsValue
  | .element _ p => p.isCoinbaseWallet
  | .window e => e.isCoinbaseWallet

/-- A provider that is MetaMask and not Coinbase Wallet: `isMetaMask` strictly true and
`isCoinbaseWallet` falsy. -/
def Selected.metaMaskOnly (sel : Selected) : Bool :=
  sel.isMetaMask.isTrue && !sel.isCoinbaseWallet.truthy

/-- A wallet object that claims to be MetaMask and carries a truthy `isCoinbaseWallet` flag
that is not the boolean `true`. -/
def mixedWallet : Ethereum :=
  { isMetaMask := .boolean true, isCoinbaseWallet := .number 1, providers := .absent }

/-! ## `WalletConnection.jsx` -/

/-- A rendered `button` element: class, click handler, `disabled` attribute and label. -/
structure Button (H : Type) where
  className : String
  onClick : H
  disabled : Bool
  label : String
  deriving DecidableEq, Repr

/-- A child of a rendered `div`: a text node or a `span` holding text. -/
inductive Child where
  | text (s : String)
  | span (s : String)
  deriving DecidableEq, Repr

/-- What `WalletConnection` renders: a `div` with children, or a `button`. -/
inductive View (H : Type) where
  | div (className : String) (children : List Child)
  | button (b : Button H)
  deriving DecidableEq, Repr

/-- The text of a child. -/
def Child.content : Child → String
  | .text s => s
  | .span s => s

/-- The text content of children, in document order. -/
def childrenText : List Child → String
  | [] => ""
  | c :: cs => c.content ++ childrenText cs

/-- The text content of a view. -/
def View.textContent {H : Type} : View H → String
  | .div _ children => childrenText children
  | .button b => b.label

/-- The buttons of a view. -/
def View.buttons {H : Type} : View H → List (Button H)
  | .div _ _ => []
  | .button b => [b]

/-- The component `WalletConnection`: the account line when `account` is truthy, else the
connect button with `onClick={onConnect}`. -/
def WalletConnection {H : Type} (account : Option String) (onConnect : H) : View H :=
  if accountSet account then
    .div "account-info" [.text "Connected: ", .span (account.getD "")]
  else
    .button { className := "button", onClick := onConnect, disabled := false,
              label := "Connect Wallet" }

/-- The handlers one click on a button invokes: its `onClick`, unless it is disabled. -/
def Button.click {H : Type} (b : Button H) : List H :=
  if b.disabled then [] else [b.onClick]

/-- The handlers invoked by `n` clicks on a button whose view does not change. -/
def Button.clicks {H : Type} (b : Button H) : Nat → List H
  | 0 => []
  | n + 1 => b.click ++ b.clicks n

/-! ## `CreateZToken.jsx` -/

/-- The characters `parseInt` skips in front of the number: JavaScript white space and line
terminators. -/
def isJsWhiteSpace (c : Char) : Bool :=
  c.toNat ∈ [0x09, 0x0A, 0x0B, 0x0C, 0x0D, 0x20, 0xA0, 0x1680, 0x2028, 0x2029, 0x202F, 0x205F,
    0x3000, 0xFEFF] || (0x2000 ≤ c.toNat && c.toNat ≤ 0x200A)

/-- The value of a character as a digit of `parseInt` (letters count from 10), if it is
one. -/
def radixDigit (c : Char) : Option Nat :=
  if c.isDigit then some (c.toNat - 48)
  else if 'a' ≤ c ∧ c ≤ 'z' then some (c.toNat - 87)
  else if 'A' ≤ c ∧ c ≤ 'Z' then some (c.toNat - 55)
  else none

/-- Whether a character is a digit of the given radix. -/
def isRadixDigit (radix : Nat) (c : Char) : Bool :=
  match radixDigit c with
  | some v => decide (v < radix)
  | none => false

/-- The value of a run of digits in the given radix. -/
def radixValue (radix : Nat) (cs : List Char) : Nat :=
  cs.foldl (fun acc c => radix * acc + (radixDigit c).getD 0) 0

/-- The sign of `parseInt`: a leading `-` or `+` is consumed. -/
def splitSign : List Char → Bool × List Char
  | c :: rest => if c = '-' then (true, rest) else if c = '+' then (false, rest)
                 else (false, c :: rest)
  | [] => (false, [])

/-- The radix of `parseInt` called without a radix: 16 after a `0x` or `0X`, which is
consumed, else 10. -/
def splitRadix : List Char → Nat × List Char
  | a :: b :: rest =>
    if a = '0' ∧ (b = 'x' ∨ b = 'X') then (16, rest) else (10, a :: b :: rest)
  | cs => (10, cs)

/-- The JavaScript function `parseInt(string)`; `none` stands for `NaN`.  The result is kept
exact: the rounding of JavaScript numbers beyond `2^53` does not move a value across the
bounds 0 and 18 it is compared with, and `-0` is `0`. -/
def parseInt (s : String) : Option Int :=
  let signed := splitSign (s.data.dropWhile isJsWhiteSpace)
  let based := splitRadix signed.2
  let digits := based.2.takeWhile (isRadixDigit based.1)
  if digits = [] then none
  else if signed.1 then some (- (radixValue based.1 digits : Int))
  else some (radixValue based.1 digits : Int)

/-- The props of `CreateZToken`; of the callback `onTokenCreated` only its presence is a
prop, an invocation is an effect. -/
structure CProps where
  signer : Option Signer
  account : Option String
  hasOnTokenCreated : Bool
  deriving DecidableEq, Repr

/-- The state of the component `CreateZToken` (its `useState` cells). -/
structure CState where
  name : String
  symbol : String
  decimals : String
  status : Option Status
  loading : Bool
  tokenAddress : Option String
  deriving DecidableEq, Repr

/-- The initial values of the `useState` cells. -/
def CState.initial : CState :=
  { name := "", symbol := "", decimals := "18", status := none, loading := false,
    tokenAddress := none }

/-- The external calls `handleDeploy` issues: the factory deployment and the calls on the
deployed token. -/
inductive TokenCall where
  | deploy (name symbol : String) (decimals : Int)
  | waitForDeployment
  | getAddress
  | name
  | symbol
  | decimals
  | mint (account : String) (amount : Int)
  deriving DecidableEq, Repr

/-- The answers of a deployed token contract object. -/
structure DeployedToken where
  waitForDeployment : Except JsError Unit
  getAddress : Except JsError String
  name : Except JsError String
  symbol : Except JsError String
  decimals : Except JsError Nat
  mint : String → Int → Except JsError Tx

/-- The answer of the contract factory to `factory.deploy(name, symbol, decimals)`. -/
structure FactoryWorld where
  deploy : String → String → Int → Except JsError DeployedToken

/-- What `handleDeploy` does, in program order: calls of the state setters, external calls
with their success, and the invocation of the callback `onTokenCreated`. -/
inductive CEffect where
  | setName (v : String)
  | setSymbol (v : String)
  | setDecimals (v : String)
  | setStatus (v : Option Status)
  | setLoading (v : Bool)
  | setTokenAddress (v : Option String)
  | call (c : TokenCall) (ok : Bool)
  | mined (c : TokenCall) (ok : Bool)
  | onTokenCreated (token : Token)
  deriving DecidableEq, Repr

/-- The state after one effect. -/
def CState.apply (s : CState) : CEffect → CState
  | .setName v => { s with name := v }
  | .setSymbol v => { s with symbol := v }
  | .setDecimals v => { s with decimals := v }
  | .setStatus v => { s with status := v }
  | .setLoading v => { s with loading := v }
  | .setTokenAddress v => { s with tokenAddress := v }
  | .call _ _ => s
  | .mined _ _ => s
  | .onTokenCreated _ => s

/-- The state after a list of effects. -/
def CState.applyAll (s : CState) (effects : List CEffect) : CState :=
  effects.foldl CState.apply s

/-- The calls requested in a list of effects. -/
def cCalls : List CEffect → List TokenCall
  | [] => []
  | .call c _ :: rest => c :: cCalls rest
  | _ :: rest => cCalls rest

/-- Whether a call is the factory deployment. -/
def TokenCall.isDeploy : TokenCall → Bool
  | .deploy _ _ _ => true
  | _ => false

/-- The `try` block of `handleDeploy`: deployment, the reads on the deployed token, the mint
of 10,000 tokens, the callback, the success status and the reset of the form. -/
def deployBody (p : CProps) (s : CState) (f : FactoryWorld) (decimalsNum : Int) :
    List CEffect × Outcome :=
  callThen (CEffect.call (.deploy s.name s.symbol decimalsNum))
    (f.deploy s.name s.symbol decimalsNum) fun token =>
  andThen [.setStatus (infoStatus "Deploying contract...")]
    (callThen (CEffect.call .waitForDeployment) token.waitForDeployment fun _ =>
     callThen (CEffect.call .getAddress) token.getAddress fun address =>
     andThen [.setTokenAddress (some address)]
      (callThen (CEffect.call .name) token.name fun tokenName =>
       callThen (CEffect.call .symbol) token.symbol fun tokenSymbol =>
       callThen (CEffect.call .decimals) token.decimals fun tokenDecimals =>
       andThen [.setStatus (infoStatus "Minting 10,000 tokens to your address...")]
        (match parseUnits "10000" tokenDecimals with
         | .error e => ([], .threw e)
         | .ok mintAmount =>
           callThen (CEffect.call (.mint (p.account.getD "") mintAmount))
             (token.mint (p.account.getD "") mintAmount) fun mintTx =>
           callThen (CEffect.mined (.mint (p.account.getD "") mintAmount)) mintTx.wait fun _ =>
           ((if p.hasOnTokenCreated then
               [.onTokenCreated { address := address, name := tokenName,
                                  symbol := tokenSymbol, decimals := tokenDecimals }]
             else []) ++
            [.setStatus (successStatus ("ZToken deployed successfully! 10,000 " ++
               tokenSymbol ++ " minted to your address. Address: " ++ address)),
             .setName "", .setSymbol "", .setDecimals "18"], .finished))))

/-- The function `handleDeploy`. -/
def handleDeploy (p : CProps) (s : CState) (f : FactoryWorld) : List CEffect :=
  if p.signer.isNone ∨ accountSet p.account = false then
    [.setStatus (errorStatus "Please connect your wallet first")]
  else if s.name = "" ∨ s.symbol = "" ∨ s.decimals = "" then
    [.setStatus (errorStatus "Please fill in all fields")]
  else
    match parseInt s.decimals with
    | none => [.setStatus (errorStatus "Decimals must be between 0 and 18")]
    | some decimalsNum =>
      if decimalsNum < 0 ∨ decimalsNum > 18 then
        [.setStatus (errorStatus "Decimals must be between 0 and 18")]
      else
        [.setLoading true, .setStatus none] ++
          (match (deployBody p s f decimalsNum).2 with
           | .threw e =>
             (deployBody p s f decimalsNum).1 ++ [.setStatus (errorStatus
               (orElse e.reason (orElse e.message "Failed to deploy ZToken")))]
           | _ => (deployBody p s f decimalsNum).1) ++ [.setLoading false]

/-- The deploy button of `CreateZToken`: `disabled={loading || !signer}`, labelled
`Deploying...` while loading and `Deploy ZToken` otherwise.  The click handler is named by
a string here. -/
def deployButton (p : CProps) (s : CState) : Button String :=
  { className := "button", onClick := "handleDeploy",
    disabled := s.loading || p.signer.isNone,
    label := if s.loading then "Deploying..." else "Deploy ZToken" }

/-- A deployed token that answers every call: 18 decimals, every transaction mined. -/
def demoDeployed : DeployedToken :=
  { waitForDeployment := .ok (),
    getAddress := .ok "0x4444444444444444444444444444444444444444",
    name := .ok "Test Token", symbol := .ok "TEST", decimals := .ok 18,
    mint := fun _ _ => .ok (plainTx (word '7')) }

/-- A factory whose deployments succeed. -/
def demoFactory : FactoryWorld := { deploy := fun _ _ _ => .ok demoDeployed }

/-- Props of `CreateZToken` with a connected wallet. -/
def demoCProps : CProps :=
  { signer := some { address := "0x1111111111111111111111111111111111111111" },
    account := some "0x1111111111111111111111111111111111111111", hasOnTokenCreated := true }

/-! ## `App.jsx` -/

/-- The integer a `0x`-prefixed hexadecimal string denotes, the way a wallet reads the
`chainId` parameter of a chain request; `none` when the string is not of that form. -/
def hexQuantity (s : String) : Option Nat :=
  if s.data.take 2 = ['0', 'x'] ∧ s.data.drop 2 ≠ [] ∧
      (s.data.drop 2).all (isRadixDigit 16) = true then
    some (radixValue 16 (s.data.drop 2))
  else none

/-- JavaScript truthiness of the field `providers`. -/
def ProvidersField.truthy : ProvidersField → Bool
  | .absent => false
  | .notArray => true
  | .array _ => true

/-- An error thrown by the injected wallet or by `ethers` inside `App`, with the two fields
the handlers read. -/
structure WalletError where
  code : JsValue
  message : String
  deriving DecidableEq, Repr

/-- The parameter object of a `wallet_addEthereumChain` request. -/
structure AddChainParams where
  chainId : String
  chainName : String
  currencyName : String
  currencySymbol : String
  currencyDecimals : Nat
  rpcUrls : List String
  blockExplorerUrls : List String
  deriving DecidableEq, Repr

/-- The requests `App` sends through `ethereum.request`. -/
inductive WalletRequest where
  | eth_accounts
  | eth_requestAccounts
  | wallet_switchEthereumChain (chainId : String)
  | wallet_addEthereumChain (params : AddChainParams)
  deriving DecidableEq, Repr

/-- The `chainId` parameter of a request, if it has one. -/
def WalletRequest.chainId : WalletRequest → Option String
  | .wallet_switchEthereumChain chainId => some chainId
  | .wallet_addEthereumChain params => some params.chainId
  | _ => none

/-- The answers of the wallet to `App`: `window.ethereum`, the account lists, the signer
and the chain id of `provider.getNetwork()`, and the outcome of the two chain requests. -/
structure WalletWorld where
  ethereum : Option Ethereum
  eth_accounts : Except WalletError (List String)
  eth_requestAccounts : Except WalletError (List String)
  getSigner : Except WalletError Signer
  getNetwork : Except WalletError Nat
  switchChain : String → Except WalletError Unit
  addChain : AddChainParams → Except WalletError Unit

/-- The state of `App` (its `useState` cells).  The `BrowserProvider` is represented by the
injected provider it wraps. -/
structure AppState where
  account : Option String
  provider : Option Selected
  signer : Option Signer
  deployedTokens : List Token
  deriving DecidableEq, Repr

/-- The initial values of the `useState` cells. -/
def AppState.initial : AppState :=
  { account := none, provider := none, signer := none, deployedTokens := [] }

/-- What a handler of `App` does, in program order: calls of the state setters, wallet
requests and provider calls with their success, alerts, console messages and
`window.location.reload()`. -/
inductive AEffect where
  | setAccount (v : Option String)
  | setProvider (v : Option Selected)
  | setSigner (v : Option Signer)
  | setDeployedTokens (v : List Token)
  | request (r : WalletRequest) (ok : Bool)
  | getSigner (ok : Bool)
  | getNetwork (ok : Bool)
  | alert (message : String)
  | consoleWarn (message : String)
  | consoleError (message : String)
  | reload
  deriving DecidableEq, Repr

/-- The state after one effect.  A reload leaves the cells as they are until the page is
loaded anew, which starts from `AppState.initial`. -/
def AppState.apply (s : AppState) : AEffect → AppState
  | .setAccount v => { s with account := v }
  | .setProvider v => { s with provider := v }
  | .setSigner v => { s with signer := v }
  | .setDeployedTokens v => { s with deployedTokens := v }
  | _ => s

/-- The state after a list of effects. -/
def AppState.applyAll (s : AppState) (effects : List AEffect) : AppState :=
  effects.foldl AppState.apply s

/-- The wallet requests in a list of effects. -/
def aRequests : List AEffect → List WalletRequest
  | [] => []
  | .request r _ :: rest => r :: aRequests rest
  | _ :: rest => aRequests rest

/-- The function `checkWalletConnection`. -/
def checkWalletConnection (w : WalletWorld) : List AEffect :=
  match getEthereumProvider w.ethereum with
  | none => []
  | some ethereum =>
    match w.eth_accounts with
    | .error _ =>
      [.request .eth_accounts false, .consoleError "Error checking wallet connection:"]
    | .ok accounts =>
      if accounts.length > 0 then
        match w.getSigner with
        | .error _ =>
          [.request .eth_accounts true, .getSigner false,
           .consoleError "Error checking wallet connection:"]
        | .ok signer =>
          match w.getNetwork with
          | .error _ =>
            [.request .eth_accounts true, .getSigner true, .getNetwork false,
             .consoleError "Error checking wallet connection:"]
          | .ok chainId =>
            [.request .eth_accounts true, .getSigner true, .getNetwork true] ++
              (if chainId ≠ 11155111 then
                 [.consoleWarn "Not on Sepolia network. Please switch to Sepolia testnet."]
               else []) ++
              [.setProvider (some ethereum), .setSigner (some signer),
               .setAccount accounts.head?]
      else [.request .eth_accounts true]

/-- The listener `setupEventListeners` registers for `accountsChanged`. -/
def onAccountsChanged (w : WalletWorld) (accounts : List String) : List AEffect :=
  if accounts.length = 0 then [.setAccount none, .setProvider none, .setSigner none]
  else checkWalletConnection w

/-- The listener `setupEventListeners` registers for `chainChanged`. -/
def onChainChanged : List AEffect := [.reload]

/-- The parameters `connectWallet` sends with `wallet_addEthereumChain`. -/
def addSepoliaParams : AddChainParams :=
  { chainId := "0xaa36a7", chainName := "Sepolia", currencyName := "ETH",
    currencySymbol := "ETH", currencyDecimals := 18,
    rpcUrls := ["https://sepolia.infura.io/v3/"],
    blockExplorerUrls := ["https://sepolia.etherscan.io"] }

/-- The inner `try` of `connectWallet`: the request to switch to Sepolia and, when it fails
with code 4902, the request to add the chain, whose failure is only logged. -/
def switchToSepolia (w : WalletWorld) : List AEffect :=
  match w.switchChain "0xaa36a7" with
  | .ok _ => [.request (.wallet_switchEthereumChain "0xaa36a7") true]
  | .error switchError =>
    .request (.wallet_switchEthereumChain "0xaa36a7") false ::
      (if switchError.code = .number 4902 then
         match w.addChain addSepoliaParams with
         | .ok _ => [.request (.wallet_addEthereumChain addSepoliaParams) true]
         | .error _ =>
           [.request (.wallet_addEthereumChain addSepoliaParams) false,
            .consoleError "Error adding Sepolia network:"]
       else [])

/-- The outer `try` block of `connectWallet`, with the error it throws, if any.
`signer.getAddress()` returns the address of the signer. -/
def connectBody (ethereum : Selected) (w : WalletWorld) : List AEffect × Option WalletError :=
  match w.eth_requestAccounts with
  | .error e => ([.request .eth_requestAccounts false], some e)
  | .ok accounts =>
    if accounts.length = 0 then
      ([.request .eth_requestAccounts true,
        .alert "Please unlock your MetaMask wallet and try again."], none)
    else
      match w.getNetwork with
      | .error e => ([.request .eth_requestAccounts true, .getNetwork false], some e)
      | .ok chainId =>
        if chainId ≠ 11155111 then
          ([.request .eth_requestAccounts true, .getNetwork true] ++ switchToSepolia w ++
            [.reload], none)
        else
          match w.getSigner with
          | .error e =>
            ([.request .eth_requestAccounts true, .getNetwork true, .getSigner false], some e)
          | .ok signer =>
            ([.request .eth_requestAccounts true, .getNetwork true, .getSigner true,
              .setProvider (some ethereum), .setSigner (some signer),
              .setAccount (some signer.address)], none)

/-- The function `connectWallet`. -/
def connectWallet (w : WalletWorld) : List AEffect :=
  match getEthereumProvider w.ethereum with
  | none =>
    if (match w.ethereum with
        | some e => e.isCoinbaseWallet.truthy || e.providers.truthy
        | none => false) then
      [.alert ("MetaMask not detected. Please install MetaMask extension and make sure " ++
        "it\x27s enabled.\n\nVisit https://metamask.io/ to install MetaMask.")]
    else [.alert "Please install MetaMask! Visit https://metamask.io/"]
  | some ethereum =>
    if ethereum.isMetaMask.truthy = false then
      [.alert ("MetaMask not found. Please install MetaMask extension.\n\n" ++
        "Visit https://metamask.io/")]
    else
      (connectBody ethereum w).1 ++
        (match (connectBody ethereum w).2 with
         | some error =>
           [.consoleError "Error connecting wallet:",
            .alert (if error.code = .number 4001 then
                      "Please approve the connection request in MetaMask."
                    else "Failed to connect wallet: " ++ error.message)]
         | none => [])

/-- The callback `App` passes to `CreateZToken` as `onTokenCreated`:
`setDeployedTokens([...deployedTokens, token])`, where `deployedTokens` is the value of the
render that made the callback. -/
def onTokenCreatedCallback (deployedTokens : List Token) (token : Token) : List AEffect :=
  [.setDeployedTokens (deployedTokens ++ [token])]

/-- What `App` does during a run of `handleDeploy` started from the state `a`: each
invocation of `onTokenCreated` runs the callback of that render. -/
def parentEffects (a : AppState) : List CEffect → List AEffect
  | [] => []
  | .onTokenCreated token :: rest =>
    onTokenCreatedCallback a.deployedTokens token ++ parentEffects a rest
  | _ :: rest => parentEffects a rest

/-- The props `App` passes to `CreateZToken`. -/
def appCProps (a : AppState) : CProps :=
  { signer := a.signer, account := a.account, hasOnTokenCreated := true }

/-- The events of `App`: the mount effect and the non-empty `accountsChanged` run
`checkWalletConnection`, a click on the connect button runs `connectWallet`, the wallet
reports a change of accounts, and `CreateZToken` reports a new token. -/
inductive AppEvent where
  | checkWalletConnection
  | connectWallet
  | accountsChanged (accounts : List String)
  | tokenCreated (token : Token)
  deriving DecidableEq, Repr

/-- The effects of an event. -/
def AppEvent.effects (s : AppState) (w : WalletWorld) : AppEvent → List AEffect
  | .checkWalletConnection => Client.checkWalletConnection w
  | .connectWallet => Client.connectWallet w
  | .accountsChanged accounts => onAccountsChanged w accounts
  | .tokenCreated token => onTokenCreatedCallback s.deployedTokens token

/-- The states of `App` reachable from the initial one by any sequence of events, each
handled to its end under any answers of the wallet. -/
inductive AReachable : AppState → Prop where
  | initial : AReachable AppState.initial
  | step (s : AppState) (w : WalletWorld) (ev : AppEvent) :
      AReachable s → AReachable (s.applyAll (ev.effects s w))

/-- The three wallet cells agree: all null or all non-null. -/
def AppState.walletCellsAgree (s : AppState) : Prop :=
  (s.account = none ∧ s.provider = none ∧ s.signer = none) ∨
  (s.account.isSome = true ∧ s.provider.isSome = true ∧ s.signer.isSome = true)

/-- A `window.ethereum` injected by MetaMask alone. -/
def metaMask : Ethereum :=
  { isMetaMask := .boolean true, isCoinbaseWallet := .undefined, providers := .absent }

/-- A `window.ethereum` injected by Coinbase Wallet, which also sets `isMetaMask`. -/
def coinbaseWallet : Ethereum :=
  { isMetaMask := .boolean true, isCoinbaseWallet := .boolean true, providers := .absent }

/-- A `window.ethereum` whose `providers` array lists Coinbase Wallet, which also sets
`isMetaMask`, before MetaMask. -/
def twoWallets : Ethereum :=
  { isMetaMask := .boolean true, isCoinbaseWallet := .undefined,
    providers := .array
      [{ isMetaMask := .boolean true, isCoinbaseWallet := .boolean true },
       { isMetaMask := .boolean true, isCoinbaseWallet := .undefined }] }

/-- A MetaMask wallet on Sepolia with one account. -/
def sepoliaWallet : WalletWorld :=
  { ethereum := some metaMask,
    eth_accounts := .ok ["0x1111111111111111111111111111111111111111"],
    eth_requestAccounts := .ok ["0x1111111111111111111111111111111111111111"],
    getSigner := .ok { address := "0x1111111111111111111111111111111111111111" },
    getNetwork := .ok 11155111,
    switchChain := fun _ => .ok (),
    addChain := fun _ => .ok () }

/-- The same wallet on chain 1, where Sepolia is not known: the switch fails with code
4902. -/
def mainnetWallet : WalletWorld :=
  { sepoliaWallet with
    getNetwork := .ok 1,
    switchChain := fun _ =>
      .error { code := .number 4902, message := "Unrecognized chain ID" } }

/-- The wallet on chain 1 whose user rejects the connection request. -/
def rejectingWallet : WalletWorld :=
  { mainnetWallet with
    eth_requestAccounts :=
      .error { code := .number 4001, message := "User rejected the request." } }

/-! ## Further observations on effects, and worlds whose receipts carry events -/

/-- Whether a call is `token.mint`. -/
def TokenCall.isMint : TokenCall → Bool
  | .mint _ _ => true
  | _ => false

/-- The records `onTokenCreated` was invoked with, in order. -/
def createdTokens : List CEffect → List Token
  | [] => []
  | .onTokenCreated token :: rest => token :: createdTokens rest
  | _ :: rest => createdTokens rest

/-- Whether an effect writes one of the form fields name, symbol and decimals. -/
def CEffect.isFormWrite : CEffect → Bool
  | .setName _ => true
  | .setSymbol _ => true
  | .setDecimals _ => true
  | _ => false

/-- Whether an effect writes the `depositInfo` cell. -/
def DEffect.isSetDepositInfo : DEffect → Bool
  | .setDepositInfo _ => true
  | _ => false

/-- A parsed log of the pool with the given event name and leaf index. -/
def eventLog (name : String) (leafIndex : Nat) : ParsedLog :=
  { name := name, toAddress := "", nullifierHash := "",
    commitment := toyHash (word 'a') (word 'b'), leafIndex := leafIndex }

/-- A world whose receipts carry logs: one that does not parse, one of another event, then
two of the expected event with leaf indices 7 and 9. -/
def eventWorld : World :=
  { demoWorld with
    deposit := fun _ _ => .ok
      { hash := word '5',
        wait := .ok { hash := word '5',
                      logs := [none, some (eventLog "LeafInserted" 3),
                               some (eventLog "Deposit" 7), some (eventLog "Deposit" 9)] } },
    insertLeaf := fun _ => .ok
      { hash := word '6',
        wait := .ok { hash := word '6',
                      logs := [none, some (eventLog "Deposit" 3),
                               some (eventLog "LeafInserted" 7),
                               some (eventLog "LeafInserted" 9)] } } }

end Client

namespace Core

theorem pay_spent (s s2 : PoolLedger) (asset : Asset) (amount : Nat) (accepted : Bool)
    (h : s.pay asset amount accepted = .ok s2) : s2.spent = s.spent := by
  unfold PoolLedger.pay at h
  split at h
  · cases h
  · cases asset <;> simp only [Except.ok.injEq] at h <;> subst h <;> rfl

/-- A withdrawal either fails and leaves the ledger as it was, or succeeds, in which case the
recipient was valid, the root known, the hash unspent before and recorded as spent after. -/
theorem withdrawAsset_cases (P : Params) (s : PoolLedger) (g : Nat) (r : Option Nat)
    (root : Nat) (asset : Asset) (amt : Nat) (fb : Option Nat) (acc : Bool) :
    (∃ e, s.withdrawAsset P g r root asset amt fb acc = (s, .error e)) ∨
    (∃ s2, s.withdrawAsset P g r root asset amt fb acc = (s2, .ok ()) ∧
      s2.spent = g :: s.spent ∧ s.isSpent g = false ∧
      (∃ a, r = some a ∧ a ≠ 0) ∧ s.tree.isKnownRoot root = true) := by
  unfold PoolLedger.withdrawAsset
  by_cases hsp : s.isSpent g = true
  · simp only [hsp, if_true]; exact Or.inl ⟨_, rfl⟩
  have hsp2 : s.isSpent g = false := by simpa using hsp
  simp only [hsp2, Bool.false_eq_true, if_false]
  cases r with
  | none => exact Or.inl ⟨_, rfl⟩
  | some a =>
    by_cases ha : a = 0
    · simp only [ha, if_true]; exact Or.inl ⟨_, rfl⟩
    by_cases hk : s.tree.isKnownRoot root = false
    · simp only [ha, hk, if_true, if_false]; exact Or.inl ⟨_, rfl⟩
    simp only [ha, hk, if_false]
    have hk2 : s.tree.isKnownRoot root = true := by simpa using hk
    cases asset with
    | Native =>
      simp only
      cases h1 : PoolLedger.pay { s with spent := g :: s.spent } .Native
          (P.DEPOSIT_AMOUNT - P.FEE) acc with
      | error e => exact Or.inl ⟨_, rfl⟩
      | ok s2 =>
        have e1 := pay_spent _ _ _ _ _ h1
        cases fb with
        | none =>
          exact Or.inr ⟨_, rfl, e1, (by first | exact hsp2 | trivial), ⟨a, rfl, ha⟩,
            (by first | exact hk2 | trivial)⟩
        | some b =>
          simp only
          cases h2 : PoolLedger.pay s2 .Native P.FEE acc with
          | error e => exact Or.inl ⟨_, rfl⟩
          | ok s3 =>
            have e2 := pay_spent _ _ _ _ _ h2
            exact Or.inr ⟨_, rfl, e2.trans e1, (by first | exact hsp2 | trivial), ⟨a, rfl, ha⟩,
            (by first | exact hk2 | trivial)⟩
    | Token t =>
      simp only
      cases h1 : PoolLedger.pay { s with spent := g :: s.spent } (.Token t) amt acc with
      | error e => exact Or.inl ⟨_, rfl⟩
      | ok s2 =>
        have e1 := pay_spent _ _ _ _ _ h1
        exact Or.inr ⟨_, rfl, e1, (by first | exact hsp2 | trivial), ⟨a, rfl, ha⟩,
            (by first | exact hk2 | trivial)⟩

theorem receive_spent (s s2 : PoolLedger) (asset : Asset) (amount value : Nat)
    (ext : Option PoolError) (h : s.receive asset amount value ext = .ok s2) :
    s2.spent = s.spent := by
  unfold PoolLedger.receive at h
  cases asset with
  | Native =>
    simp only at h
    split at h
    · simp only [Except.ok.injEq] at h; subst h; rfl
    · cases h
  | Token a =>
    cases ext with
    | some e => cases h
    | none => simp only [Except.ok.injEq] at h; subst h; rfl

theorem depositAsset_spent (P : Params) (s : PoolLedger) (c : Nat) (asset : Asset)
    (amount value : Nat) (ext : Option PoolError) :
    (s.depositAsset P c asset amount value ext).1.spent = s.spent := by
  unfold PoolLedger.depositAsset
  cases h1 : s.receive asset amount value ext with
  | error e => rfl
  | ok s1 =>
    simp only
    cases h2 : s1.tree.insertLeaf P c with
    | error e => rfl
    | ok r => simp only; exact receive_spent _ _ _ _ _ _ h1

theorem insertLeaf_spent (P : Params) (s : PoolLedger) (c : Nat) :
    (s.insertLeaf P c).1.spent = s.spent := by
  unfold PoolLedger.insertLeaf
  cases h2 : s.tree.insertLeaf P c with
  | error e => rfl
  | ok r => rfl

theorem isSpent_of_spent_eq (s s2 : PoolLedger) (h : Nat) (e : s2.spent = s.spent) :
    s2.isSpent h = s.isSpent h := by
  unfold PoolLedger.isSpent; rw [e]

theorem withdrawAsset_spent_mono (P : Params) (s : PoolLedger) (h g : Nat) (r : Option Nat)
    (root : Nat) (asset : Asset) (amt : Nat) (fb : Option Nat) (acc : Bool)
    (hs : s.isSpent h = true) :
    (s.withdrawAsset P g r root asset amt fb acc).1.isSpent h = true := by
  rcases withdrawAsset_cases P s g r root asset amt fb acc with ⟨e, he⟩ | ⟨s2, he, hsp, -⟩
  · rw [he]; exact hs
  · rw [he]
    unfold PoolLedger.isSpent at hs ⊢
    simp only [hsp, List.mem_cons, decide_eq_true_eq] at hs ⊢
    exact Or.inr hs

/-- Once spent, a nullifier hash stays spent across any call. -/
theorem step_spent_mono (P : Params) (s : PoolLedger) (h : Nat) (op : Op)
    (hs : s.isSpent h = true) : (s.step P op).1.isSpent h = true := by
  cases op with
  | deposit c v =>
    have e := depositAsset_spent P s c .Native P.DEPOSIT_AMOUNT v none
    show (s.deposit P c v).1.isSpent h = true
    rw [PoolLedger.deposit, isSpent_of_spent_eq _ _ _ e]; exact hs
  | insertLeaf c =>
    show (s.insertLeaf P c).1.isSpent h = true
    rw [isSpent_of_spent_eq _ _ _ (insertLeaf_spent P s c)]; exact hs
  | withdraw g r root fb acc =>
    exact withdrawAsset_spent_mono P s h g r root .Native 0 fb acc hs
  | withdrawTokens g r root tok amt acc =>
    exact withdrawAsset_spent_mono P s h g r root (.Token tok) amt none acc hs

theorem run_spent_mono (P : Params) (h : Nat) (ops : List Op) :
    ∀ s : PoolLedger, s.isSpent h = true → (s.run P ops).isSpent h = true := by
  induction ops with
  | nil => intro s hs; exact hs
  | cons op ops ih => intro s hs; exact ih _ (step_spent_mono P s h op hs)

theorem withdrawAsset_already_spent (P : Params) (s : PoolLedger) (g : Nat)
    (r : Option Nat) (root : Nat) (asset : Asset) (amt : Nat) (fb : Option Nat) (acc : Bool)
    (hs : s.isSpent g = true) :
    s.withdrawAsset P g r root asset amt fb acc = (s, .error .AlreadySpent) := by
  unfold PoolLedger.withdrawAsset
  simp only [hs, if_true]

theorem withdrawAsset_invalid_recipient (P : Params) (s : PoolLedger) (g : Nat)
    (r : Option Nat) (root : Nat) (asset : Asset) (amt : Nat) (fb : Option Nat) (acc : Bool)
    (hs : s.isSpent g = false) (hr : validRecipient r = false) :
    s.withdrawAsset P g r root asset amt fb acc = (s, .error .InvalidRecipient) := by
  unfold PoolLedger.withdrawAsset
  simp only [hs, Bool.false_eq_true, if_false]
  cases r with
  | none => rfl
  | some a =>
    have ha : a = 0 := by simpa [validRecipient] using hr
    simp only [ha, if_true]

theorem withdrawAsset_unknown_root (P : Params) (s : PoolLedger) (g a root : Nat)
    (asset : Asset) (amt : Nat) (fb : Option Nat) (acc : Bool)
    (hs : s.isSpent g = false) (ha : a ≠ 0) (hk : s.tree.isKnownRoot root = false) :
    s.withdrawAsset P g (some a) root asset amt fb acc = (s, .error .UnknownRoot) := by
  unfold PoolLedger.withdrawAsset
  simp only [hs, Bool.false_eq_true, ha, hk, if_true, if_false]

/-- For a nullifier hash that is not spent the validations of the recipient and of the root
are reported: an invalid recipient gives `InvalidRecipient`, a valid recipient with an
unknown root `UnknownRoot`. -/
theorem step_unspent_checks (P : Params) (s : PoolLedger) (h : Nat) (op : Op)
    (hb : op.bears = some h) (hs : s.isSpent h = false) :
    (validRecipient op.recipient = false → (s.step P op).2 = some .InvalidRecipient) ∧
    (validRecipient op.recipient = true → s.tree.isKnownRoot op.root = false →
      (s.step P op).2 = some .UnknownRoot) := by
  have key : ∀ (g : Nat) (r : Option Nat) (root : Nat) (asset : Asset) (amt : Nat)
      (fb : Option Nat) (acc : Bool), g = h →
      (validRecipient r = false →
        errorOf (s.withdrawAsset P g r root asset amt fb acc).2 = some .InvalidRecipient) ∧
      (validRecipient r = true → s.tree.isKnownRoot root = false →
        errorOf (s.withdrawAsset P g r root asset amt fb acc).2 = some .UnknownRoot) := by
    intro g r root asset amt fb acc hg
    subst hg
    constructor
    · intro hr
      rw [withdrawAsset_invalid_recipient P s g r root asset amt fb acc hs hr]; rfl
    · intro hv hk
      cases r with
      | none => cases hv
      | some a =>
        have ha : a ≠ 0 := by simpa [validRecipient] using hv
        rw [withdrawAsset_unknown_root P s g a root asset amt fb acc hs ha hk]; rfl
  cases op with
  | deposit c v => cases hb
  | insertLeaf c => cases hb
  | withdraw g r root fb acc =>
    exact key g r root .Native 0 fb acc (by simpa [Op.bears] using hb)
  | withdrawTokens g r root tok amt acc =>
    exact key g r root (.Token tok) amt none acc (by simpa [Op.bears] using hb)

/-- A withdrawal bearing a spent hash fails with `AlreadySpent`, whatever recipient and root
it supplies, and leaves the ledger as it was. -/
theorem step_spent_fails (P : Params) (s : PoolLedger) (h : Nat) (op : Op)
    (hb : op.bears = some h) (hs : s.isSpent h = true) :
    (s.step P op).2 = some .AlreadySpent ∧ (s.step P op).1 = s := by
  have key : ∀ (g : Nat) (r : Option Nat) (root : Nat) (asset : Asset) (amt : Nat)
      (fb : Option Nat) (acc : Bool), g = h →
      errorOf (s.withdrawAsset P g r root asset amt fb acc).2 = some .AlreadySpent ∧
      (s.withdrawAsset P g r root asset amt fb acc).1 = s := by
    intro g r root asset amt fb acc hg
    subst hg
    rw [withdrawAsset_already_spent P s g r root asset amt fb acc hs]
    exact ⟨rfl, rfl⟩
  cases op with
  | deposit c v => cases hb
  | insertLeaf c => cases hb
  | withdraw g r root fb acc =>
    exact key g r root .Native 0 fb acc (by simpa [Op.bears] using hb)
  | withdrawTokens g r root tok amt acc =>
    exact key g r root (.Token tok) amt none acc (by simpa [Op.bears] using hb)

/-- A successful withdrawal records its nullifier hash as spent. -/
theorem step_success_spends (P : Params) (s : PoolLedger) (h : Nat) (op : Op)
    (hb : op.bears = some h) (hok : (s.step P op).2 = none) :
    (s.step P op).1.isSpent h = true := by
  have key : ∀ (g : Nat) (r : Option Nat) (root : Nat) (asset : Asset) (amt : Nat)
      (fb : Option Nat) (acc : Bool), g = h →
      errorOf (s.withdrawAsset P g r root asset amt fb acc).2 = none →
      (s.withdrawAsset P g r root asset amt fb acc).1.isSpent h = true := by
    intro g r root asset amt fb acc hg hnone
    subst hg
    rcases withdrawAsset_cases P s g r root asset amt fb acc with ⟨e, he⟩ | ⟨s2, he, hsp, -⟩
    · rw [he] at hnone; cases hnone
    · rw [he]; unfold PoolLedger.isSpent; simp [hsp]
  cases op with
  | deposit c v => cases hb
  | insertLeaf c => cases hb
  | withdraw g r root fb acc =>
    exact key g r root .Native 0 fb acc (by simpa [Op.bears] using hb) hok
  | withdrawTokens g r root tok amt acc =>
    exact key g r root (.Token tok) amt none acc (by simpa [Op.bears] using hb) hok

theorem successes_spent (P : Params) (h : Nat) (ops : List Op) :
    ∀ s : PoolLedger, s.isSpent h = true → PoolLedger.successes P h s ops = 0 := by
  induction ops with
  | nil => intro s _; rfl
  | cons op ops ih =>
    intro s hs
    unfold PoolLedger.successes
    rw [ih _ (step_spent_mono P s h op hs)]
    by_cases hb : op.bears = some h
    · obtain ⟨he, -⟩ := step_spent_fails P s h op hb hs
      simp [he]
    · simp [hb]

theorem successes_le_one (P : Params) (h : Nat) (ops : List Op) :
    ∀ s : PoolLedger, PoolLedger.successes P h s ops ≤ 1 := by
  induction ops with
  | nil => intro s; simp [PoolLedger.successes]
  | cons op ops ih =>
    intro s
    unfold PoolLedger.successes
    by_cases hc : op.bears = some h ∧ (s.step P op).2 = none
    · rw [if_pos hc, successes_spent P h ops _ (step_success_spends P s h op hc.1 hc.2)]
    · rw [if_neg hc]; have := ih (s.step P op).1; omega

/-- Claim C1.  For every ledger, nullifier hash `h` and sequence of calls: at most one
withdrawal (`withdraw` or `withdrawTokens`) bearing `h` succeeds; after a successful
withdrawal bearing `h`, and whatever calls follow, `nullifierHashes[h]` stays true, and every
later withdrawal bearing `h` fails with `AlreadySpent`, whatever recipient and root it
supplies, and leaves the ledger unchanged.  The same holds from any ledger in which `h` is
already marked spent. -/
theorem no_double_spend (P : Params) (s : PoolLedger) (h : Nat) :
    (∀ ops, PoolLedger.successes P h s ops ≤ 1) ∧
    (∀ op1 mid op2, op1.bears = some h → (s.step P op1).2 = none → op2.bears = some h →
      ((s.step P op1).1.run P mid).nullifierHashes h = true ∧
      (((s.step P op1).1.run P mid).step P op2).2 = some .AlreadySpent ∧
      (((s.step P op1).1.run P mid).step P op2).1 = (s.step P op1).1.run P mid) ∧
    (s.nullifierHashes h = true → ∀ mid op2, op2.bears = some h →
      (s.run P mid).nullifierHashes h = true ∧
      ((s.run P mid).step P op2).2 = some .AlreadySpent ∧
      ((s.run P mid).step P op2).1 = s.run P mid) := by
  refine ⟨fun ops => successes_le_one P h ops s, ?_, ?_⟩
  · intro op1 mid op2 hb1 hok hb2
    have h1 := step_success_spends P s h op1 hb1 hok
    have h2 := run_spent_mono P h mid _ h1
    obtain ⟨hf, hsame⟩ := step_spent_fails P _ h op2 hb2 h2
    exact ⟨h2, hf, hsame⟩
  · intro hs mid op2 hb2
    have h2 := run_spent_mono P h mid s hs
    obtain ⟨hf, hsame⟩ := step_spent_fails P _ h op2 hb2 h2
    exact ⟨h2, hf, hsame⟩

/-- Claim C1, witness: in the toy pool the withdrawal of hash 5 to address 9 against the
latest root succeeds; after a further deposit the very same call is refused with
`AlreadySpent`, and so is a call bearing 5 with the zero address and a root the accumulator
never produced.  On the ledger where 5 is not spent that last call fails on the recipient,
and the same call bearing the unspent hash 6 to a valid recipient succeeds. -/
theorem no_double_spend_witness :
    (toyLedger.step toyParams
      (.withdraw 5 (some 9) (toyLedger.getLatestRoot toyParams) none true)).2 = none ∧
    (((toyLedger.step toyParams
      (.withdraw 5 (some 9) (toyLedger.getLatestRoot toyParams) none true)).1.run toyParams
        [.deposit 12 1000]).step toyParams
          (.withdraw 5 (some 9) (toyLedger.getLatestRoot toyParams) none true)).2
      = some .AlreadySpent ∧
    (((toyLedger.step toyParams
      (.withdraw 5 (some 9) (toyLedger.getLatestRoot toyParams) none true)).1.run toyParams
        [.deposit 12 1000]).step toyParams (.withdrawTokens 5 (some 0) 123456 77 1 true)).2
      = some .AlreadySpent ∧
    ((toyLedger.run toyParams [.deposit 12 1000]).step toyParams
      (.withdrawTokens 5 (some 0) 123456 77 1 true)).2 = some .InvalidRecipient ∧
    (((toyLedger.step toyParams
      (.withdraw 5 (some 9) (toyLedger.getLatestRoot toyParams) none true)).1.run toyParams
        [.deposit 12 1000]).step toyParams
          (.withdraw 6 (some 9) (toyLedger.getLatestRoot toyParams) none true)).2 = none :=
  ⟨by decide,
   ((no_double_spend toyParams toyLedger 5).2.1
      (.withdraw 5 (some 9) (toyLedger.getLatestRoot toyParams) none true)
      [.deposit 12 1000]
      (.withdraw 5 (some 9) (toyLedger.getLatestRoot toyParams) none true)
      rfl (by decide) rfl).2.1,
   ((no_double_spend toyParams toyLedger 5).2.1
      (.withdraw 5 (some 9) (toyLedger.getLatestRoot toyParams) none true)
      [.deposit 12 1000] (.withdrawTokens 5 (some 0) 123456 77 1 true)
      rfl (by decide) rfl).2.1,
   by decide, by decide⟩

theorem hashPairs_length (P : Params) : ∀ (n : Nat) (row : List Nat), row.length = 2 * n →
    (hashPairs P row).length = n := by
  intro n
  induction n with
  | zero => intro row h; cases row with
    | nil => rfl
    | cons a t => simp at h
  | succ n ih =>
    intro row h
    match row, h with
    | a :: b :: rest, h =>
      simp only [hashPairs, List.length_cons]
      rw [ih rest (by simp only [List.length_cons] at h; omega)]

theorem hashPairs_getD (P : Params) (d : Nat) : ∀ (n : Nat) (row : List Nat),
    row.length = 2 * n → ∀ j, j < n →
    (hashPairs P row).getD j d = P.hash (row.getD (2 * j) d) (row.getD (2 * j + 1) d) := by
  intro n
  induction n with
  | zero => intro row _ j hj; omega
  | succ n ih =>
    intro row h j hj
    match row, h with
    | a :: b :: rest, h =>
      have hr : rest.length = 2 * n := by simp only [List.length_cons] at h; omega
      cases j with
      | zero => simp [hashPairs]
      | succ j =>
        have e1 : 2 * (j + 1) = (2 * j) + 1 + 1 := by ring
        have e2 : 2 * (j + 1) + 1 = (2 * j + 1) + 1 + 1 := by ring
        simp only [hashPairs, List.getD_cons_succ, e1, e2]
        exact ih rest hr j (by omega)

theorem nodeOf_hashPairs (P : Params) (d : Nat) (n : Nat) (row : List Nat)
    (h : row.length = 2 * n) : ∀ l j, (j + 1) * 2 ^ l ≤ n →
    nodeOf P d (hashPairs P row) l j = nodeOf P d row (l + 1) j := by
  intro l
  induction l with
  | zero =>
    intro j hj
    simp only [nodeOf]
    exact hashPairs_getD P d n row h j (by omega)
  | succ l ih =>
    intro j hj
    have hp : 2 ^ (l + 1) = 2 * 2 ^ l := by ring
    have h1 : (2 * j + 1) * 2 ^ l ≤ n := by nlinarith [Nat.two_pow_pos l]
    have h2 : (2 * j + 1 + 1) * 2 ^ l ≤ n := by nlinarith [Nat.two_pow_pos l]
    conv_lhs => unfold nodeOf
    rw [ih (2 * j) h1, ih (2 * j + 1) h2]
    rfl

theorem reduceLevels_spec (P : Params) (d : Nat) : ∀ (k m : Nat) (row : List Nat),
    row.length = 2 ^ k * m →
    (reduceLevels P k row).length = m ∧
    ∀ j, j < m → (reduceLevels P k row).getD j d = nodeOf P d row k j := by
  intro k
  induction k with
  | zero =>
    intro m row h
    refine ⟨by simpa using h, fun j _ => rfl⟩
  | succ k ih =>
    intro m row h
    have hlen : row.length = 2 * (2 ^ k * m) := by rw [h]; ring
    have hl := hashPairs_length P (2 ^ k * m) row hlen
    obtain ⟨h1, h2⟩ := ih m (hashPairs P row) hl
    refine ⟨h1, fun j hj => ?_⟩
    show (reduceLevels P k (hashPairs P row)).getD j d = _
    rw [h2 j hj]
    apply nodeOf_hashPairs P d (2 ^ k * m) row hlen
    have : (j + 1) * 2 ^ k ≤ m * 2 ^ k := Nat.mul_le_mul_right _ hj
    linarith [Nat.mul_comm m (2 ^ k)]

theorem padLeaves_getD (P : Params) (leaves : List Nat) (j : Nat) :
    (padLeaves P leaves).getD j P.zeroLeaf = leaves.getD j P.zeroLeaf := by
  unfold padLeaves
  simp only [List.getD_eq_getElem?_getD]
  by_cases hj : j < leaves.length
  · rw [List.getElem?_append_left hj]
  · rw [List.getElem?_append_right (by omega), List.getElem?_eq_none (by omega : leaves.length ≤ j),
      List.getElem?_replicate]
    split <;> rfl

theorem nodeOf_padLeaves (P : Params) (leaves : List Nat) : ∀ l j,
    nodeOf P P.zeroLeaf (padLeaves P leaves) l j = nodeOf P P.zeroLeaf leaves l j := by
  intro l
  induction l with
  | zero => intro j; exact padLeaves_getD P leaves j
  | succ l ih => intro j; simp only [nodeOf, ih]

/-- The reference root is the top node of the tree over the leaves. -/
theorem referenceRoot_eq_nodeOf (P : Params) (leaves : List Nat)
    (h : leaves.length ≤ 2 ^ P.depth) :
    referenceRoot P leaves = nodeOf P P.zeroLeaf leaves P.depth 0 := by
  have hlen : (padLeaves P leaves).length = 2 ^ P.depth * 1 := by
    simp only [padLeaves, List.length_append, List.length_replicate]; omega
  obtain ⟨h1, h2⟩ := reduceLevels_spec P P.zeroLeaf P.depth 1 _ hlen
  have h3 := h2 0 (by omega)
  rw [nodeOf_padLeaves] at h3
  rw [← h3]
  unfold referenceRoot
  cases hr : reduceLevels P P.depth (padLeaves P leaves) with
  | nil => rfl
  | cons a t => rfl

/-- Appending a leaf changes only the nodes on the path of the new leaf. -/
theorem nodeOf_append_off_path (P : Params) (d : Nat) (xs : List Nat) (x : Nat) : ∀ l j,
    j ≠ xs.length / 2 ^ l → nodeOf P d (xs ++ [x]) l j = nodeOf P d xs l j := by
  intro l
  induction l with
  | zero =>
    intro j hj
    simp only [pow_zero, Nat.div_one] at hj
    simp only [nodeOf, List.getD_eq_getElem?_getD]
    by_cases h : j < xs.length
    · rw [List.getElem?_append_left h]
    · rw [List.getElem?_eq_none (by simp; omega), List.getElem?_eq_none (by omega)]
  | succ l ih =>
    intro j hj
    have hd : xs.length / 2 ^ (l + 1) = xs.length / 2 ^ l / 2 := by
      rw [pow_succ, Nat.div_div_eq_div_mul]
    rw [hd] at hj
    simp only [nodeOf]
    rw [ih (2 * j) (by omega), ih (2 * j + 1) (by omega)]

/-- Path recomputation: if the cache holds the new tree below level `l` and the old tree
from level `l` up, and `cur` is the new node on the path at level `l`, the recomputed cache
holds the new tree on all levels up to `l + k`. -/
theorem updatePath_spec (P : Params) (xs : List Nat) (x : Nat) : ∀ (k l cur : Nat)
    (c : Nat → Nat → Nat),
    cur = nodeOf P P.zeroLeaf (xs ++ [x]) l (xs.length / 2 ^ l) →
    (∀ l2 j, l2 < l → c l2 j = nodeOf P P.zeroLeaf (xs ++ [x]) l2 j) →
    (∀ l2 j, l ≤ l2 → l2 ≤ l + k → c l2 j = nodeOf P P.zeroLeaf xs l2 j) →
    ∀ l2 j, l2 ≤ l + k →
      updatePath P k l (xs.length / 2 ^ l) cur c l2 j = nodeOf P P.zeroLeaf (xs ++ [x]) l2 j := by
  intro k
  induction k with
  | zero =>
    intro l cur c hcur hlow hhigh l2 j hl2
    simp only [updatePath, setNode]
    by_cases hc : l2 = l ∧ j = xs.length / 2 ^ l
    · rw [if_pos hc, hc.1, hc.2]; exact hcur
    · rw [if_neg hc]
      by_cases hlt : l2 < l
      · exact hlow l2 j hlt
      · have hl : l2 = l := by omega
        subst hl
        rw [hhigh l2 j (le_refl _) (by omega)]
        exact (nodeOf_append_off_path P _ xs x l2 j (fun e => hc ⟨rfl, e⟩)).symm
  | succ k ih =>
    intro l cur c hcur hlow hhigh l2 j hl2
    have hd : xs.length / 2 ^ (l + 1) = xs.length / 2 ^ l / 2 := by
      rw [pow_succ, Nat.div_div_eq_div_mul]
    simp only [updatePath]
    rw [← hd]
    apply ih (l + 1)
    · -- the parent is the new node on the path one level up
      have hsib1 : c l (xs.length / 2 ^ l + 1)
          = nodeOf P P.zeroLeaf (xs ++ [x]) l (xs.length / 2 ^ l + 1) := by
        rw [hhigh l _ (le_refl _) (by omega)]
        exact (nodeOf_append_off_path P _ xs x l _ (by omega)).symm
      by_cases hpar : xs.length / 2 ^ l % 2 = 0
      · rw [if_pos hpar, hsib1, hcur, hd]
        conv_rhs => unfold nodeOf
        have e : 2 * (xs.length / 2 ^ l / 2) = xs.length / 2 ^ l := by omega
        rw [e]
      · have hsib0 : c l (xs.length / 2 ^ l - 1)
            = nodeOf P P.zeroLeaf (xs ++ [x]) l (xs.length / 2 ^ l - 1) := by
          rw [hhigh l _ (le_refl _) (by omega)]
          exact (nodeOf_append_off_path P _ xs x l _ (by omega)).symm
        rw [if_neg hpar, hsib0, hcur, hd]
        conv_rhs => unfold nodeOf
        have e : 2 * (xs.length / 2 ^ l / 2) = xs.length / 2 ^ l - 1 := by omega
        have e2 : 2 * (xs.length / 2 ^ l / 2) + 1 = xs.length / 2 ^ l := by omega
        rw [e2, e]
    · intro l3 j3 h3
      simp only [setNode]
      by_cases hc : l3 = l ∧ j3 = xs.length / 2 ^ l
      · rw [if_pos hc, hc.1, hc.2]; exact hcur
      · rw [if_neg hc]
        by_cases hlt : l3 < l
        · exact hlow l3 j3 hlt
        · have hl : l3 = l := by omega
          subst hl
          rw [hhigh l3 j3 (le_refl _) (by omega)]
          exact (nodeOf_append_off_path P _ xs x l3 j3 (fun e => hc ⟨rfl, e⟩)).symm
    · intro l3 j3 h3 h4
      simp only [setNode]
      rw [if_neg (by omega)]
      exact hhigh l3 j3 (by omega) (by omega)
    · omega

theorem nodeOf_nil (P : Params) : ∀ l j, nodeOf P P.zeroLeaf [] l j = zeros P l := by
  intro l
  induction l with
  | zero => intro j; rfl
  | succ l ih => intro j; simp only [nodeOf, zeros, ih]

theorem consistent_empty (P : Params) : Consistent P (MerkleAccumulator.empty P) := by
  refine ⟨fun l j _ => (nodeOf_nil P l j).symm, ?_, by simp [MerkleAccumulator.empty]⟩
  simp [MerkleAccumulator.currentRoot, MerkleAccumulator.empty, nodeOf_nil]

/-- An insertion below capacity succeeds, appends the leaf, returns its index and keeps the
accumulator consistent with the tree over its leaves. -/
theorem insertLeaf_consistent (P : Params) (hN : 0 < P.historySize) (t : MerkleAccumulator)
    (c : Nat) (hc : Consistent P t) (hlt : t.leaves.length < 2 ^ P.depth) :
    ∃ t2, t.insertLeaf P c = .ok (t2, t.leaves.length) ∧ t2.leaves = t.leaves ++ [c] ∧
      Consistent P t2 := by
  obtain ⟨hcache, -, -⟩ := hc
  have hspec := updatePath_spec P t.leaves c P.depth 0 c t.cache
    (by simp [nodeOf]) (fun l2 j h => absurd h (Nat.not_lt_zero _))
    (fun l2 j _ h => hcache l2 j (by omega))
  simp only [pow_zero, Nat.div_one, Nat.zero_add] at hspec
  unfold MerkleAccumulator.insertLeaf
  rw [if_neg (by omega)]
  refine ⟨_, rfl, rfl, fun l j hl => hspec l j hl, ?_, by simp; omega⟩
  obtain ⟨n, hn⟩ : ∃ n, P.historySize = n + 1 := ⟨P.historySize - 1, by omega⟩
  simp only [MerkleAccumulator.currentRoot, hn, List.take_succ_cons, List.headD_cons]
  rw [hspec P.depth 0 (le_refl _)]

theorem insertLeaf_full (P : Params) (t : MerkleAccumulator) (c : Nat)
    (hfull : t.leaves.length = 2 ^ P.depth) : t.insertLeaf P c = .error .CapacityExceeded := by
  unfold MerkleAccumulator.insertLeaf
  rw [if_pos hfull]

/-- An insertion call below capacity succeeds: the leaf is appended, the accumulator stays
consistent, and a deposit adds the fixed amount to the vault. -/
theorem step_insertOp (P : Params) (hN : 0 < P.historySize) (s : PoolLedger) (b : Bool)
    (c : Nat) (hc : Consistent P s.tree) (hlt : s.tree.leaves.length < 2 ^ P.depth) :
    (s.step P (insertOp P b c)).2 = none ∧
    (s.step P (insertOp P b c)).1.tree.leaves = s.tree.leaves ++ [c] ∧
    Consistent P (s.step P (insertOp P b c)).1.tree ∧
    (s.step P (insertOp P b c)).1.nativeBalance
      = s.nativeBalance + (if b then P.DEPOSIT_AMOUNT else 0) := by
  obtain ⟨t2, h1, h2, h3⟩ := insertLeaf_consistent P hN s.tree c hc hlt
  cases b with
  | true =>
    have e : insertOp P true c = .deposit c P.DEPOSIT_AMOUNT := rfl
    rw [e]
    simp only [PoolLedger.step, PoolLedger.deposit, PoolLedger.depositAsset,
      PoolLedger.receive, if_true, h1, errorOf]
    exact ⟨trivial, h2, h3, trivial⟩
  | false =>
    have e : insertOp P false c = .insertLeaf c := rfl
    rw [e]
    simp only [PoolLedger.step, PoolLedger.insertLeaf, h1, errorOf]
    exact ⟨trivial, h2, h3, by simp⟩

theorem run_insertOps (P : Params) (hN : 0 < P.historySize) : ∀ (cs : List (Bool × Nat))
    (s : PoolLedger), Consistent P s.tree → s.tree.leaves.length + cs.length ≤ 2 ^ P.depth →
    (s.run P (insertOps P cs)).tree.leaves = s.tree.leaves ++ cs.map Prod.snd ∧
    Consistent P (s.run P (insertOps P cs)).tree ∧
    (s.run P (insertOps P cs)).nativeBalance
      = s.nativeBalance + (cs.filter Prod.fst).length * P.DEPOSIT_AMOUNT := by
  intro cs
  induction cs with
  | nil => intro s hc _; simp [insertOps, PoolLedger.run, hc]
  | cons x cs ih =>
    intro s hc hlen
    simp only [List.length_cons] at hlen
    obtain ⟨-, h2, h3, h4⟩ := step_insertOp P hN s x.1 x.2 hc (by omega)
    obtain ⟨i1, i2, i3⟩ := ih (s.step P (insertOp P x.1 x.2)).1 h3
      (by rw [h2, List.length_append, List.length_singleton]; omega)
    simp only [insertOps, List.map_cons, PoolLedger.run] at i1 i2 i3 ⊢
    refine ⟨by rw [i1, h2]; simp, i2, ?_⟩
    rw [i3, h4]
    cases hx : x.1
    · simp [List.filter, hx]
    · simp [List.filter, hx]; ring

/-- Claim C9.  For every sequence of at most `2^D` commitments inserted into a fresh pool
through `deposit` or `insertLeaf`, after each insertion the leaves held are the commitments
inserted so far and `getLatestRoot` equals the reference Merkle root of that leaf sequence
padded with the zero leaf. -/
theorem inclusion_correctness (P : Params) (hN : 0 < P.historySize) (cs : List (Bool × Nat))
    (hlen : cs.length ≤ 2 ^ P.depth) (k : Nat) :
    ((PoolLedger.init P).run P (insertOps P (cs.take k))).tree.leaves
      = (cs.take k).map Prod.snd ∧
    ((PoolLedger.init P).run P (insertOps P (cs.take k))).getLatestRoot P
      = referenceRoot P ((cs.take k).map Prod.snd) := by
  have hk : (cs.take k).length ≤ 2 ^ P.depth := by
    rw [List.length_take]; omega
  obtain ⟨h1, h2, -⟩ := run_insertOps P hN (cs.take k) (PoolLedger.init P)
    (consistent_empty P) (by simpa [PoolLedger.init, MerkleAccumulator.empty] using hk)
  have h1b : ((PoolLedger.init P).run P (insertOps P (cs.take k))).tree.leaves
      = (cs.take k).map Prod.snd := by
    rw [h1]; simp [PoolLedger.init, MerkleAccumulator.empty]
  refine ⟨h1b, ?_⟩
  rw [referenceRoot_eq_nodeOf P _ (by simpa using hk), ← h1b]
  exact h2.2.1

/-- Claim C9, witness: three insertions into the toy pool of depth 2. -/
theorem inclusion_correctness_witness :
    0 < toyParams.historySize ∧
    [(true, 11), (false, 12), (true, 13)].length ≤ 2 ^ toyParams.depth ∧
    ((PoolLedger.init toyParams).run toyParams
        (insertOps toyParams ([(true, 11), (false, 12), (true, 13)].take 2))).getLatestRoot
        toyParams
      = referenceRoot toyParams (([(true, 11), (false, 12), (true, 13)].take 2).map Prod.snd) :=
  ⟨by decide, by decide,
   (inclusion_correctness toyParams (by decide) [(true, 11), (false, 12), (true, 13)]
      (by decide) 2).2⟩

/-- A native deposit of the fixed amount below capacity succeeds, appends the leaf and adds
the amount to the vault. -/
theorem step_deposit_ok (P : Params) (s : PoolLedger) (c : Nat)
    (hlt : s.tree.leaves.length < 2 ^ P.depth) :
    (s.step P (.deposit c P.DEPOSIT_AMOUNT)).2 = none ∧
    (s.step P (.deposit c P.DEPOSIT_AMOUNT)).1.tree.leaves = s.tree.leaves ++ [c] ∧
    (s.step P (.deposit c P.DEPOSIT_AMOUNT)).1.nativeBalance
      = s.nativeBalance + P.DEPOSIT_AMOUNT := by
  have hne : ¬ s.tree.leaves.length = 2 ^ P.depth := by omega
  simp only [PoolLedger.step, PoolLedger.deposit, PoolLedger.depositAsset, PoolLedger.receive,
    if_true, MerkleAccumulator.insertLeaf, if_neg hne, errorOf]
  exact ⟨trivial, trivial, trivial⟩

/-- A native deposit into a full accumulator fails with `CapacityExceeded` and leaves the
whole ledger, the vault included, as it was. -/
theorem step_deposit_full (P : Params) (s : PoolLedger) (c : Nat)
    (hfull : s.tree.leaves.length = 2 ^ P.depth) :
    s.step P (.deposit c P.DEPOSIT_AMOUNT) = (s, some .CapacityExceeded) := by
  simp only [PoolLedger.step, PoolLedger.deposit, PoolLedger.depositAsset, PoolLedger.receive,
    if_true, MerkleAccumulator.insertLeaf, if_pos hfull, errorOf]

theorem run_depositOps (P : Params) : ∀ (cs : List Nat) (s : PoolLedger),
    s.tree.leaves.length + cs.length ≤ 2 ^ P.depth →
    (s.run P (depositOps P cs)).tree.leaves = s.tree.leaves ++ cs ∧
    (s.run P (depositOps P cs)).nativeBalance
      = s.nativeBalance + cs.length * P.DEPOSIT_AMOUNT := by
  intro cs
  induction cs with
  | nil => intro s _; simp [depositOps, PoolLedger.run]
  | cons x cs ih =>
    intro s hlen
    simp only [List.length_cons] at hlen
    obtain ⟨-, h2, h3⟩ := step_deposit_ok P s x (by omega)
    obtain ⟨i1, i2⟩ := ih (s.step P (.deposit x P.DEPOSIT_AMOUNT)).1
      (by rw [h2, List.length_append, List.length_singleton]; omega)
    simp only [depositOps, List.map_cons, PoolLedger.run] at i1 i2 ⊢
    refine ⟨by rw [i1, h2]; simp, ?_⟩
    rw [i2, h3, List.length_cons]; ring

/-- Claim C10.  With the deployed depth `TREE_DEPTH = 10` the accumulator holds exactly
`2^10 = 1024` leaves: in a fresh pool each of the first 1024 deposits of the fixed amount
succeeds (the 1024th included), after which 1024 leaves are held; the 1025th deposit fails
with `CapacityExceeded` and leaves the ledger, and so the vault balance, as it was before
the attempt. -/
theorem capacity_boundary (P : Params) (hD : P.depth = TREE_DEPTH) (cs : List Nat)
    (hlen : cs.length = 1024) (c : Nat) :
    2 ^ P.depth = 1024 ∧
    (∀ k, k < 1024 →
      (((PoolLedger.init P).run P (depositOps P (cs.take k))).step P
        (.deposit (cs.getD k 0) P.DEPOSIT_AMOUNT)).2 = none) ∧
    ((PoolLedger.init P).run P (depositOps P cs)).tree.leaves.length = 1024 ∧
    (((PoolLedger.init P).run P (depositOps P cs)).step P (.deposit c P.DEPOSIT_AMOUNT)).2
      = some .CapacityExceeded ∧
    (((PoolLedger.init P).run P (depositOps P cs)).step P (.deposit c P.DEPOSIT_AMOUNT)).1
      = (PoolLedger.init P).run P (depositOps P cs) ∧
    (((PoolLedger.init P).run P (depositOps P cs)).step P
        (.deposit c P.DEPOSIT_AMOUNT)).1.balance .Native
      = ((PoolLedger.init P).run P (depositOps P cs)).balance .Native := by
  have hcap : 2 ^ P.depth = 1024 := by rw [hD]; rfl
  have hinit : (PoolLedger.init P).tree.leaves = [] := rfl
  have hall := run_depositOps P cs (PoolLedger.init P) (by rw [hinit, hcap]; simp [hlen])
  have hfull : ((PoolLedger.init P).run P (depositOps P cs)).tree.leaves.length
      = 2 ^ P.depth := by rw [hall.1, hinit, hcap]; simpa using hlen
  have hstep := step_deposit_full P _ c hfull
  refine ⟨hcap, ?_, by rw [hfull, hcap], by rw [hstep], by rw [hstep], by rw [hstep]⟩
  intro k hk
  have hpart := run_depositOps P (cs.take k) (PoolLedger.init P)
    (by rw [hinit, hcap, List.length_take]; simp; omega)
  refine (step_deposit_ok P _ _ ?_).1
  rw [hpart.1, hinit, hcap, List.nil_append, List.length_take]
  omega

/-- Claim C10, witness: a pool of the deployed depth receiving 1024 deposits of commitment
7 refuses a further deposit. -/
theorem capacity_boundary_witness :
    toyDeployed.depth = TREE_DEPTH ∧ (List.replicate 1024 7).length = 1024 ∧
    (((PoolLedger.init toyDeployed).run toyDeployed
        (depositOps toyDeployed (List.replicate 1024 7))).step toyDeployed
        (.deposit 8 toyDeployed.DEPOSIT_AMOUNT)).2 = some .CapacityExceeded :=
  ⟨rfl, List.length_replicate 1024 7,
   (capacity_boundary toyDeployed rfl (List.replicate 1024 7)
      (List.length_replicate 1024 7) 8).2.2.2.1⟩

end Core

namespace Client

theorem digitChar_spec (k : Nat) (hk : k < 10) :
    (Nat.digitChar k).isDigit = true ∧ (Nat.digitChar k).toNat - 48 = k := by
  interval_cases k <;> exact ⟨by decide, by decide⟩

theorem foldl_digits (cs : List Char) : ∀ acc : Nat,
    cs.foldl (fun acc c => 10 * acc + (c.toNat - 48)) acc
      = acc * 10 ^ cs.length + digitsValue cs := by
  induction cs with
  | nil => intro acc; simp [digitsValue]
  | cons c cs ih =>
    intro acc
    unfold digitsValue
    simp only [List.foldl_cons, List.length_cons]
    rw [ih, ih (10 * 0 + (c.toNat - 48))]
    ring

theorem digitsValue_append (xs ys : List Char) :
    digitsValue (xs ++ ys) = digitsValue xs * 10 ^ ys.length + digitsValue ys := by
  unfold digitsValue
  rw [List.foldl_append, foldl_digits]
  rfl

theorem digitsValue_zeros (k : Nat) : digitsValue (List.replicate k '0') = 0 := by
  induction k with
  | zero => rfl
  | succ k ih =>
    rw [List.replicate_succ']
    rw [digitsValue_append, ih]
    rfl

theorem digitsValue_zeros_append (k : Nat) (xs : List Char) :
    digitsValue (List.replicate k '0' ++ xs) = digitsValue xs := by
  rw [digitsValue_append, digitsValue_zeros]; simp

/-- The decimal rendering of a number: non-empty, digits only, and it reads back. -/
theorem toDigitsCore_spec : ∀ (fuel n : Nat) (ds : List Char), n < fuel →
    ∃ xs, Nat.toDigitsCore 10 fuel n ds = xs ++ ds ∧ digitsValue xs = n ∧
      (∀ c ∈ xs, c.isDigit = true) ∧ xs ≠ [] := by
  intro fuel
  induction fuel with
  | zero => intro n ds h; omega
  | succ fuel ih =>
    intro n ds h
    obtain ⟨hd1, hd2⟩ := digitChar_spec (n % 10) (Nat.mod_lt _ (by decide))
    unfold Nat.toDigitsCore
    simp only
    by_cases h0 : n / 10 = 0
    · rw [if_pos h0]
      refine ⟨[Nat.digitChar (n % 10)], rfl, ?_, ?_, by simp⟩
      · simp only [digitsValue, List.foldl_cons, List.foldl_nil, hd2]; omega
      · intro c hc; simp only [List.mem_singleton] at hc; rw [hc]; exact hd1
    · rw [if_neg h0]
      obtain ⟨xs, e1, e2, e3, -⟩ := ih (n / 10) (Nat.digitChar (n % 10) :: ds) (by omega)
      refine ⟨xs ++ [Nat.digitChar (n % 10)], by rw [e1]; simp, ?_, ?_, by simp⟩
      · rw [digitsValue_append, e2]
        simp only [digitsValue, List.foldl_cons, List.foldl_nil, hd2, List.length_singleton]
        omega
      · intro c hc
        rcases List.mem_append.mp hc with h1 | h1
        · exact e3 c h1
        · simp only [List.mem_singleton] at h1; rw [h1]; exact hd1

theorem toDigits_spec (n : Nat) :
    digitsValue (Nat.toDigits 10 n) = n ∧ (∀ c ∈ Nat.toDigits 10 n, c.isDigit = true) ∧
      Nat.toDigits 10 n ≠ [] := by
  obtain ⟨xs, e1, e2, e3, e4⟩ := toDigitsCore_spec (n + 1) n [] (by omega)
  unfold Nat.toDigits
  rw [e1, List.append_nil]
  exact ⟨e2, e3, e4⟩

theorem isDigit_ne_point (c : Char) (h : c.isDigit = true) : c ≠ '.' := by
  intro e; rw [e] at h; revert h; decide

theorem isDigit_ne_minus (c : Char) (h : c.isDigit = true) : c ≠ '-' := by
  intro e; rw [e] at h; revert h; decide

/-- Trimming in front of the point drops leading zeros of a non-empty digit string and keeps at
least one character. -/
theorem trimZeros_digits (R : List Char) : ∀ W : List Char, W ≠ [] →
    (∀ c ∈ W, c.isDigit = true) →
    ∃ k W2, W = List.replicate k '0' ++ W2 ∧ W2 ≠ [] ∧
      trimZeros (W ++ '.' :: R) = W2 ++ '.' :: R := by
  intro W
  induction W with
  | nil => intro h; exact absurd rfl h
  | cons a W ih =>
    intro _ hd
    cases W with
    | nil =>
      refine ⟨0, [a], rfl, by simp, ?_⟩
      simp [trimZeros]
    | cons b W =>
      have hb : b ≠ '.' := isDigit_ne_point b (hd b (by simp))
      by_cases ha : a = '0'
      · obtain ⟨k, W2, e1, e2, e3⟩ := ih (by simp) (fun c hc => hd c (List.mem_cons_of_mem _ hc))
        refine ⟨k + 1, W2, by rw [List.replicate_succ, List.cons_append, ← e1, ha], e2, ?_⟩
        simp only [List.cons_append] at e3 ⊢
        unfold trimZeros
        rw [if_pos ⟨ha, hb⟩]
        exact e3
      · refine ⟨0, a :: b :: W, rfl, by simp, ?_⟩
        simp only [List.cons_append]
        unfold trimZeros
        rw [if_neg (fun h => ha h.1)]

/-- The shape of a formatted amount with at least one decimal place: whole digits, the point,
fraction digits; re-padding the fraction with zeros reads back the amount. -/
theorem formatUnitsChars_shape (d dec : Nat) (hdec : 0 < dec) :
    ∃ W F k, W ≠ [] ∧ (∀ c ∈ W, c.isDigit = true) ∧ (∀ c ∈ F, c.isDigit = true) ∧
      F.length + k = dec ∧ digitsValue (W ++ (F ++ List.replicate k '0')) = d ∧
      formatUnitsChars d dec = W ++ '.' :: F := by
  obtain ⟨hval, hdig, hne⟩ := toDigits_spec d
  have hlen : 0 < (Nat.toDigits 10 d).length := List.length_pos.mpr hne
  unfold formatUnitsChars
  simp only [if_neg (Nat.pos_iff_ne_zero.mp hdec)]
  generalize hp : List.replicate (4 * ((dec + 1 - (Nat.toDigits 10 d).length + 3) / 4)) '0'
      ++ Nat.toDigits 10 d
    = padded
  have hpv : digitsValue padded = d := by rw [← hp, digitsValue_zeros_append, hval]
  have hpd : ∀ c ∈ padded, c.isDigit = true := by
    intro c hc
    rw [← hp] at hc
    rcases List.mem_append.mp hc with h1 | h1
    · rw [(List.mem_replicate.mp h1).2]; decide
    · exact hdig c h1
  have hpl : dec + 1 ≤ padded.length := by
    rw [← hp, List.length_append, List.length_replicate]; omega
  have hW : padded.take (padded.length - dec) ≠ [] := by
    intro e
    have := congrArg List.length e
    rw [List.length_take] at this
    simp at this; omega
  have hWd : ∀ c ∈ padded.take (padded.length - dec), c.isDigit = true :=
    fun c hc => hpd c (List.mem_of_mem_take hc)
  have hFd : ∀ c ∈ padded.drop (padded.length - dec), c.isDigit = true :=
    fun c hc => hpd c (List.mem_of_mem_drop hc)
  have hFl : (padded.drop (padded.length - dec)).length = dec := by
    rw [List.length_drop]; omega
  obtain ⟨k1, W2, e1, e2, e3⟩ :=
    trimZeros_digits (padded.drop (padded.length - dec)) _ hW hWd
  rw [e3]
  have hFr : (padded.drop (padded.length - dec)).reverse ≠ [] := by
    intro e
    have := congrArg List.length e
    rw [List.length_reverse, hFl] at this
    simp at this; omega
  obtain ⟨k2, F2, f1, f2, f3⟩ := trimZeros_digits W2.reverse
    (padded.drop (padded.length - dec)).reverse hFr
    (fun c hc => hFd c (List.mem_reverse.mp hc))
  have hrev : (W2 ++ '.' :: padded.drop (padded.length - dec)).reverse
      = (padded.drop (padded.length - dec)).reverse ++ '.' :: W2.reverse := by
    simp
  rw [hrev, f3]
  have hF : padded.drop (padded.length - dec) = F2.reverse ++ List.replicate k2 '0' := by
    have := congrArg List.reverse f1
    rw [List.reverse_reverse, List.reverse_append, List.reverse_replicate] at this
    exact this
  have hW2d : ∀ c ∈ W2, c.isDigit = true := by
    intro c hc
    apply hWd; rw [e1]; exact List.mem_append_right _ hc
  refine ⟨W2, F2.reverse, k2, e2, hW2d, ?_, ?_, ?_, by simp⟩
  · intro c hc
    apply hFd; rw [hF]; exact List.mem_append_left _ hc
  · have := hFl
    rw [hF, List.length_append, List.length_replicate] at this
    exact this
  · rw [← hF, ← hpv]
    conv_rhs => rw [← List.take_append_drop (padded.length - dec) padded, e1, List.append_assoc,
      digitsValue_zeros_append]

theorem takeWhile_digits (W R : List Char) (hW : ∀ c ∈ W, c.isDigit = true) :
    (W ++ '.' :: R).takeWhile Char.isDigit = W ∧
    (W ++ '.' :: R).dropWhile Char.isDigit = '.' :: R := by
  induction W with
  | nil => exact ⟨by simp [List.takeWhile], by simp [List.dropWhile]⟩
  | cons a W ih =>
    have ha := hW a (by simp)
    obtain ⟨i1, i2⟩ := ih (fun c hc => hW c (List.mem_cons_of_mem _ hc))
    exact ⟨by rw [List.cons_append, List.takeWhile_cons, ha, if_pos rfl, i1],
      by rw [List.cons_append, List.dropWhile_cons, ha, if_pos rfl, i2]⟩

/-- Parsing a string of that shape yields the value of the digits with the fraction re-padded
to full length. -/
theorem parseUnitsChars_shape (dec : Nat) (W F : List Char) (k : Nat) (hW : W ≠ [])
    (hWd : ∀ c ∈ W, c.isDigit = true) (hFd : ∀ c ∈ F, c.isDigit = true)
    (hk : F.length + k = dec)
    (hlim : digitsValue (W ++ (F ++ List.replicate k '0')) < fixedLimit) :
    parseUnitsChars (W ++ '.' :: F) dec
      = .ok (digitsValue (W ++ (F ++ List.replicate k '0')) : Int) := by
  obtain ⟨t1, t2⟩ := takeWhile_digits W F hWd
  have hneg : ¬ ((W ++ '.' :: F).head? = some '-') := by
    cases W with
    | nil => exact absurd rfl hW
    | cons a W =>
      simp only [List.cons_append, List.head?_cons, Option.some.injEq]
      exact isDigit_ne_minus a (hWd a (by simp))
  have hall : F.all Char.isDigit = true := List.all_eq_true.mpr hFd
  have hdrop : F.drop dec = [] := List.drop_eq_nil_of_le (by omega)
  have hdec : (F ++ List.replicate (4 * ((dec - F.length + 3) / 4)) '0').take dec
      = F ++ List.replicate k '0' := by
    have e : dec = F.length + k := by omega
    have hk2 : k ≤ 4 * ((dec - F.length + 3) / 4) := by omega
    rw [e, List.take_append, List.take_replicate, Nat.min_eq_left (by omega)]
  have hpos : ¬ (W.length + F.length = 0) := by
    have := List.length_pos.mpr hW; omega
  unfold parseUnitsChars
  simp only [hneg, decide_False, Bool.false_eq_true, if_false, t1, t2, fractionOf, hall,
    and_self, if_true, hpos, hdrop, List.all_nil, hdec, Nat.not_le.mpr hlim, Bool.true_eq_false]

/-- Formatting a fixed-point amount and parsing it back is the identity. -/
theorem parseUnitsChars_formatUnitsChars (d dec : Nat) (hd : d < fixedLimit) :
    parseUnitsChars (formatUnitsChars d dec) dec = .ok (d : Int) := by
  by_cases hdec : dec = 0
  · subst hdec
    obtain ⟨hval, hdig, hne⟩ := toDigits_spec d
    have hfmt : formatUnitsChars d 0 = Nat.toDigits 10 d := by simp [formatUnitsChars]
    have hneg : ¬ ((Nat.toDigits 10 d).head? = some '-') := by
      cases hx : Nat.toDigits 10 d with
      | nil => exact absurd hx hne
      | cons a W =>
        simp only [List.head?_cons, Option.some.injEq]
        exact isDigit_ne_minus a (hdig a (by rw [hx]; simp))
    have t1 : (Nat.toDigits 10 d).takeWhile Char.isDigit = Nat.toDigits 10 d :=
      List.takeWhile_eq_self_iff.mpr hdig
    have t2 : (Nat.toDigits 10 d).dropWhile Char.isDigit = [] :=
      List.dropWhile_eq_nil_iff.mpr hdig
    have hpos : ¬ ((Nat.toDigits 10 d).length + 0 = 0) := by
      have := List.length_pos.mpr hne; omega
    rw [hfmt]
    unfold parseUnitsChars
    simp only [hneg, decide_False, Bool.false_eq_true, if_false, t1, t2, fractionOf,
      List.length_nil, hpos, List.drop_nil, List.all_nil, Bool.true_eq_false,
      List.replicate_zero, List.append_nil, List.take_nil, List.take_zero, Nat.sub_self, hval,
      Nat.not_le.mpr hd]
  · obtain ⟨W, F, k, h1, h2, h3, h4, h5, h6⟩ := formatUnitsChars_shape d dec (by omega)
    rw [h6, parseUnitsChars_shape dec W F k h1 h2 h3 h4 (by rw [h5]; exact hd), h5]


/-! ### Evaluation checks of the library models -/

theorem formatEther_examples :
    formatEther 1000000000000000 = "0.001" ∧ formatEther 0 = "0.0" ∧
    formatEther 1500000000000000000 = "1.5" ∧ formatEther 12000000000000000000 = "12.0" ∧
    formatUnits 1200 2 = "12.0" ∧ formatUnits 1234 0 = "1234" := by
  decide

theorem parseEther_examples :
    parseEther "0.001" = .ok 1000000000000000 ∧ parseEther "1." = .ok 1000000000000000000 ∧
    parseEther "-1" = .ok (-1000000000000000000) ∧ (parseEther "1e5").toOption = none ∧
    (parseEther ".").toOption = none ∧ (parseUnits "1.25" 1).toOption = none := by
  decide

theorem isHexAddress_examples :
    isHexAddress ZeroAddress = true ∧ isHexAddress "" = false ∧
    isHexAddress "0x3333333333333333333333333333333333333333" = true ∧
    isHexAddress "0x123" = false := by
  decide

/-! ### `handleWithdraw`: the guards -/

/-- Claim C2, evaluated at the failing input: an ETH withdrawal whose nullifier hash the pool
reports as spent.  `handleWithdraw` does not consult `pool.nullifierHashes` on this path and
requests `pool.withdraw`; the token path, on the same form and world, asks
`pool.nullifierHashes` first and requests no payout. -/
theorem eth_withdrawal_skips_spent_check :
    spentWorld.nullifierHashes ethForm.nullifierHash = .ok true ∧
    wCalls (handleWithdraw demoProps ethForm spentWorld)
      = [.withdraw (toyHash (word '1') "") "0x3333333333333333333333333333333333333333"
          (word 'c') ZeroAddress] ∧
    (wCalls (handleWithdraw demoProps ethForm spentWorld)).any Call.isPayout = true ∧
    wCalls (handleWithdraw demoProps tokenForm spentWorld)
      = [.balanceOf demoToken.address demoProps.poolAddress,
         .nullifierHashes (toyHash (word '1') "")] ∧
    (wCalls (handleWithdraw demoProps tokenForm spentWorld)).any Call.isPayout = false := by
  decide

/-- Claim C3, as amended.  With the wallet connected and the nullifier hash set, a recipient
that is empty or that `ethers.isAddress` rejects makes `handleWithdraw` do one thing only:
set the status to the error "Please enter a valid recipient address".  It does not call
`setLoading` and requests no call. -/
theorem invalid_recipient_rejected (p : Props) (s : WState) (w : World)
    (hsigner : p.signer.isSome = true) (haccount : accountSet p.account = true)
    (hhash : s.nullifierHash ≠ "")
    (hrecipient : s.recipient = "" ∨ w.isAddress s.recipient = false) :
    handleWithdraw p s w
      = [.setStatus (errorStatus "Please enter a valid recipient address")] ∧
    (∀ v, WEffect.setLoading v ∉ handleWithdraw p s w) ∧
    wCalls (handleWithdraw p s w) = [] ∧
    (s.applyAll (handleWithdraw p s w)).loading = s.loading ∧
    (s.applyAll (handleWithdraw p s w)).status
      = errorStatus "Please enter a valid recipient address" := by
  have h1 : ¬ (p.signer.isNone = true ∨ accountSet p.account = false) := by
    cases hp : p.signer with
    | none => rw [hp] at hsigner; cases hsigner
    | some sg => simp [haccount]
  have e : handleWithdraw p s w
      = [.setStatus (errorStatus "Please enter a valid recipient address")] := by
    unfold handleWithdraw
    rw [if_neg h1, if_neg hhash, if_pos hrecipient]
  rw [e]
  refine ⟨rfl, ?_, rfl, rfl, rfl⟩
  intro v hv
  simp at hv

/-- Claim C3, witness: a recipient that is not an address. -/
theorem invalid_recipient_rejected_witness :
    handleWithdraw demoProps { ethForm with recipient := "not-an-address" } demoWorld
      = [.setStatus (errorStatus "Please enter a valid recipient address")] :=
  (invalid_recipient_rejected demoProps { ethForm with recipient := "not-an-address" }
    demoWorld rfl rfl (by decide) (Or.inr (by decide))).1

/-- Claim C3, counterexample to the claim as stated: the zero address is a non-empty string
that `isAddress` accepts, so with it as recipient `handleWithdraw` passes the recipient
guard, sets `loading` and requests `pool.withdraw` paying to the zero address. -/
theorem zero_address_passes_recipient_guard :
    demoWorld.isAddress ZeroAddress = true ∧
    handleWithdraw demoProps { ethForm with recipient := ZeroAddress } demoWorld
      ≠ [.setStatus (errorStatus "Please enter a valid recipient address")] ∧
    WEffect.setLoading true
      ∈ handleWithdraw demoProps { ethForm with recipient := ZeroAddress } demoWorld ∧
    wCalls (handleWithdraw demoProps { ethForm with recipient := ZeroAddress } demoWorld)
      = [.withdraw (toyHash (word '1') "") ZeroAddress (word 'c') ZeroAddress] := by
  decide

/-! ### Derived values going stale -/

/-- Claim C6, evaluated at the failing input: enter the nullifier `0x11..11`, generate its
hash, then edit the nullifier to `0x22..22`.  The state now holds the second nullifier next
to the hash of the first, which is not the pool hash of the second, and `handleWithdraw`
(once a recipient is entered and the root loaded) submits that stale hash. -/
theorem nullifier_edit_keeps_stale_hash :
    afterNullifierEdit.nullifier = word '2' ∧
    afterNullifierEdit.nullifierHash = toyHash (word '1') "" ∧
    demoWorld.generateNullifierHash afterNullifierEdit.nullifier
      = .ok (toyHash (word '2') "") ∧
    demoWorld.generateNullifierHash afterNullifierEdit.nullifier
      ≠ .ok afterNullifierEdit.nullifierHash ∧
    wCalls (handleWithdraw demoProps
      (WState.run demoProps demoWorld afterNullifierEdit
        [.editRecipient "0x3333333333333333333333333333333333333333", .refreshPoolInfo])
      demoWorld)
      = [.withdraw (toyHash (word '1') "") "0x3333333333333333333333333333333333333333"
          (word 'c') ZeroAddress] := by
  decide

/-- Claim C7, evaluated at the failing input: two runs of `generateSecrets`, the second before
the timer of the first has fired, then the first timer fires.  The state holds the second
secret and nullifier next to the commitment of the first pair, and `handleDeposit` submits
that commitment. -/
theorem second_generateSecrets_keeps_first_commitment :
    afterSecondSecrets.state.secret = hexlify (List.replicate 32 3) ∧
    afterSecondSecrets.state.nullifier = hexlify (List.replicate 32 4) ∧
    afterSecondSecrets.state.commitment
      = toyHash (hexlify (List.replicate 32 1)) (hexlify (List.replicate 32 2)) ∧
    demoWorld.generateCommitment (hexlify (List.replicate 32 1)) (hexlify (List.replicate 32 2))
      = .ok afterSecondSecrets.state.commitment ∧
    demoWorld.generateCommitment afterSecondSecrets.state.secret
        afterSecondSecrets.state.nullifier
      ≠ .ok afterSecondSecrets.state.commitment ∧
    dCalls (handleDeposit demoProps afterSecondSecrets.state demoWorld)
      = [.deposit (toyHash (hexlify (List.replicate 32 1)) (hexlify (List.replicate 32 2)))
          1000000000000000] := by
  decide

/-! ### The root field of `AnonymousWithdrawal` -/

theorem applyAll_root_of_noSetRoot : ∀ (effects : List WEffect) (s : WState),
    effects.all (fun e => !e.isSetRoot) = true → (s.applyAll effects).root = s.root := by
  intro effects
  induction effects with
  | nil => intro s _; rfl
  | cons e effects ih =>
    intro s h
    simp only [List.all_cons, Bool.and_eq_true] at h
    show ((s.apply e).applyAll effects).root = s.root
    rw [ih (s.apply e) h.2]
    cases e <;> first | rfl | (simp [WEffect.isSetRoot] at h)

theorem tokenWithdrawal_noSetRoot (p : Props) (s : WState) (w : World) :
    (tokenWithdrawal p s w).1.all (fun e => !e.isSetRoot) = true := by
  unfold tokenWithdrawal tokenWithdrawalFailed callThen andThen
  repeat' split
  all_goals simp only [List.all_cons, List.all_nil, List.all_append, List.cons_append,
    List.nil_append, WEffect.isSetRoot]
  all_goals first | rfl | (split_ifs <;> rfl)

theorem ethWithdrawal_noSetRoot (s : WState) (w : World) :
    (ethWithdrawal s w).1.all (fun e => !e.isSetRoot) = true := by
  unfold ethWithdrawal callThen andThen
  cases w.withdraw s.nullifierHash s.recipient s.root ZeroAddress with
  | error e => rfl
  | ok tx =>
    simp only
    cases tx.wait with
    | error e => rfl
    | ok receipt =>
      simp only
      cases findEvent "Withdrawal" receipt.logs <;> rfl

theorem withdrawBody_noSetRoot (p : Props) (s : WState) (w : World) :
    (withdrawBody p s w).all (fun e => !e.isSetRoot) = true := by
  have h1 := tokenWithdrawal_noSetRoot p s w
  have h2 := ethWithdrawal_noSetRoot s w
  unfold withdrawBody
  by_cases ht : s.withdrawalType = "TOKEN"
  · simp only [ht, if_true]
    cases hb : (tokenWithdrawal p s w).2 <;>
      simp only [List.all_append, h1, Bool.true_and] <;> rfl
  · simp only [ht, if_false]
    cases hb : (ethWithdrawal s w).2 <;>
      simp only [List.all_append, h2, Bool.true_and] <;> rfl

theorem handleWithdraw_noSetRoot (p : Props) (s : WState) (w : World) :
    (handleWithdraw p s w).all (fun e => !e.isSetRoot) = true := by
  unfold handleWithdraw
  split_ifs
  · rfl
  · rfl
  · rfl
  · rfl
  · rw [List.all_append, withdrawBody_noSetRoot]; rfl

theorem handleGenerateNullifierHash_noSetRoot (p : Props) (s : WState) (w : World) :
    (handleGenerateNullifierHash p s w).all (fun e => !e.isSetRoot) = true := by
  unfold handleGenerateNullifierHash
  split_ifs
  · rfl
  · rfl
  · cases w.generateNullifierHash s.nullifier <;> rfl

/-- A run of `loadPoolStats` leaves the root as it was or sets it to the value that
`pool.getLatestRoot()` returned during the run. -/
theorem loadPoolStats_root (p : Props) (w : World) (s : WState) :
    (s.applyAll (loadPoolStats p w)).root = s.root ∨
    (s.applyAll (loadPoolStats p w)).root ∈ observedRoots w (loadPoolStats p w) := by
  unfold loadPoolStats
  split_ifs
  · exact Or.inl rfl
  · exact Or.inl rfl
  · cases h1 : w.getStats with
    | error e => exact Or.inl rfl
    | ok stats =>
      cases h2 : w.getLatestRoot with
      | error e => exact Or.inl rfl
      | ok r =>
        right
        simp [observedRoots, h2, WState.applyAll, WState.apply]

theorem withdrawalEffectHook_root (p : Props) (w : World) (s : WState) :
    (s.applyAll (withdrawalEffectHook p w)).root = s.root ∨
    (s.applyAll (withdrawalEffectHook p w)).root ∈ observedRoots w (withdrawalEffectHook p w) := by
  have hset : ∀ a : String,
      (s.applyAll (WEffect.setRecipient a :: loadPoolStats p w)).root = s.root ∨
      (s.applyAll (WEffect.setRecipient a :: loadPoolStats p w)).root
        ∈ observedRoots w (WEffect.setRecipient a :: loadPoolStats p w) :=
    fun a => loadPoolStats_root p w (s.apply (.setRecipient a))
  unfold withdrawalEffectHook
  cases p.account with
  | none => exact loadPoolStats_root p w s
  | some a =>
    by_cases hempty : a = ""
    · simp only [hempty, if_true, List.nil_append]; exact loadPoolStats_root p w s
    · simp only [hempty, if_false, List.singleton_append]; exact hset a

/-- Every event leaves the root as it was or sets it to a value that `pool.getLatestRoot()`
returned while the event was handled. -/
theorem event_root (p : Props) (s : WState) (w : World) (ev : WEvent) :
    (s.after p w ev).root = s.root ∨
    (s.after p w ev).root ∈ observedRoots w (ev.effects p s w) := by
  unfold WState.after
  cases ev with
  | effectHook => exact withdrawalEffectHook_root p w s
  | refreshPoolInfo => exact loadPoolStats_root p w s
  | generateNullifierHash =>
    exact Or.inl (applyAll_root_of_noSetRoot _ s (handleGenerateNullifierHash_noSetRoot p s w))
  | withdraw =>
    exact Or.inl (applyAll_root_of_noSetRoot _ s (handleWithdraw_noSetRoot p s w))
  | editNullifier v => exact Or.inl rfl
  | editRecipient v => exact Or.inl rfl
  | selectWithdrawalType v => exact Or.inl rfl
  | selectToken address =>
    left
    show (s.applyAll (WEvent.effects p s w (.selectToken address))).root = s.root
    simp only [WEvent.effects]
    cases p.deployedTokens.find? (fun t => t.address = address) <;> rfl
  | editTokenAmount v => exact Or.inl rfl

theorem reachable_root (s : WState) (seen : List String) (h : WReachable s seen) :
    s.root = "" ∨ s.root ∈ seen := by
  induction h with
  | initial => exact Or.inl rfl
  | step s seen p w ev _ ih =>
    rcases event_root p s w ev with h1 | h1
    · rw [h1]
      rcases ih with h2 | h2
      · exact Or.inl h2
      · exact Or.inr (List.mem_append_left _ h2)
    · exact Or.inr (List.mem_append_right _ h1)

theorem mem_wCalls (c : Call) : ∀ effects : List WEffect,
    c ∈ wCalls effects → ∃ ok, WEffect.call c ok ∈ effects := by
  intro effects
  induction effects with
  | nil => intro h; simp [wCalls] at h
  | cons e effects ih =>
    intro h
    cases e with
    | call c2 ok =>
      simp only [wCalls, List.mem_cons] at h
      rcases h with h | h
      · exact ⟨ok, by rw [h]; exact List.mem_cons_self _ _⟩
      · obtain ⟨ok2, h2⟩ := ih h
        exact ⟨ok2, List.mem_cons_of_mem _ h2⟩
    | _ =>
      simp only [wCalls] at h
      obtain ⟨ok2, h2⟩ := ih h
      exact ⟨ok2, List.mem_cons_of_mem _ h2⟩

theorem tokenWithdrawal_carriesRoot (p : Props) (s : WState) (w : World) :
    (tokenWithdrawal p s w).1.all (WEffect.carriesRoot s) = true := by
  unfold tokenWithdrawal tokenWithdrawalFailed callThen andThen
  repeat' split
  all_goals simp only [List.all_cons, List.all_nil, List.all_append, List.cons_append,
    List.nil_append]
  all_goals first
    | rfl
    | (split_ifs <;> simp [WEffect.carriesRoot, Call.isPayout, Call.rootArg])

theorem ethWithdrawal_carriesRoot (s : WState) (w : World) :
    (ethWithdrawal s w).1.all (WEffect.carriesRoot s) = true := by
  unfold ethWithdrawal callThen andThen
  cases w.withdraw s.nullifierHash s.recipient s.root ZeroAddress with
  | error e => simp [WEffect.carriesRoot, Call.rootArg]
  | ok tx =>
    simp only
    cases tx.wait with
    | error e => simp [WEffect.carriesRoot, Call.rootArg]
    | ok receipt =>
      simp only
      cases findEvent "Withdrawal" receipt.logs <;> simp [WEffect.carriesRoot, Call.rootArg]

theorem handleWithdraw_carriesRoot (p : Props) (s : WState) (w : World) :
    (handleWithdraw p s w).all (WEffect.carriesRoot s) = true := by
  have h1 := tokenWithdrawal_carriesRoot p s w
  have h2 := ethWithdrawal_carriesRoot s w
  unfold handleWithdraw
  split_ifs
  · rfl
  · rfl
  · rfl
  · rfl
  · rw [List.all_append]
    unfold withdrawBody
    by_cases ht : s.withdrawalType = "TOKEN"
    · simp only [ht, if_true]
      cases hb : (tokenWithdrawal p s w).2 <;>
        simp only [List.all_append, h1, Bool.true_and] <;> rfl
    · simp only [ht, if_false]
      cases hb : (ethWithdrawal s w).2 <;>
        simp only [List.all_append, h2, Bool.true_and] <;> rfl

/-- With an empty root `handleWithdraw` stops at one of its four guards: it only sets an
error status, and that status is the root message once the three earlier guards pass. -/
theorem handleWithdraw_empty_root (p : Props) (s : WState) (w : World) (hroot : s.root = "") :
    (∃ m, handleWithdraw p s w = [.setStatus (errorStatus m)]) ∧
    (p.signer.isSome = true → accountSet p.account = true → s.nullifierHash ≠ "" →
      s.recipient ≠ "" → w.isAddress s.recipient = true →
      handleWithdraw p s w = [.setStatus (errorStatus "Please load the latest root first")]) := by
  constructor
  · unfold handleWithdraw
    split_ifs
    · exact ⟨_, rfl⟩
    · exact ⟨_, rfl⟩
    · exact ⟨_, rfl⟩
    · exact ⟨_, rfl⟩
  · intro h1 h2 h3 h4 h5
    have g1 : ¬ (p.signer.isNone = true ∨ accountSet p.account = false) := by
      cases hp : p.signer with
      | none => rw [hp] at h1; cases h1
      | some sg => simp [h2]
    have g3 : ¬ (s.recipient = "" ∨ w.isAddress s.recipient = false) := by
      simp [h4, h5]
    unfold handleWithdraw
    rw [if_neg g1, if_neg h3, if_neg g3, if_pos hroot]

/-- Claim C8, as amended.  In every reachable state of `AnonymousWithdrawal` the root is empty or a value
that `pool.getLatestRoot()` returned earlier.  With an empty root `handleWithdraw` rejects:
it requests no call and only sets an error status, which is "Please load the latest root
first" once the wallet, nullifier-hash and recipient guards before it have passed.  Every
`pool.withdraw` or `pool.withdrawTokens` request it makes carries exactly the root held in
state, which is then one of the observed roots. -/
theorem withdrawal_root_observed (s : WState) (seen : List String) (h : WReachable s seen)
    (p : Props) (w : World) :
    (s.root = "" ∨ s.root ∈ seen) ∧
    (s.root = "" →
      wCalls (handleWithdraw p s w) = [] ∧
      (∃ m, handleWithdraw p s w = [.setStatus (errorStatus m)]) ∧
      (p.signer.isSome = true → accountSet p.account = true → s.nullifierHash ≠ "" →
        s.recipient ≠ "" → w.isAddress s.recipient = true →
        handleWithdraw p s w
          = [.setStatus (errorStatus "Please load the latest root first")])) ∧
    (∀ c ∈ wCalls (handleWithdraw p s w), c.isPayout = true →
      c.rootArg = some s.root ∧ s.root ∈ seen) := by
  have hinv := reachable_root s seen h
  have hempty : s.root = "" → wCalls (handleWithdraw p s w) = [] := by
    intro hroot
    obtain ⟨m, hm⟩ := (handleWithdraw_empty_root p s w hroot).1
    rw [hm]; rfl
  refine ⟨hinv, fun hroot => ⟨hempty hroot, handleWithdraw_empty_root p s w hroot⟩, ?_⟩
  intro c hc hpay
  obtain ⟨ok, hmem⟩ := mem_wCalls c _ hc
  have hall := List.all_eq_true.mp (handleWithdraw_carriesRoot p s w) _ hmem
  have harg : c.rootArg = some s.root := by
    simpa [WEffect.carriesRoot, hpay] using hall
  refine ⟨harg, ?_⟩
  rcases hinv with h0 | h0
  · rw [hempty h0] at hc; simp at hc
  · exact h0

/-- Claim C8, witness: the state reached by one refresh of the pool information holds the
root the pool returned. -/
theorem withdrawal_root_observed_witness :
    ((WState.initial.after demoProps demoWorld .refreshPoolInfo).root = "" ∨
      (WState.initial.after demoProps demoWorld .refreshPoolInfo).root
        ∈ [] ++ observedRoots demoWorld
            (WEvent.effects demoProps WState.initial demoWorld .refreshPoolInfo)) ∧
    (WState.initial.after demoProps demoWorld .refreshPoolInfo).root = (word 'c') :=
  ⟨(withdrawal_root_observed _ _
      (WReachable.step WState.initial [] demoProps demoWorld .refreshPoolInfo
        WReachable.initial) demoProps demoWorld).1, by decide⟩

/-! ### `handleDeposit`: the value attached to an ETH deposit -/

theorem dCalls_append : ∀ a b : List DEffect, dCalls (a ++ b) = dCalls a ++ dCalls b := by
  intro a b
  induction a with
  | nil => rfl
  | cons e a ih => cases e <;> simp [dCalls, ih]

theorem parseEther_formatEther (d : Nat) (hd : d < fixedLimit) :
    parseEther (formatEther d) = .ok (d : Int) :=
  parseUnitsChars_formatUnitsChars d 18 hd

theorem formatEther_ne_empty (d : Nat) : formatEther d ≠ "" := by
  obtain ⟨W, F, k, -, -, -, -, -, h6⟩ := formatUnitsChars_shape d 18 (by decide)
  intro e
  have h := congrArg String.data e
  simp only [formatEther, formatUnits, h6] at h
  cases W <;> simp at h

theorem uint256_lt_fixedLimit (d : Nat) (hd : d < 2 ^ 256) : d < fixedLimit := by
  have h : 2 ^ 256 ≤ fixedLimit := by
    unfold fixedLimit
    exact Nat.le_mul_of_pos_left _ (Nat.two_pow_pos 255)
  omega

/-- The guards of `handleDeposit` passed: what remains is the body. -/
theorem handleDeposit_body (p : Props) (s : DState) (w : World)
    (hsigner : p.signer.isSome = true) (haccount : accountSet p.account = true)
    (hsecret : s.secret ≠ "") (hnullifier : s.nullifier ≠ "") (hcommitment : s.commitment ≠ "")
    (htoken : s.depositType = "TOKEN" → s.selectedToken ≠ none ∧ s.tokenAmount ≠ "") :
    handleDeposit p s w = [.setLoading true, .setStatus none] ++ depositBody p s w := by
  have g1 : ¬ (p.signer.isNone = true ∨ accountSet p.account = false) := by
    cases hp : p.signer with
    | none => rw [hp] at hsigner; cases hsigner
    | some sg => simp [haccount]
  have g2 : ¬ (s.secret = "" ∨ s.nullifier = "" ∨ s.commitment = "") := by
    simp [hsecret, hnullifier, hcommitment]
  have g3 : ¬ (s.depositType = "TOKEN" ∧ (s.selectedToken = none ∨ s.tokenAmount = "")) := by
    intro h
    obtain ⟨h1, h2⟩ := htoken h.1
    rcases h.2 with h3 | h3
    · exact h1 h3
    · exact h2 h3
  unfold handleDeposit
  rw [if_neg g1, if_neg g2, if_neg g3]

/-- With the amount cell holding `v`, the ETH branch requests exactly one call,
`pool.deposit(commitment)` with the parsed value attached. -/
theorem ethDeposit_calls (s : DState) (w : World) (text : String) (value : Int)
    (htext : (match s.depositAmount with
              | some a => orElse a "0.001"
              | none => "0.001") = text)
    (hparse : parseEther text = .ok value) :
    dCalls (ethDeposit s w).1 = [.deposit s.commitment value] := by
  unfold ethDeposit
  rw [htext, hparse]
  simp only [callThen, andThen]
  cases w.deposit s.commitment value with
  | error e => rfl
  | ok tx =>
    simp only
    cases tx.wait with
    | error e => rfl
    | ok receipt =>
      simp only
      cases findEvent "Deposit" receipt.logs <;> rfl

theorem depositBody_eth_calls (p : Props) (s : DState) (w : World) (text : String)
    (value : Int) (htype : s.depositType = "ETH")
    (htext : (match s.depositAmount with
              | some a => orElse a "0.001"
              | none => "0.001") = text)
    (hparse : parseEther text = .ok value) :
    dCalls (depositBody p s w) = [.deposit s.commitment value] := by
  have h := ethDeposit_calls s w text value htext hparse
  unfold depositBody
  simp only [htype, if_true]
  cases hb : (ethDeposit s w).2 <;> simp [dCalls_append, h, dCalls]

/-- Claim C5, as amended.  Let `d` be the pool constant `DEPOSIT_AMOUNT` (a 256-bit amount of
wei).  `loadPoolInfo`, when it succeeds, stores `formatEther(d)` in `depositAmount`; parsing
that string back gives `d`; an ETH deposit submitted by `handleDeposit` from a state whose
`depositAmount` is `formatEther(d)` requests exactly one call, `pool.deposit(commitment)` with
the value `d` attached; and one submitted while `depositAmount` is still null attaches the
fall-back value `parseEther('0.001')`, that is `10^15` wei. -/
theorem eth_deposit_value (d : Nat) (hd : d < 2 ^ 256) :
    (∀ (p0 : Props) (s0 : DState) (w0 : World) (f : Nat), p0.poolAddress ≠ "" →
      hasContractProvider p0 w0 = true → w0.DEPOSIT_AMOUNT = .ok d → w0.FEE = .ok f →
      (s0.applyAll (loadPoolInfo p0 w0)).depositAmount = some (formatEther d)) ∧
    parseEther (formatEther d) = .ok (d : Int) ∧
    (∀ (p : Props) (s : DState) (w : World), p.signer.isSome = true →
      accountSet p.account = true → s.secret ≠ "" → s.nullifier ≠ "" → s.commitment ≠ "" →
      s.depositType = "ETH" →
      (s.depositAmount = some (formatEther d) →
        dCalls (handleDeposit p s w) = [.deposit s.commitment (d : Int)]) ∧
      (s.depositAmount = none →
        dCalls (handleDeposit p s w) = [.deposit s.commitment 1000000000000000])) := by
  have hlim := uint256_lt_fixedLimit d hd
  refine ⟨?_, parseEther_formatEther d hlim, ?_⟩
  · intro p0 s0 w0 f hp hprov hdep hfee
    unfold loadPoolInfo
    rw [if_neg hp, if_neg (by rw [hprov]; decide), hdep, hfee]
    rfl
  · intro p s w hsigner haccount hsecret hnullifier hcommitment htype
    have hbody := handleDeposit_body p s w hsigner haccount hsecret hnullifier hcommitment
      (by intro h; rw [htype] at h; exact absurd h (by decide))
    constructor
    · intro hamount
      rw [hbody, dCalls_append, depositBody_eth_calls p s w (formatEther d) d htype
        (by rw [hamount]; simp only [orElse, if_neg (formatEther_ne_empty d)])
        (parseEther_formatEther d hlim)]
      rfl
    · intro hamount
      rw [hbody, dCalls_append, depositBody_eth_calls p s w "0.001" 1000000000000000 htype
        (by rw [hamount]) (by decide)]
      rfl

/-- Claim C5, witness: a pool whose `DEPOSIT_AMOUNT` is 0.002 ETH. -/
theorem eth_deposit_value_witness :
    (2000000000000000 : Nat) < 2 ^ 256 ∧
    dCalls (handleDeposit demoProps
      { ethDepositForm with depositAmount := some (formatEther 2000000000000000) } demoWorld)
      = [.deposit (toyHash (word 'a') (word 'b')) 2000000000000000] :=
  ⟨by decide,
   ((eth_deposit_value 2000000000000000 (by decide)).2.2 demoProps
      { ethDepositForm with depositAmount := some (formatEther 2000000000000000) } demoWorld
      rfl rfl (by decide) (by decide) (by decide) rfl).1 rfl⟩

/-- Claim C5, counterexample to the claim as stated: the pool constant is 0.002 ETH and the
deposit is submitted while `depositAmount` is still null; the value attached is 0.001 ETH. -/
theorem eth_deposit_before_loadPoolInfo :
    demoWorld.DEPOSIT_AMOUNT = .ok 2000000000000000 ∧
    ethDepositForm.depositAmount = none ∧
    dCalls (handleDeposit demoProps ethDepositForm demoWorld)
      = [.deposit (toyHash (word 'a') (word 'b')) 1000000000000000] ∧
    dCalls (handleDeposit demoProps ethDepositForm demoWorld)
      ≠ [.deposit (toyHash (word 'a') (word 'b')) 2000000000000000] := by
  decide

/-! ### `handleDeposit`: a token deposit whose `insertLeaf` fails -/

/-- The effects of `handleDeposit` on a token deposit whose transfer is mined and whose
`insertLeaf` fails, either when requested or when waited for: after the failure only the
error status and `setLoading(false)` follow. -/
theorem handleDeposit_insertLeaf_fails (p : Props) (s : DState) (w : World) (tok : Token)
    (amount : Int) (balance : Nat) (transferTx : Tx) (transferReceipt : Receipt) (e : JsError)
    (hsigner : p.signer.isSome = true) (haccount : accountSet p.account = true)
    (hsecret : s.secret ≠ "") (hnullifier : s.nullifier ≠ "") (hcommitment : s.commitment ≠ "")
    (htype : s.depositType = "TOKEN") (htok : s.selectedToken = some tok)
    (hamt : s.tokenAmount ≠ "") (hparse : parseUnits s.tokenAmount tok.decimals = .ok amount)
    (hbal : w.balanceOf tok.address (p.account.getD "") = .ok balance)
    (hge : ¬ (balance : Int) < amount)
    (htransfer : w.transfer tok.address p.poolAddress amount = .ok transferTx)
    (hmined : transferTx.wait = .ok transferReceipt)
    (hinsert : w.insertLeaf s.commitment = .error e ∨
      ∃ tx, w.insertLeaf s.commitment = .ok tx ∧ tx.wait = .error e) :
    ∃ attempt : List DEffect,
      (attempt = [.call (.insertLeaf s.commitment) false] ∨
       attempt = [.call (.insertLeaf s.commitment) true,
                  .mined (.insertLeaf s.commitment) false]) ∧
      handleDeposit p s w =
        [.setLoading true, .setStatus none,
         .call (.balanceOf tok.address (p.account.getD "")) true,
         .setStatus (infoStatus "Transferring tokens to pool..."),
         .call (.transfer tok.address p.poolAddress amount) true,
         .mined (.transfer tok.address p.poolAddress amount) true,
         .setStatus (infoStatus "Creating commitment in pool..."),
         .setStatus (infoStatus "Adding commitment to merkle tree...")] ++ attempt ++
        [.setStatus (errorStatus (orElse e.reason (orElse e.message "Failed to make deposit"))),
         .setLoading false] := by
  have hne : s.depositType ≠ "ETH" := by rw [htype]; decide
  rw [handleDeposit_body p s w hsigner haccount hsecret hnullifier hcommitment
    (fun _ => ⟨by rw [htok]; simp, hamt⟩)]
  rcases hinsert with hins | ⟨tx, hins, hwait⟩
  · refine ⟨_, Or.inl rfl, ?_⟩
    simp [depositBody, tokenDeposit, callThen, andThen, hne, htok, hparse, hbal, hge,
      htransfer, hmined, hins]
  · refine ⟨_, Or.inr rfl, ?_⟩
    simp [depositBody, tokenDeposit, callThen, andThen, hne, htok, hparse, hbal, hge,
      htransfer, hmined, hins, hwait]

/-- Claim C4, as amended.  For every token deposit run by `handleDeposit` in which
`token.transfer(poolAddress, amount)` is mined and the following `pool.insertLeaf(commitment)`
fails, the handler requests exactly the balance check, the transfer and the insertion, and
then only reports the error and resets `loading`: no call returning the tokens follows.  The
transferred amount stays with the pool (the payer holds `amount` less, the pool `amount`
more), and the secret, nullifier and commitment stay in the form. -/
theorem failed_token_deposit_keeps_transfer (p : Props) (s : DState) (w : World) (tok : Token)
    (amount : Int) (balance : Nat) (transferTx : Tx) (transferReceipt : Receipt) (e : JsError)
    (b : TokenBalances)
    (hsigner : p.signer.isSome = true) (haccount : accountSet p.account = true)
    (hsecret : s.secret ≠ "") (hnullifier : s.nullifier ≠ "") (hcommitment : s.commitment ≠ "")
    (htype : s.depositType = "TOKEN") (htok : s.selectedToken = some tok)
    (hamt : s.tokenAmount ≠ "") (hparse : parseUnits s.tokenAmount tok.decimals = .ok amount)
    (hbal : w.balanceOf tok.address (p.account.getD "") = .ok balance)
    (hge : ¬ (balance : Int) < amount)
    (htransfer : w.transfer tok.address p.poolAddress amount = .ok transferTx)
    (hmined : transferTx.wait = .ok transferReceipt)
    (hinsert : w.insertLeaf s.commitment = .error e ∨
      ∃ tx, w.insertLeaf s.commitment = .ok tx ∧ tx.wait = .error e) :
    dCalls (handleDeposit p s w)
      = [.balanceOf tok.address (p.account.getD ""),
         .transfer tok.address p.poolAddress amount, .insertLeaf s.commitment] ∧
    balancesAfter tok.address p.poolAddress (handleDeposit p s w) b
      = { payer := b.payer - amount, pool := b.pool + amount } ∧
    (s.applyAll (handleDeposit p s w)).status
      = errorStatus (orElse e.reason (orElse e.message "Failed to make deposit")) ∧
    (s.applyAll (handleDeposit p s w)).loading = false ∧
    (s.applyAll (handleDeposit p s w)).secret = s.secret ∧
    (s.applyAll (handleDeposit p s w)).nullifier = s.nullifier ∧
    (s.applyAll (handleDeposit p s w)).commitment = s.commitment := by
  obtain ⟨attempt, hatt, heq⟩ := handleDeposit_insertLeaf_fails p s w tok amount balance
    transferTx transferReceipt e hsigner haccount hsecret hnullifier hcommitment htype htok
    hamt hparse hbal hge htransfer hmined hinsert
  rw [heq]
  rcases hatt with h | h <;> subst h <;>
    simp [dCalls, balancesAfter, DState.applyAll, DState.apply]

/-- Claim C4, witness: 40 tokens deposited into a full pool. -/
theorem failed_token_deposit_keeps_transfer_witness :
    balancesAfter demoToken.address demoProps.poolAddress
      (handleDeposit demoProps tokenDepositForm fullWorld) { payer := 100, pool := 0 }
      = { payer := 100 - 40, pool := 0 + 40 } :=
  (failed_token_deposit_keeps_transfer demoProps tokenDepositForm fullWorld demoToken 40 100
    (plainTx (word '9')) { hash := word '9', logs := [] } (revertError "Tree is full")
    { payer := 100, pool := 0 } rfl rfl (by decide) (by decide) (by decide) rfl rfl
    (by decide) (by decide) rfl (by decide) rfl rfl (Or.inl rfl)).2.1

/-- Claim C4, counterexample to the claim as stated: the payer holds 100 tokens and deposits
40 into a full pool.  The transfer is mined, `insertLeaf` reverts, `handleDeposit` requests
nothing further, and the balances are 60 and 40 instead of 100 and 0. -/
theorem failed_token_deposit_not_refunded :
    dCalls (handleDeposit demoProps tokenDepositForm fullWorld)
      = [.balanceOf demoToken.address "0x1111111111111111111111111111111111111111",
         .transfer demoToken.address demoProps.poolAddress 40,
         .insertLeaf (toyHash (word 'a') (word 'b'))] ∧
    DEffect.mined (.transfer demoToken.address demoProps.poolAddress 40) true
      ∈ handleDeposit demoProps tokenDepositForm fullWorld ∧
    DEffect.call (.insertLeaf (toyHash (word 'a') (word 'b'))) false
      ∈ handleDeposit demoProps tokenDepositForm fullWorld ∧
    balancesAfter demoToken.address demoProps.poolAddress
      (handleDeposit demoProps tokenDepositForm fullWorld) { payer := 100, pool := 0 }
      = { payer := 60, pool := 40 } ∧
    balancesAfter demoToken.address demoProps.poolAddress
      (handleDeposit demoProps tokenDepositForm fullWorld) { payer := 100, pool := 0 }
      ≠ { payer := 100, pool := 0 } := by
  decide

/-- Claim C8, counterexample to the claim as stated: in the initial state the root is empty,
and without a connected wallet `handleWithdraw` rejects with the wallet message, not with
"Please load the latest root first". -/
theorem empty_root_rejected_by_earlier_guard :
    WState.initial.root = "" ∧
    handleWithdraw { demoProps with signer := none, account := none } WState.initial demoWorld
      = [.setStatus (errorStatus "Please connect your wallet first")] ∧
    handleWithdraw { demoProps with signer := none, account := none } WState.initial demoWorld
      ≠ [.setStatus (errorStatus "Please load the latest root first")] := by
  decide

/-! ### The token path checks the nullifier before any payout -/

/-- On the token path, once the pool reports the nullifier hash as spent, the branch ends by
`return` or by a throw, never reaches `pool.withdrawTokens`, and touches neither the
nullifier, its hash nor `withdrawalInfo`; when it returns, it has set an error status. -/
theorem tokenWithdrawal_spent (p : Props) (s : WState) (w : World)
    (hspent : w.nullifierHashes s.nullifierHash = .ok true) (s0 : WState) :
    (tokenWithdrawal p s w).2 ≠ .finished ∧
    (wCalls (tokenWithdrawal p s w).1).any Call.isPayout = false ∧
    (s0.applyAll (tokenWithdrawal p s w).1).nullifier = s0.nullifier ∧
    (s0.applyAll (tokenWithdrawal p s w).1).nullifierHash = s0.nullifierHash ∧
    (s0.applyAll (tokenWithdrawal p s w).1).withdrawalInfo = s0.withdrawalInfo ∧
    ((tokenWithdrawal p s w).2 = .returned →
      ∃ m, (s0.applyAll (tokenWithdrawal p s w).1).status = errorStatus m) := by
  unfold tokenWithdrawal
  cases s.selectedToken with
  | none => exact ⟨by simp, rfl, rfl, rfl, rfl, fun _ => ⟨_, rfl⟩⟩
  | some tok =>
    simp only
    by_cases hamt : s.tokenAmount = ""
    · rw [if_pos hamt]; exact ⟨by simp, rfl, rfl, rfl, rfl, fun _ => ⟨_, rfl⟩⟩
    · rw [if_neg hamt]
      cases parseUnits s.tokenAmount tok.decimals with
      | error e => exact ⟨by simp, rfl, rfl, rfl, rfl, fun h => by cases h⟩
      | ok amount =>
        simp only [callThen]
        cases w.balanceOf tok.address p.poolAddress with
        | error e => exact ⟨by simp, rfl, rfl, rfl, rfl, fun h => by cases h⟩
        | ok poolBalance =>
          simp only [andThen]
          by_cases hlow : (poolBalance : Int) < amount
          · rw [if_pos hlow]; exact ⟨by simp, rfl, rfl, rfl, rfl, fun _ => ⟨_, rfl⟩⟩
          · rw [if_neg hlow, hspent]
            exact ⟨by simp, rfl, rfl, rfl, rfl, fun _ => ⟨_, rfl⟩⟩

/-- The token path of `handleWithdraw` checks before it pays: for every state, props and
world, when the pool reports the nullifier hash as spent the handler ends with an error
status, requests no payout and leaves nullifier, nullifier hash and `withdrawalInfo` as they
were. -/
theorem token_withdrawal_rejects_spent (p : Props) (s : WState) (w : World)
    (htype : s.withdrawalType = "TOKEN")
    (hspent : w.nullifierHashes s.nullifierHash = .ok true) :
    (wCalls (handleWithdraw p s w)).any Call.isPayout = false ∧
    (∃ m, (s.applyAll (handleWithdraw p s w)).status = errorStatus m) ∧
    (s.applyAll (handleWithdraw p s w)).nullifier = s.nullifier ∧
    (s.applyAll (handleWithdraw p s w)).nullifierHash = s.nullifierHash ∧
    (s.applyAll (handleWithdraw p s w)).withdrawalInfo = s.withdrawalInfo := by
  unfold handleWithdraw
  split_ifs
  · exact ⟨rfl, ⟨_, rfl⟩, rfl, rfl, rfl⟩
  · exact ⟨rfl, ⟨_, rfl⟩, rfl, rfl, rfl⟩
  · exact ⟨rfl, ⟨_, rfl⟩, rfl, rfl, rfl⟩
  · exact ⟨rfl, ⟨_, rfl⟩, rfl, rfl, rfl⟩
  · obtain ⟨h1, h2, h3, h4, h5, h6⟩ := tokenWithdrawal_spent p s w hspent
      ((s.apply (.setLoading true)).apply (.setStatus none))
    have hc : ∀ a b : List WEffect, wCalls (a ++ b) = wCalls a ++ wCalls b := by
      intro a b
      induction a with
      | nil => rfl
      | cons e a ih => cases e <;> simp [wCalls, ih]
    unfold withdrawBody
    simp only [htype, if_true]
    cases hb : (tokenWithdrawal p s w).2 with
    | finished => exact absurd hb h1
    | returned =>
      obtain ⟨m, hm⟩ := h6 hb
      simp only [WState.applyAll, List.foldl_append, List.foldl_cons, List.foldl_nil, hc,
        List.any_append] at h2 h3 h4 h5 hm ⊢
      exact ⟨by simp [wCalls, h2], ⟨m, by simpa [WState.apply] using hm⟩,
        by simpa [WState.apply] using h3, by simpa [WState.apply] using h4,
        by simpa [WState.apply] using h5⟩
    | threw e =>
      simp only [WState.applyAll, List.foldl_append, List.foldl_cons, List.foldl_nil, hc,
        List.any_append] at h2 h3 h4 h5 ⊢
      exact ⟨by simp [wCalls, h2], ⟨_, rfl⟩,
        by simpa [WState.apply] using h3, by simpa [WState.apply] using h4,
        by simpa [WState.apply] using h5⟩

/-! ### `generateSecrets`: two 256-bit words -/

theorem hexDigit_spec (k : Nat) (hk : k < 16) :
    isLowerHexDigit (Nat.digitChar k) = true ∧ hexDigitValue (Nat.digitChar k) = k := by
  interval_cases k <;> exact ⟨by decide, by decide⟩

theorem hexPairs_length (bytes : List Nat) :
    (bytes.flatMap (fun b => [Nat.digitChar (b / 16 % 16), Nat.digitChar (b % 16)])).length
      = 2 * bytes.length := by
  induction bytes with
  | nil => rfl
  | cons b bytes ih => simp only [List.flatMap_cons, List.length_append, List.length_cons,
      List.length_nil, ih]; omega

theorem hexPairs_lower (bytes : List Nat) :
    (bytes.flatMap (fun b => [Nat.digitChar (b / 16 % 16), Nat.digitChar (b % 16)])).all
      isLowerHexDigit = true := by
  induction bytes with
  | nil => rfl
  | cons b bytes ih =>
    simp only [List.flatMap_cons, List.all_append, List.all_cons, List.all_nil, ih,
      (hexDigit_spec (b / 16 % 16) (Nat.mod_lt _ (by decide))).1,
      (hexDigit_spec (b % 16) (Nat.mod_lt _ (by decide))).1, Bool.and_self]

theorem hexPairs_value (bytes : List Nat) (hb : ∀ b ∈ bytes, b < 256) : ∀ acc : Nat,
    (bytes.flatMap (fun b => [Nat.digitChar (b / 16 % 16), Nat.digitChar (b % 16)])).foldl
        (fun acc c => 16 * acc + hexDigitValue c) acc
      = bytes.foldl (fun acc b => 256 * acc + b) acc := by
  induction bytes with
  | nil => intro acc; rfl
  | cons b bytes ih =>
    intro acc
    have hlt : b < 256 := hb b (List.mem_cons_self _ _)
    simp only [List.flatMap_cons, List.foldl_append, List.foldl_cons, List.foldl_nil,
      (hexDigit_spec (b / 16 % 16) (Nat.mod_lt _ (by decide))).2,
      (hexDigit_spec (b % 16) (Nat.mod_lt _ (by decide))).2]
    rw [ih (fun c hc => hb c (List.mem_cons_of_mem _ hc))]
    congr 1
    omega

theorem bytes_foldl_bound (bytes : List Nat) (hb : ∀ b ∈ bytes, b < 256) : ∀ acc : Nat,
    bytes.foldl (fun acc b => 256 * acc + b) acc + 1 ≤ (acc + 1) * 256 ^ bytes.length := by
  induction bytes with
  | nil => intro acc; simp
  | cons b bytes ih =>
    intro acc
    have hlt : b < 256 := hb b (List.mem_cons_self _ _)
    have h := ih (fun c hc => hb c (List.mem_cons_of_mem _ hc)) (256 * acc + b)
    simp only [List.foldl_cons, List.length_cons]
    calc bytes.foldl (fun acc b => 256 * acc + b) (256 * acc + b) + 1
        ≤ (256 * acc + b + 1) * 256 ^ bytes.length := h
      _ ≤ (256 * (acc + 1)) * 256 ^ bytes.length :=
          Nat.mul_le_mul_right _ (by omega)
      _ = (acc + 1) * 256 ^ (bytes.length + 1) := by ring

/-- The string `hexlify` makes of 32 bytes is `0x` and 64 lower-case hexadecimal digits, and
it denotes the 256-bit number the bytes denote. -/
theorem hexlify_word (bytes : List Nat) (hlen : bytes.length = 32)
    (hb : ∀ b ∈ bytes, b < 256) :
    isHexWord (hexlify bytes) = true ∧
    hexValue ((hexlify bytes).data.drop 2) = bytesValue bytes ∧
    bytesValue bytes < 2 ^ 256 := by
  refine ⟨?_, ?_, ?_⟩
  · simp only [isHexWord, hexlify, List.take, List.drop, hexPairs_length, hexPairs_lower, hlen,
      decide_True, Bool.and_self]
  · exact hexPairs_value bytes hb 0
  · have h := bytes_foldl_bound bytes hb 0
    have e : (256 : Nat) ^ 32 = 2 ^ 256 := by norm_num
    rw [hlen, e] at h
    unfold bytesValue
    omega

/-- Claim C11.  For every outcome of the two draws of 32 random bytes, `generateSecrets` sets
the secret to `hexlify` of the first draw and the nullifier to `hexlify` of the second, each
a `0x`-prefixed string of exactly 64 hexadecimal digits denoting the 256-bit value of its
bytes, and clears the commitment and the status. -/
theorem generateSecrets_words (p : Props) (s : DState) (draw1 draw2 : List Nat)
    (hlen1 : draw1.length = 32) (hlen2 : draw2.length = 32)
    (hb1 : ∀ b ∈ draw1, b < 256) (hb2 : ∀ b ∈ draw2, b < 256) :
    (s.applyAll (generateSecrets p draw1 draw2)).secret = hexlify draw1 ∧
    (s.applyAll (generateSecrets p draw1 draw2)).nullifier = hexlify draw2 ∧
    (s.applyAll (generateSecrets p draw1 draw2)).commitment = "" ∧
    (s.applyAll (generateSecrets p draw1 draw2)).status = none ∧
    isHexWord (hexlify draw1) = true ∧ isHexWord (hexlify draw2) = true ∧
    hexValue ((hexlify draw1).data.drop 2) = bytesValue draw1 ∧
    hexValue ((hexlify draw2).data.drop 2) = bytesValue draw2 ∧
    bytesValue draw1 < 2 ^ 256 ∧ bytesValue draw2 < 2 ^ 256 := by
  obtain ⟨a1, a2, a3⟩ := hexlify_word draw1 hlen1 hb1
  obtain ⟨b1, b2, b3⟩ := hexlify_word draw2 hlen2 hb2
  have hstate : (s.applyAll (generateSecrets p draw1 draw2)).secret = hexlify draw1 ∧
      (s.applyAll (generateSecrets p draw1 draw2)).nullifier = hexlify draw2 ∧
      (s.applyAll (generateSecrets p draw1 draw2)).commitment = "" ∧
      (s.applyAll (generateSecrets p draw1 draw2)).status = none := by
    unfold generateSecrets
    by_cases hp : p.poolAddress = ""
    · rw [if_pos hp]; exact ⟨rfl, rfl, rfl, rfl⟩
    · rw [if_neg hp]; exact ⟨rfl, rfl, rfl, rfl⟩
  exact ⟨hstate.1, hstate.2.1, hstate.2.2.1, hstate.2.2.2, a1, b1, a2, b2, a3, b3⟩

/-- Claim C11, witness: the draws `ff..ff` and `00..00`. -/
theorem generateSecrets_words_witness :
    (List.replicate 32 255).length = 32 ∧ (List.replicate 32 0).length = 32 ∧
    (DState.initial.applyAll
      (generateSecrets demoProps (List.replicate 32 255) (List.replicate 32 0))).secret
      = hexlify (List.replicate 32 255) ∧
    isHexWord (hexlify (List.replicate 32 255)) = true :=
  ⟨rfl, rfl,
   (generateSecrets_words demoProps DState.initial (List.replicate 32 255)
      (List.replicate 32 0) rfl rfl
      (fun b hb => by rw [(List.mem_replicate.mp hb).2]; decide)
      (fun b hb => by rw [(List.mem_replicate.mp hb).2]; decide)).1,
   (generateSecrets_words demoProps DState.initial (List.replicate 32 255)
      (List.replicate 32 0) rfl rfl
      (fun b hb => by rw [(List.mem_replicate.mp hb).2]; decide)
      (fun b hb => by rw [(List.mem_replicate.mp hb).2]; decide)).2.2.2.2.1⟩

/-! ### `CreateZToken`: the guards of `handleDeploy` and the deploy button -/

theorem cCalls_append : ∀ a b : List CEffect, cCalls (a ++ b) = cCalls a ++ cCalls b := by
  intro a b
  induction a with
  | nil => rfl
  | cons x a ih => cases x <;> simp [cCalls, ih]

/-- The `try` block of `handleDeploy` requests the deployment first, with the form's name and
symbol and the parsed decimals, and requests no second deployment, whatever the factory and
the deployed token answer. -/
theorem deployBody_calls (p : CProps) (s : CState) (f : FactoryWorld) (n : Int) :
    ∃ rest, cCalls (deployBody p s f n).1 = .deploy s.name s.symbol n :: rest ∧
      rest.any TokenCall.isDeploy = false := by
  refine ⟨(cCalls (deployBody p s f n).1).tail, ?_, ?_⟩ <;>
  · unfold deployBody
    cases h0 : f.deploy s.name s.symbol n with
    | error e => simp [callThen, cCalls]
    | ok token =>
    cases h1 : token.waitForDeployment with
    | error e => simp [callThen, andThen, cCalls, TokenCall.isDeploy, h1]
    | ok u =>
    cases h2 : token.getAddress with
    | error e => simp [callThen, andThen, cCalls, TokenCall.isDeploy, h1, h2]
    | ok address =>
    cases h3 : token.name with
    | error e => simp [callThen, andThen, cCalls, TokenCall.isDeploy, h1, h2, h3]
    | ok tokenName =>
    cases h4 : token.symbol with
    | error e => simp [callThen, andThen, cCalls, TokenCall.isDeploy, h1, h2, h3, h4]
    | ok tokenSymbol =>
    cases h5 : token.decimals with
    | error e => simp [callThen, andThen, cCalls, TokenCall.isDeploy, h1, h2, h3, h4, h5]
    | ok tokenDecimals =>
    cases h6 : parseUnits "10000" tokenDecimals with
    | error e => simp [callThen, andThen, cCalls, TokenCall.isDeploy, h1, h2, h3, h4, h5, h6]
    | ok mintAmount =>
    cases h7 : token.mint (p.account.getD "") mintAmount with
    | error e =>
      simp [callThen, andThen, cCalls, TokenCall.isDeploy, h1, h2, h3, h4, h5, h6, h7]
    | ok mintTx =>
    cases h8 : mintTx.wait with
    | error e =>
      simp [callThen, andThen, cCalls, TokenCall.isDeploy, h1, h2, h3, h4, h5, h6, h7, h8]
    | ok r =>
    cases h9 : p.hasOnTokenCreated <;>
      simp [callThen, andThen, cCalls, TokenCall.isDeploy, h1, h2, h3, h4, h5, h6, h7, h8, h9]

/-- Past its guards `handleDeploy` requests the deployment first and only once. -/
theorem handleDeploy_calls (p : CProps) (s : CState) (f : FactoryWorld) (n : Int)
    (hsigner : p.signer.isSome = true) (haccount : accountSet p.account = true)
    (hname : s.name ≠ "") (hsymbol : s.symbol ≠ "") (hdecimals : s.decimals ≠ "")
    (hparse : parseInt s.decimals = some n) (hlo : 0 ≤ n) (hhi : n ≤ 18) :
    ∃ rest, cCalls (handleDeploy p s f) = .deploy s.name s.symbol n :: rest ∧
      rest.any TokenCall.isDeploy = false := by
  obtain ⟨rest, hrest, hno⟩ := deployBody_calls p s f n
  have h1 : ¬ (p.signer.isNone ∨ accountSet p.account = false) := by
    cases hs : p.signer with
    | none => rw [hs] at hsigner; cases hsigner
    | some sg => simp [haccount]
  have h2 : ¬ (s.name = "" ∨ s.symbol = "" ∨ s.decimals = "") := by
    rintro (h | h | h)
    · exact hname h
    · exact hsymbol h
    · exact hdecimals h
  have h3 : ¬ (n < 0 ∨ n > 18) := by omega
  unfold handleDeploy
  rw [if_neg h1, if_neg h2, hparse]
  simp only [if_neg h3]
  refine ⟨rest, ?_, hno⟩
  cases (deployBody p s f n).2 with
  | finished => simp only [cCalls_append, hrest]; simp [cCalls]
  | returned => simp only [cCalls_append, hrest]; simp [cCalls]
  | threw e => simp only [cCalls_append, hrest]; simp [cCalls]

/-- Outside the range 0..18, or on a string `parseInt` does not read, `handleDeploy` only
reports the range error. -/
theorem handleDeploy_range_error (p : CProps) (s : CState) (f : FactoryWorld)
    (hsigner : p.signer.isSome = true) (haccount : accountSet p.account = true)
    (hname : s.name ≠ "") (hsymbol : s.symbol ≠ "") (hdecimals : s.decimals ≠ "")
    (hout : ¬ ∃ n, parseInt s.decimals = some n ∧ 0 ≤ n ∧ n ≤ 18) :
    handleDeploy p s f = [.setStatus (errorStatus "Decimals must be between 0 and 18")] := by
  have h1 : ¬ (p.signer.isNone ∨ accountSet p.account = false) := by
    cases hs : p.signer with
    | none => rw [hs] at hsigner; cases hsigner
    | some sg => simp [haccount]
  have h2 : ¬ (s.name = "" ∨ s.symbol = "" ∨ s.decimals = "") := by
    rintro (h | h | h)
    · exact hname h
    · exact hsymbol h
    · exact hdecimals h
  unfold handleDeploy
  rw [if_neg h1, if_neg h2]
  cases hparse : parseInt s.decimals with
  | none => rfl
  | some n =>
    have h3 : n < 0 ∨ n > 18 := by
      by_contra hc
      exact hout ⟨n, hparse, by omega, by omega⟩
    simp only [if_pos h3]

/-- Claim C12.  With signer and account present and at least one of name, symbol and decimals
empty, `handleDeploy` only sets the error status `Please fill in all fields`: it requests no
call at all, so no deployment, and leaves loading, the token address and the three form
fields as they were. -/
theorem empty_field_rejected (p : CProps) (s : CState) (f : FactoryWorld)
    (hsigner : p.signer.isSome = true) (haccount : accountSet p.account = true)
    (hempty : s.name = "" ∨ s.symbol = "" ∨ s.decimals = "") :
    handleDeploy p s f = [.setStatus (errorStatus "Please fill in all fields")] ∧
    cCalls (handleDeploy p s f) = [] ∧
    (s.applyAll (handleDeploy p s f)).status = errorStatus "Please fill in all fields" ∧
    (s.applyAll (handleDeploy p s f)).loading = s.loading ∧
    (s.applyAll (handleDeploy p s f)).tokenAddress = s.tokenAddress ∧
    (s.applyAll (handleDeploy p s f)).name = s.name ∧
    (s.applyAll (handleDeploy p s f)).symbol = s.symbol ∧
    (s.applyAll (handleDeploy p s f)).decimals = s.decimals := by
  have h1 : ¬ (p.signer.isNone ∨ accountSet p.account = false) := by
    cases hs : p.signer with
    | none => rw [hs] at hsigner; cases hsigner
    | some sg => simp [haccount]
  have h : handleDeploy p s f = [.setStatus (errorStatus "Please fill in all fields")] := by
    unfold handleDeploy
    rw [if_neg h1, if_pos hempty]
  rw [h]
  exact ⟨rfl, rfl, rfl, rfl, rfl, rfl, rfl, rfl⟩

/-- Claim C12, witness: the freshly mounted form, whose name and symbol are empty. -/
theorem empty_field_rejected_witness :
    CState.initial.name = "" ∧
    handleDeploy demoCProps CState.initial demoFactory
      = [.setStatus (errorStatus "Please fill in all fields")] :=
  ⟨rfl, (empty_field_rejected demoCProps CState.initial demoFactory (by decide) (by decide)
    (Or.inl rfl)).1⟩

/-- Claim C13.  With signer, account, name, symbol and a non-empty decimals string,
`handleDeploy` requests the deployment exactly when `parseInt(decimals)` is an integer from 0
to 18; then the deployment is its first call, requested once, with the form's name and symbol
and that integer as decimals; otherwise it only sets the error status
`Decimals must be between 0 and 18`. -/
theorem decimals_range_checked (p : CProps) (s : CState) (f : FactoryWorld)
    (hsigner : p.signer.isSome = true) (haccount : accountSet p.account = true)
    (hname : s.name ≠ "") (hsymbol : s.symbol ≠ "") (hdecimals : s.decimals ≠ "") :
    ((cCalls (handleDeploy p s f)).any TokenCall.isDeploy = true ↔
      ∃ n, parseInt s.decimals = some n ∧ 0 ≤ n ∧ n ≤ 18) ∧
    (∀ n, parseInt s.decimals = some n → 0 ≤ n → n ≤ 18 →
      (cCalls (handleDeploy p s f)).head? = some (.deploy s.name s.symbol n) ∧
      (cCalls (handleDeploy p s f)).filter TokenCall.isDeploy
        = [.deploy s.name s.symbol n]) ∧
    ((¬ ∃ n, parseInt s.decimals = some n ∧ 0 ≤ n ∧ n ≤ 18) →
      handleDeploy p s f = [.setStatus (errorStatus "Decimals must be between 0 and 18")] ∧
      cCalls (handleDeploy p s f) = []) := by
  have hin : ∀ n, parseInt s.decimals = some n → 0 ≤ n → n ≤ 18 →
      (cCalls (handleDeploy p s f)).any TokenCall.isDeploy = true ∧
      (cCalls (handleDeploy p s f)).head? = some (.deploy s.name s.symbol n) ∧
      (cCalls (handleDeploy p s f)).filter TokenCall.isDeploy
        = [.deploy s.name s.symbol n] := by
    intro n hparse hlo hhi
    obtain ⟨rest, hrest, hno⟩ :=
      handleDeploy_calls p s f n hsigner haccount hname hsymbol hdecimals hparse hlo hhi
    rw [hrest]
    refine ⟨by simp [TokenCall.isDeploy], rfl, ?_⟩
    have hf : rest.filter TokenCall.isDeploy = [] := by
      rw [List.filter_eq_nil_iff]
      intro c hc hd
      have := List.any_eq_true.mpr ⟨c, hc, hd⟩
      rw [hno] at this
      cases this
    simp [List.filter_cons, TokenCall.isDeploy, hf]
  have hout : (¬ ∃ n, parseInt s.decimals = some n ∧ 0 ≤ n ∧ n ≤ 18) →
      handleDeploy p s f = [.setStatus (errorStatus "Decimals must be between 0 and 18")] ∧
      cCalls (handleDeploy p s f) = [] := by
    intro h
    rw [handleDeploy_range_error p s f hsigner haccount hname hsymbol hdecimals h]
    exact ⟨rfl, rfl⟩
  refine ⟨⟨?_, ?_⟩, fun n h1 h2 h3 => (hin n h1 h2 h3).2, hout⟩
  · intro hany
    by_contra hc
    rw [(hout hc).2] at hany
    cases hany
  · rintro ⟨n, h1, h2, h3⟩
    exact (hin n h1 h2 h3).1

/-- Claim C13, witness: the decimals string `19` is refused. -/
theorem decimals_range_checked_witness :
    handleDeploy demoCProps
        { CState.initial with name := "Test Token", symbol := "TEST", decimals := "19" }
        demoFactory
      = [.setStatus (errorStatus "Decimals must be between 0 and 18")] :=
  ((decimals_range_checked demoCProps
      { CState.initial with name := "Test Token", symbol := "TEST", decimals := "19" }
      demoFactory (by decide) (by decide) (by decide) (by decide) (by decide)).2.2
    (by decide)).1

/-- Claim C14.  With a signer, no account and no deployment in progress the button labelled
`Deploy ZToken` is enabled, although `account` is null; a click then runs `handleDeploy`,
which refuses with `Please connect your wallet first`.  With the signer null the button is
disabled. -/
theorem deploy_button_enabled_without_account :
    (deployButton { demoCProps with account := none } CState.initial).disabled = false ∧
    (deployButton { demoCProps with account := none } CState.initial).label
      = "Deploy ZToken" ∧
    (deployButton { demoCProps with account := none } CState.initial).click
      = ["handleDeploy"] ∧
    handleDeploy { demoCProps with account := none } CState.initial demoFactory
      = [.setStatus (errorStatus "Please connect your wallet first")] ∧
    (deployButton { demoCProps with signer := none, account := none }
      CState.initial).disabled = true := by
  decide

/-! ### `WalletConnection`: the two views and the connect button -/

theorem accountSet_some (account : Option String) (h : accountSet account = true) :
    ∃ a, account = some a ∧ a ≠ "" := by
  cases account with
  | none => simp [accountSet] at h
  | some a =>
    refine ⟨a, rfl, ?_⟩
    intro e
    subst e
    simp [accountSet] at h

/-- Claim C15.  `WalletConnection` renders one of two views and never both.  With `account`
set the view is the `div` of class `account-info` whose text is `Connected: ` followed by
the account, and it holds no button.  With `account` null or empty the view is a single
button labelled `Connect Wallet`; it is not the account line and its text is the label
alone. -/
theorem walletConnection_two_views {H : Type} (account : Option String) (onConnect : H) :
    (accountSet account = true →
      ∃ a, account = some a ∧
        WalletConnection account onConnect
          = .div "account-info" [.text "Connected: ", .span a] ∧
        (WalletConnection account onConnect).textContent = "Connected: " ++ a ∧
        (WalletConnection account onConnect).buttons = []) ∧
    (accountSet account = false →
      WalletConnection account onConnect
        = .button { className := "button", onClick := onConnect, disabled := false,
                    label := "Connect Wallet" } ∧
      (WalletConnection account onConnect).textContent = "Connect Wallet" ∧
      (WalletConnection account onConnect).buttons.map Button.label = ["Connect Wallet"] ∧
      ∀ cls children, WalletConnection account onConnect ≠ .div cls children) := by
  constructor
  · intro h
    obtain ⟨a, ha, -⟩ := accountSet_some account h
    subst ha
    have hv : WalletConnection (some a) onConnect
        = .div "account-info" [.text "Connected: ", .span a] := by
      unfold WalletConnection
      rw [if_pos h]
      rfl
    refine ⟨a, rfl, hv, ?_, ?_⟩
    · rw [hv]
      simp [View.textContent, childrenText, Child.content]
    · rw [hv]
      rfl
  · intro h
    have hv : WalletConnection account onConnect
        = .button { className := "button", onClick := onConnect, disabled := false,
                    label := "Connect Wallet" } := by
      unfold WalletConnection
      rw [if_neg (by rw [h]; decide)]
    rw [hv]
    exact ⟨rfl, rfl, rfl, fun cls children e => by cases e⟩

/-- Claim C15, witness: a connected account shows the account line. -/
theorem walletConnection_two_views_witness :
    (WalletConnection (some "0x1234567890123456789012345678901234567890")
        "onConnect").textContent
      = "Connected: 0x1234567890123456789012345678901234567890" ∧
    (WalletConnection none "onConnect").textContent = "Connect Wallet" :=
  ⟨by
    obtain ⟨a, ha, -, ht, -⟩ := (walletConnection_two_views
      (some "0x1234567890123456789012345678901234567890") "onConnect").1 (by decide)
    cases ha
    exact ht,
   ((walletConnection_two_views none "onConnect").2 (by decide)).2.1⟩

/-- Claim C16.  With `account` not set the view is one enabled button whose click handler is
the prop `onConnect` itself; one click invokes `onConnect` once and nothing else, and `n`
clicks invoke it exactly `n` times. -/
theorem connect_button_invokes_onConnect {H : Type} (account : Option String) (onConnect : H)
    (h : accountSet account = false) :
    ∃ b, (WalletConnection account onConnect).buttons = [b] ∧
      b.onClick = onConnect ∧ b.disabled = false ∧
      b.click = [onConnect] ∧
      ∀ n, b.clicks n = List.replicate n onConnect ∧ (b.clicks n).length = n := by
  refine ⟨{ className := "button", onClick := onConnect, disabled := false,
            label := "Connect Wallet" }, ?_, rfl, rfl, rfl, ?_⟩
  · unfold WalletConnection
    rw [if_neg (by rw [h]; decide)]
    rfl
  · intro n
    have hn : Button.clicks
        { className := "button", onClick := onConnect, disabled := false,
          label := "Connect Wallet" } n = List.replicate n onConnect := by
      induction n with
      | zero => rfl
      | succ n ih =>
        rw [Button.clicks, ih, List.replicate_succ]
        rfl
    rw [hn]
    exact ⟨rfl, List.length_replicate _ _⟩

/-- Claim C16, witness: three clicks with no wallet connected. -/
theorem connect_button_invokes_onConnect_witness :
    accountSet none = false ∧
    ∃ b, (WalletConnection none "onConnect").buttons = [b] ∧
      b.clicks 3 = ["onConnect", "onConnect", "onConnect"] :=
  ⟨rfl, by
    obtain ⟨b, hb, -, -, -, hn⟩ := connect_button_invokes_onConnect none "onConnect" rfl
    exact ⟨b, hb, (hn 3).1⟩⟩

/-! ### `handleWithdraw`: the call of an ETH withdrawal -/

/-- Claim C17.  An ETH withdrawal that passes the four guards of `handleWithdraw` requests
exactly one call, whatever the pool answers: `pool.withdraw` with the nullifier hash, the
recipient and the root of the component state, in that order, and the zero address as fourth
argument.  In particular `pool.withdrawTokens` is not called. -/
theorem eth_withdrawal_single_call (p : Props) (s : WState) (w : World)
    (hsigner : p.signer.isSome = true) (haccount : accountSet p.account = true)
    (hhash : s.nullifierHash ≠ "") (hrecipient : s.recipient ≠ "")
    (hvalid : w.isAddress s.recipient = true) (hroot : s.root ≠ "")
    (htype : s.withdrawalType ≠ "TOKEN") :
    wCalls (handleWithdraw p s w)
      = [.withdraw s.nullifierHash s.recipient s.root
          "0x0000000000000000000000000000000000000000"] ∧
    (∀ h r t tok amt, Call.withdrawTokens h r t tok amt ∉ wCalls (handleWithdraw p s w)) ∧
    ((wCalls (handleWithdraw p s w)).filter Call.isPayout).length = 1 := by
  have g1 : ¬ (p.signer.isNone = true ∨ accountSet p.account = false) := by
    cases hp : p.signer with
    | none => rw [hp] at hsigner; cases hsigner
    | some sg => simp [haccount]
  have g3 : ¬ (s.recipient = "" ∨ w.isAddress s.recipient = false) := by
    simp [hrecipient, hvalid]
  have hcalls : wCalls (handleWithdraw p s w)
      = [.withdraw s.nullifierHash s.recipient s.root
          "0x0000000000000000000000000000000000000000"] := by
    unfold handleWithdraw
    rw [if_neg g1, if_neg hhash, if_neg g3, if_neg hroot]
    unfold withdrawBody
    simp only [if_neg htype]
    unfold ethWithdrawal
    cases h1 : w.withdraw s.nullifierHash s.recipient s.root ZeroAddress with
    | error e => simp [callThen, wCalls, ZeroAddress]
    | ok tx =>
      cases h2 : tx.wait with
      | error e => simp [callThen, andThen, wCalls, h2, ZeroAddress]
      | ok receipt =>
        cases h3 : findEvent "Withdrawal" receipt.logs <;>
          simp [callThen, andThen, wCalls, h2, h3, ZeroAddress]
  rw [hcalls]
  refine ⟨rfl, ?_, rfl⟩
  intro h r t tok amt hmem
  simp at hmem

/-- Claim C17, witness: the ETH form against a pool that answers every request. -/
theorem eth_withdrawal_single_call_witness :
    ethForm.withdrawalType ≠ "TOKEN" ∧
    wCalls (handleWithdraw demoProps ethForm demoWorld)
      = [.withdraw (toyHash (word '1') "") "0x3333333333333333333333333333333333333333"
          (word 'c') "0x0000000000000000000000000000000000000000"] :=
  ⟨by decide,
   (eth_withdrawal_single_call demoProps ethForm demoWorld (by decide) (by decide)
      (by decide) (by decide) (by decide) (by decide) (by decide)).1⟩

/-! ### `handleDeposit`: the balance check of a token deposit -/

/-- The token branch of `handleDeposit` once the amount parsed and the balance was read. -/
theorem tokenDeposit_balance (p : Props) (s : DState) (w : World) (tok : Token)
    (amount : Int) (balance : Nat)
    (htok : s.selectedToken = some tok)
    (hparse : parseUnits s.tokenAmount tok.decimals = .ok amount)
    (hbal : w.balanceOf tok.address (p.account.getD "") = .ok balance) :
    ((balance : Int) < amount →
      tokenDeposit p s w
        = ([.call (.balanceOf tok.address (p.account.getD "")) true,
            .setStatus (errorStatus "Insufficient token balance"), .setLoading false],
           .returned)) ∧
    (¬ (balance : Int) < amount →
      dCalls (tokenDeposit p s w).1
          = [.balanceOf tok.address (p.account.getD ""),
             .transfer tok.address p.poolAddress amount] ∨
      dCalls (tokenDeposit p s w).1
          = [.balanceOf tok.address (p.account.getD ""),
             .transfer tok.address p.poolAddress amount, .insertLeaf s.commitment]) := by
  constructor
  · intro hlt
    unfold tokenDeposit
    simp only [htok, hparse, hbal, callThen, andThen, if_pos hlt, List.singleton_append]
  · intro hge
    unfold tokenDeposit
    simp only [htok, hparse, hbal, callThen, andThen, if_neg hge]
    cases h1 : w.transfer tok.address p.poolAddress amount with
    | error e => left; simp [dCalls]
    | ok transferTx =>
      cases h2 : transferTx.wait with
      | error e => left; simp [dCalls, h2]
      | ok r =>
        right
        cases h3 : w.insertLeaf s.commitment with
        | error e => simp [dCalls, h2, h3]
        | ok insertTx =>
          cases h4 : insertTx.wait <;> simp [dCalls, h2, h3, h4]

/-- Claim C18.  In a token deposit that passes the guards of `handleDeposit`, with the amount
`parseUnits(tokenAmount, selectedToken.decimals)` and the balance `token.balanceOf(account)`:
if the balance is strictly less than the amount, the only call is the balance query, so
neither `token.transfer` nor `pool.insertLeaf` is requested, the status ends as the error
`Insufficient token balance` and loading ends false; otherwise the call after the balance
query is `token.transfer(poolAddress, amount)` with exactly that amount, and it is the only
transfer. -/
theorem token_deposit_balance_check (p : Props) (s : DState) (w : World) (tok : Token)
    (amount : Int) (balance : Nat)
    (hsigner : p.signer.isSome = true) (haccount : accountSet p.account = true)
    (hsecret : s.secret ≠ "") (hnullifier : s.nullifier ≠ "") (hcommitment : s.commitment ≠ "")
    (htype : s.depositType = "TOKEN") (htok : s.selectedToken = some tok)
    (hamount : s.tokenAmount ≠ "")
    (hparse : parseUnits s.tokenAmount tok.decimals = .ok amount)
    (hbal : w.balanceOf tok.address (p.account.getD "") = .ok balance) :
    ((balance : Int) < amount →
      dCalls (handleDeposit p s w) = [.balanceOf tok.address (p.account.getD "")] ∧
      (s.applyAll (handleDeposit p s w)).status
        = errorStatus "Insufficient token balance" ∧
      (s.applyAll (handleDeposit p s w)).loading = false) ∧
    (¬ (balance : Int) < amount →
      dCalls (handleDeposit p s w)
          = [.balanceOf tok.address (p.account.getD ""),
             .transfer tok.address p.poolAddress amount] ∨
      dCalls (handleDeposit p s w)
          = [.balanceOf tok.address (p.account.getD ""),
             .transfer tok.address p.poolAddress amount, .insertLeaf s.commitment]) := by
  have hbody := handleDeposit_body p s w hsigner haccount hsecret hnullifier hcommitment
    (fun _ => ⟨(by rw [htok]; exact fun e => by cases e), hamount⟩)
  have hne : ¬ s.depositType = "ETH" := by rw [htype]; decide
  obtain ⟨hlow, hhigh⟩ := tokenDeposit_balance p s w tok amount balance htok hparse hbal
  constructor
  · intro hlt
    have hrun : handleDeposit p s w
        = [.setLoading true, .setStatus none,
           .call (.balanceOf tok.address (p.account.getD "")) true,
           .setStatus (errorStatus "Insufficient token balance"), .setLoading false,
           .setLoading false] := by
      rw [hbody]
      unfold depositBody
      simp only [if_neg hne, hlow hlt]
      rfl
    rw [hrun]
    exact ⟨rfl, rfl, rfl⟩
  · intro hge
    have hcalls : dCalls (handleDeposit p s w) = dCalls (tokenDeposit p s w).1 := by
      rw [hbody]
      unfold depositBody
      simp only [if_neg hne]
      cases (tokenDeposit p s w).2 <;> simp [dCalls_append, dCalls]
    rw [hcalls]
    exact hhigh hge

/-- Claim C18, witness: a balance of 100 units against a deposit of 400 units. -/
theorem token_deposit_balance_check_witness :
    ((100 : Nat) : Int) < 400 ∧
    dCalls (handleDeposit demoProps { tokenDepositForm with tokenAmount := "400" } demoWorld)
      = [.balanceOf demoToken.address "0x1111111111111111111111111111111111111111"] :=
  ⟨by decide,
   ((token_deposit_balance_check demoProps { tokenDepositForm with tokenAmount := "400" }
      demoWorld demoToken 400 100 (by decide) (by decide) (by decide) (by decide) (by decide)
      rfl rfl (by decide) (by decide) rfl).1 (by decide)).1⟩

/-! ### `getEthereumProvider`: which injected provider is selected -/

/-- What `find` returns: the first element satisfying the test, with its position, and null
exactly when no element satisfies it. -/
theorem findFrom_spec (f : InjectedProvider → Bool) :
    ∀ (ps : List InjectedProvider) (k : Nat),
      (∀ sel, findFrom f ps k = some sel →
        ∃ i q, sel = .element (k + i) q ∧ ps[i]? = some q ∧ f q = true ∧
          ∀ j r, j < i → ps[j]? = some r → f r = false) ∧
      (findFrom f ps k = none ↔ ∀ q ∈ ps, f q = false) := by
  intro ps
  induction ps with
  | nil =>
    intro k
    exact ⟨fun sel h => (by cases h), by simp [findFrom]⟩
  | cons a ps ih =>
    intro k
    by_cases ha : f a = true
    · have hf : findFrom f (a :: ps) k = some (.element k a) := by
        simp only [findFrom, ha, if_true]
      rw [hf]
      constructor
      · intro sel h
        cases h
        exact ⟨0, a, rfl, List.getElem?_cons_zero, ha,
          fun j r hj _ => absurd hj (Nat.not_lt_zero j)⟩
      · constructor
        · intro h; cases h
        · intro h
          have := h a (List.mem_cons_self _ _)
          rw [ha] at this
          cases this
    · have hfa : f a = false := by simpa using ha
      have hf : findFrom f (a :: ps) k = findFrom f ps (k + 1) := by
        simp only [findFrom, hfa, Bool.false_eq_true, if_false]
      rw [hf]
      obtain ⟨ih1, ih2⟩ := ih (k + 1)
      constructor
      · intro sel h
        obtain ⟨i, q, h1, h2, h3, h4⟩ := ih1 sel h
        refine ⟨i + 1, q, by rw [h1]; congr 1; omega, by simpa using h2, h3, ?_⟩
        intro j r hj hr
        cases j with
        | zero =>
          simp only [List.getElem?_cons_zero, Option.some.injEq] at hr
          rw [← hr]
          exact hfa
        | succ j =>
          simp only [List.getElem?_cons_succ] at hr
          exact h4 j r (by omega) hr
      · rw [ih2]
        constructor
        · intro h q hq
          rcases List.mem_cons.mp hq with e | e
          · rw [e]; exact hfa
          · exact h q e
        · intro h q hq
          exact h q (List.mem_cons_of_mem _ hq)

/-- A falsy value is not the boolean true. -/
theorem isTrue_of_falsy (v : JsValue) (h : v.truthy = false) : v.isTrue = false := by
  cases v with
  | boolean b =>
    cases b
    · rfl
    · cases h
  | _ => rfl

/-- Every provider `getEthereumProvider` returns has `isMetaMask` strictly true and an
`isCoinbaseWallet` that is not the boolean true; one taken from the `providers` array has
`isCoinbaseWallet` falsy. -/
theorem getEthereumProvider_selected (win : Option Ethereum) (sel : Selected)
    (h : getEthereumProvider win = some sel) :
    sel.isMetaMask.isTrue = true ∧ sel.isCoinbaseWallet.isTrue = false ∧
    ((∃ e, sel = .window e ∧ win = some e) ∨ sel.metaMaskOnly = true) := by
  unfold getEthereumProvider at h
  cases win with
  | none => cases h
  | some e =>
    simp only at h
    cases hp : e.providers with
    | array ps =>
      rw [hp] at h
      simp only at h
      obtain ⟨i, q, h1, -, h3, -⟩ := (findFrom_spec _ ps 0).1 sel h
      subst h1
      simp only [Bool.and_eq_true, Bool.not_eq_true'] at h3
      refine ⟨h3.1, isTrue_of_falsy _ h3.2, Or.inr ?_⟩
      · simp [Selected.metaMaskOnly, Selected.isMetaMask, Selected.isCoinbaseWallet, h3.1,
          h3.2]
    | absent =>
      rw [hp] at h
      simp only at h
      split_ifs at h with c1 c2 c3
      · cases h
        simp only [Bool.and_eq_true, Bool.not_eq_true'] at c1
        exact ⟨c1.1.1, c1.2, Or.inl ⟨e, rfl, rfl⟩⟩
      · cases h
        exact ⟨c3, by simpa using c2, Or.inl ⟨e, rfl, rfl⟩⟩
    | notArray =>
      rw [hp] at h
      simp only at h
      split_ifs at h with c1 c2 c3
      · cases h
        simp only [Bool.and_eq_true, Bool.not_eq_true'] at c1
        exact ⟨c1.1.1, c1.2, Or.inl ⟨e, rfl, rfl⟩⟩
      · cases h
        exact ⟨c3, by simpa using c2, Or.inl ⟨e, rfl, rfl⟩⟩

/-- Claim C19.  For a `window.ethereum` without a `providers` array whose `isMetaMask` is
true and whose `isCoinbaseWallet` is the truthy number 1, `getEthereumProvider` returns
`window.ethereum` itself: strategy 2 rejects it, strategy 3 compares with the boolean true
and lets it pass, strategy 4 returns it.  The provider returned has a truthy
`isCoinbaseWallet`.  An element of a `providers` array with the same two flags is refused. -/
theorem coinbase_flag_passes_selection :
    getEthereumProvider (some mixedWallet) = some (.window mixedWallet) ∧
    (Selected.window mixedWallet).isMetaMask.isTrue = true ∧
    (Selected.window mixedWallet).isCoinbaseWallet.truthy = true ∧
    (Selected.window mixedWallet).metaMaskOnly = false ∧
    getEthereumProvider (some
      { mixedWallet with
        providers := .array [{ isMetaMask := .boolean true, isCoinbaseWallet := .number 1 }] })
      = none := by
  decide

/-- Claim C20.  When `window.ethereum.providers` is an array, `getEthereumProvider` returns
the first element whose `isMetaMask` is strictly true and whose `isCoinbaseWallet` is falsy;
it returns null exactly when no element is such, in particular for the empty array; and it
never returns `window.ethereum`, whatever the flags of `window.ethereum` are. -/
theorem providers_array_first_match (e : Ethereum) (ps : List InjectedProvider)
    (harray : e.providers = .array ps) :
    (∀ sel, getEthereumProvider (some e) = some sel →
      ∃ i q, sel = .element i q ∧ ps[i]? = some q ∧
        q.isMetaMask.isTrue = true ∧ q.isCoinbaseWallet.truthy = false ∧
        ∀ j r, j < i → ps[j]? = some r →
          ¬ (r.isMetaMask.isTrue = true ∧ r.isCoinbaseWallet.truthy = false)) ∧
    (getEthereumProvider (some e) = none ↔
      ∀ q ∈ ps, ¬ (q.isMetaMask.isTrue = true ∧ q.isCoinbaseWallet.truthy = false)) ∧
    (ps = [] → getEthereumProvider (some e) = none) ∧
    (∀ e2, getEthereumProvider (some e) ≠ some (.window e2)) := by
  have hrun : getEthereumProvider (some e)
      = findFrom (fun p => p.isMetaMask.isTrue && !p.isCoinbaseWallet.truthy) ps 0 := by
    unfold getEthereumProvider
    simp only [harray]
  obtain ⟨h1, h2⟩ :=
    findFrom_spec (fun p => p.isMetaMask.isTrue && !p.isCoinbaseWallet.truthy) ps 0
  have hfirst : ∀ sel, getEthereumProvider (some e) = some sel →
      ∃ i q, sel = .element i q ∧ ps[i]? = some q ∧
        q.isMetaMask.isTrue = true ∧ q.isCoinbaseWallet.truthy = false ∧
        ∀ j r, j < i → ps[j]? = some r →
          ¬ (r.isMetaMask.isTrue = true ∧ r.isCoinbaseWallet.truthy = false) := by
    intro sel hsel
    rw [hrun] at hsel
    obtain ⟨i, q, a1, a2, a3, a4⟩ := h1 sel hsel
    simp only [Bool.and_eq_true, Bool.not_eq_true'] at a3
    refine ⟨i, q, by rw [a1, Nat.zero_add], a2, a3.1, a3.2, ?_⟩
    intro j r hj hr hc
    have := a4 j r hj hr
    simp [hc.1, hc.2] at this
  refine ⟨hfirst, ?_, ?_, ?_⟩
  · rw [hrun, h2]
    constructor
    · intro h q hq hc
      have := h q hq
      simp [hc.1, hc.2] at this
    · intro h q hq
      have := h q hq
      cases hm : q.isMetaMask.isTrue
      · rfl
      · cases ht : q.isCoinbaseWallet.truthy
        · exact absurd ⟨hm, ht⟩ this
        · rfl
  · intro hnil
    rw [hrun, hnil]
    rfl
  · intro e2 hsel
    obtain ⟨i, q, a1, -⟩ := hfirst _ hsel
    cases a1

/-- Claim C20, witness: an array holding Coinbase Wallet first and MetaMask second, on a
`window.ethereum` that itself claims to be MetaMask. -/
theorem providers_array_first_match_witness :
    getEthereumProvider (some
      { isMetaMask := .boolean true, isCoinbaseWallet := .undefined,
        providers := .array [{ isMetaMask := .boolean true, isCoinbaseWallet := .boolean true },
                             { isMetaMask := .boolean true, isCoinbaseWallet := .undefined }] })
      ≠ some (.window
      { isMetaMask := .boolean true, isCoinbaseWallet := .undefined,
        providers := .array [{ isMetaMask := .boolean true, isCoinbaseWallet := .boolean true },
                             { isMetaMask := .boolean true, isCoinbaseWallet := .undefined }] }) :=
  (providers_array_first_match _ _ rfl).2.2.2 _

/-! ### The read-only provider selection against `getEthereumProvider` -/

theorem findFrom_congr (f g : InjectedProvider → Bool) :
    ∀ (ps : List InjectedProvider) (k : Nat), (∀ q ∈ ps, f q = g q) →
      findFrom f ps k = findFrom g ps k := by
  intro ps
  induction ps with
  | nil => intro k _; rfl
  | cons a ps ih =>
    intro k h
    simp only [findFrom, h a (List.mem_cons_self _ _),
      ih (k + 1) (fun q hq => h q (List.mem_cons_of_mem _ hq))]

/-- Where no flag `isCoinbaseWallet` is truthy and every truthy `isMetaMask` is the boolean
true, the read-only selection of the components and `getEthereumProvider` agree. -/
theorem readOnlyProvider_agrees (e : Ethereum)
    (hcoinbase : e.isCoinbaseWallet.truthy = false)
    (hmeta : e.isMetaMask.truthy = e.isMetaMask.isTrue)
    (hps : ∀ ps, e.providers = .array ps → ∀ q ∈ ps,
      q.isCoinbaseWallet.truthy = false ∧ q.isMetaMask.truthy = q.isMetaMask.isTrue) :
    readOnlyProvider (some e) = getEthereumProvider (some e) := by
  unfold readOnlyProvider getEthereumProvider
  cases hp : e.providers with
  | array ps =>
    simp only [hp]
    apply findFrom_congr
    intro q hq
    obtain ⟨h1, h2⟩ := hps ps hp q hq
    simp [h1, h2]
  | absent =>
    simp only [hp, hcoinbase, hmeta, isTrue_of_falsy _ hcoinbase]
    cases e.isMetaMask.isTrue <;> simp
  | notArray =>
    simp only [hp, hcoinbase, hmeta, isTrue_of_falsy _ hcoinbase]
    cases e.isMetaMask.isTrue <;> simp

/-- Claim C21.  For a `window.ethereum` with `isMetaMask` and `isCoinbaseWallet` both true
and no `providers` array, the read-only selection of the four components' copies is
`window.ethereum` while `getEthereumProvider` returns null; and for a `providers` array
holding such a provider before MetaMask, the copies select element 0 and
`getEthereumProvider` selects element 1. -/
theorem read_only_selection_differs :
    readOnlyProvider (some coinbaseWallet) = some (.window coinbaseWallet) ∧
    getEthereumProvider (some coinbaseWallet) = none ∧
    readOnlyProvider (some twoWallets)
      = some (.element 0 { isMetaMask := .boolean true, isCoinbaseWallet := .boolean true }) ∧
    getEthereumProvider (some twoWallets)
      = some (.element 1 { isMetaMask := .boolean true, isCoinbaseWallet := .undefined }) ∧
    hasContractProvider { demoProps with signer := none }
      { demoWorld with ethereum := some coinbaseWallet } = true := by
  decide

/-! ### `connectWallet`: the Sepolia chain id and the reload -/

theorem aRequests_append : ∀ a b : List AEffect,
    aRequests (a ++ b) = aRequests a ++ aRequests b := by
  intro a b
  induction a with
  | nil => rfl
  | cons x a ih => cases x <;> simp [aRequests, ih]

theorem truthy_of_isTrue (v : JsValue) (h : v.isTrue = true) : v.truthy = true := by
  cases v with
  | boolean b =>
    cases b
    · cases h
    · rfl
  | _ => cases h

/-- The four shapes of the switch to Sepolia: accepted; refused with a code other than 4902;
refused with 4902 and the chain added; refused with 4902 and the addition refused too. -/
theorem switchToSepolia_cases (w : WalletWorld) :
    (∃ u, w.switchChain "0xaa36a7" = .ok u ∧
      switchToSepolia w = [.request (.wallet_switchEthereumChain "0xaa36a7") true]) ∨
    (∃ e, w.switchChain "0xaa36a7" = .error e ∧ e.code ≠ .number 4902 ∧
      switchToSepolia w = [.request (.wallet_switchEthereumChain "0xaa36a7") false]) ∨
    (∃ e, w.switchChain "0xaa36a7" = .error e ∧ e.code = .number 4902 ∧
      (switchToSepolia w = [.request (.wallet_switchEthereumChain "0xaa36a7") false,
          .request (.wallet_addEthereumChain addSepoliaParams) true] ∨
       switchToSepolia w = [.request (.wallet_switchEthereumChain "0xaa36a7") false,
          .request (.wallet_addEthereumChain addSepoliaParams) false,
          .consoleError "Error adding Sepolia network:"])) := by
  unfold switchToSepolia
  cases hs : w.switchChain "0xaa36a7" with
  | ok u => exact Or.inl ⟨u, rfl, rfl⟩
  | error e =>
    by_cases hc : e.code = .number 4902
    · refine Or.inr (Or.inr ⟨e, rfl, hc, ?_⟩)
      simp only [hc, if_true]
      cases w.addChain addSepoliaParams with
      | ok u => exact Or.inl rfl
      | error e2 => exact Or.inr rfl
    · refine Or.inr (Or.inl ⟨e, rfl, hc, ?_⟩)
      simp only [hc, if_false]

theorem switchToSepolia_requests (w : WalletWorld) (r : WalletRequest)
    (h : r ∈ aRequests (switchToSepolia w)) :
    r = .wallet_switchEthereumChain "0xaa36a7" ∨
    r = .wallet_addEthereumChain addSepoliaParams := by
  rcases switchToSepolia_cases w with ⟨u, -, hrun⟩ | ⟨e, -, -, hrun⟩ | ⟨e, -, -, hrun | hrun⟩ <;>
    · rw [hrun] at h
      simp [aRequests] at h
      simp [h]

theorem connectBody_requests (ethereum : Selected) (w : WalletWorld) (r : WalletRequest)
    (h : r ∈ aRequests (connectBody ethereum w).1) :
    r = .eth_requestAccounts ∨ r = .wallet_switchEthereumChain "0xaa36a7" ∨
    r = .wallet_addEthereumChain addSepoliaParams := by
  unfold connectBody at h
  cases ha : w.eth_requestAccounts with
  | error e => rw [ha] at h; simp [aRequests] at h; exact Or.inl h
  | ok accounts =>
    rw [ha] at h
    simp only at h
    split_ifs at h with h0
    · simp [aRequests] at h; exact Or.inl h
    · cases hn : w.getNetwork with
      | error e => rw [hn] at h; simp [aRequests] at h; exact Or.inl h
      | ok chainId =>
        rw [hn] at h
        simp only at h
        split_ifs at h with h1
        · simp only [aRequests_append, List.mem_append] at h
          rcases h with (h | h) | h
          · simp [aRequests] at h; exact Or.inl h
          · exact Or.inr (switchToSepolia_requests w r h)
          · simp [aRequests] at h
        · cases hg : w.getSigner with
          | error e => rw [hg] at h; simp [aRequests] at h; exact Or.inl h
          | ok signer => rw [hg] at h; simp [aRequests] at h; exact Or.inl h

theorem connectWallet_requests (w : WalletWorld) (r : WalletRequest)
    (h : r ∈ aRequests (connectWallet w)) :
    r = .eth_requestAccounts ∨ r = .wallet_switchEthereumChain "0xaa36a7" ∨
    r = .wallet_addEthereumChain addSepoliaParams := by
  unfold connectWallet at h
  cases hsel : getEthereumProvider w.ethereum with
  | none =>
    rw [hsel] at h
    simp only at h
    split_ifs at h <;> simp [aRequests] at h
  | some ethereum =>
    rw [hsel] at h
    simp only at h
    split_ifs at h
    · simp [aRequests] at h
    · rw [aRequests_append, List.mem_append] at h
      rcases h with h | h
      · exact connectBody_requests ethereum w r h
      · cases hb : (connectBody ethereum w).2 <;> rw [hb] at h <;> simp [aRequests] at h

/-- On chain 11155111 `connectWallet` requests nothing but the accounts and does not
reload. -/
theorem connectWallet_on_sepolia (w : WalletWorld) (hnet : w.getNetwork = .ok 11155111) :
    (∀ r ∈ aRequests (connectWallet w), r = .eth_requestAccounts) ∧
    AEffect.reload ∉ connectWallet w := by
  unfold connectWallet
  cases hsel : getEthereumProvider w.ethereum with
  | none => simp only; split_ifs <;> simp [aRequests]
  | some ethereum =>
    simp only
    split_ifs
    · simp [aRequests]
    · unfold connectBody
      rw [hnet]
      cases ha : w.eth_requestAccounts with
      | error e => simp [aRequests]
      | ok accounts =>
        simp only
        split_ifs with h0 h1
        · simp [aRequests]
        · exact absurd rfl h1
        · cases hg : w.getSigner <;> simp [aRequests, hg]

/-- On chain 11155111 `checkWalletConnection` warns about nothing. -/
theorem checkWalletConnection_on_sepolia (w : WalletWorld)
    (hnet : w.getNetwork = .ok 11155111) (m : String) :
    AEffect.consoleWarn m ∉ checkWalletConnection w := by
  unfold checkWalletConnection
  rw [hnet]
  cases hsel : getEthereumProvider w.ethereum with
  | none => simp
  | some ethereum =>
    cases ha : w.eth_accounts with
    | error e => simp
    | ok accounts =>
      simp only
      split_ifs with h0 h1
      · exact absurd rfl h1
      · cases hg : w.getSigner <;> simp [hg]
      · simp

/-- Claim C22.  Every chain id `connectWallet` sends, in `wallet_switchEthereumChain` or in
`wallet_addEthereumChain`, is the string `0xaa36a7`, which denotes 11155111; and a wallet
whose chain is the one that string denotes passes both checks: `connectWallet` requests no
chain switch and does not reload, `checkWalletConnection` gives no warning. -/
theorem sepolia_chain_id_consistent :
    (∀ (w : WalletWorld) (r : WalletRequest) (c : String),
      r ∈ aRequests (connectWallet w) → r.chainId = some c →
        c = "0xaa36a7" ∧ hexQuantity c = some 11155111) ∧
    (∀ (w : WalletWorld) (n : Nat), hexQuantity "0xaa36a7" = some n → w.getNetwork = .ok n →
      (∀ r ∈ aRequests (connectWallet w), r.chainId = none) ∧
      AEffect.reload ∉ connectWallet w ∧
      (∀ m, AEffect.consoleWarn m ∉ checkWalletConnection w)) := by
  have hv : hexQuantity "0xaa36a7" = some 11155111 := by decide
  constructor
  · intro w r c hr hc
    rcases connectWallet_requests w r hr with h | h | h
    · rw [h] at hc; cases hc
    · rw [h] at hc
      cases hc
      exact ⟨rfl, hv⟩
    · rw [h] at hc
      cases hc
      exact ⟨rfl, hv⟩
  · intro w n hn hnet
    rw [hv] at hn
    cases hn
    obtain ⟨h1, h2⟩ := connectWallet_on_sepolia w hnet
    refine ⟨?_, h2, checkWalletConnection_on_sepolia w hnet⟩
    intro r hr
    rw [h1 r hr]
    rfl

/-- Claim C22, witness: the switch request of a wallet on chain 1. -/
theorem sepolia_chain_id_consistent_witness :
    WalletRequest.wallet_switchEthereumChain "0xaa36a7" ∈ aRequests (connectWallet mainnetWallet) ∧
    hexQuantity "0xaa36a7" = some 11155111 ∧
    AEffect.reload ∉ connectWallet sepoliaWallet :=
  ⟨by decide,
   (sepolia_chain_id_consistent.1 mainnetWallet (.wallet_switchEthereumChain "0xaa36a7")
      "0xaa36a7" (by decide) rfl).2,
   (sepolia_chain_id_consistent.2 sepoliaWallet 11155111 (by decide) rfl).2.1⟩

/-- The outer `try` block on a wrong chain: accounts, network, the switch, the reload. -/
theorem connectBody_wrong_chain (w : WalletWorld) (ethereum : Selected)
    (accounts : List String) (chainId : Nat)
    (haccounts : w.eth_requestAccounts = .ok accounts) (hsome : accounts ≠ [])
    (hnet : w.getNetwork = .ok chainId) (hchain : chainId ≠ 11155111) :
    connectBody ethereum w
      = ([.request .eth_requestAccounts true, .getNetwork true] ++ switchToSepolia w ++
          [.reload], none) := by
  have hlen : ¬ accounts.length = 0 := by
    intro h
    exact hsome (List.length_eq_zero.mp h)
  unfold connectBody
  rw [haccounts, hnet]
  simp only [if_neg hlen, if_pos hchain]

/-- Claim C23, as amended.  In a run of `connectWallet` that has a provider, obtains a
non-empty account list and reads a chain id other than 11155111, whatever the outcome of the
switch request, the effects are the account request, the network query, the switch to
Sepolia and, last, exactly one page reload; no state cell is written, so account, provider
and signer stay as they were; and `wallet_addEthereumChain` is requested exactly when the
switch request failed with code 4902. -/
theorem wrong_chain_reloads (w : WalletWorld) (ethereum : Selected)
    (accounts : List String) (chainId : Nat)
    (hsel : getEthereumProvider w.ethereum = some ethereum)
    (haccounts : w.eth_requestAccounts = .ok accounts) (hsome : accounts ≠ [])
    (hnet : w.getNetwork = .ok chainId) (hchain : chainId ≠ 11155111) :
    connectWallet w
      = [.request .eth_requestAccounts true, .getNetwork true] ++ switchToSepolia w ++
          [.reload] ∧
    AEffect.reload ∉ switchToSepolia w ∧
    (∀ s : AppState, s.applyAll (connectWallet w) = s) ∧
    ((∃ params ok, AEffect.request (.wallet_addEthereumChain params) ok ∈ connectWallet w) ↔
      ∃ e, w.switchChain "0xaa36a7" = .error e ∧ e.code = .number 4902) := by
  have hmeta : ¬ ethereum.isMetaMask.truthy = false := by
    rw [truthy_of_isTrue _ (getEthereumProvider_selected _ _ hsel).1]
    decide
  have hrun : connectWallet w
      = [.request .eth_requestAccounts true, .getNetwork true] ++ switchToSepolia w ++
          [.reload] := by
    unfold connectWallet
    rw [hsel]
    simp only [if_neg hmeta,
      connectBody_wrong_chain w ethereum accounts chainId haccounts hsome hnet hchain,
      List.append_nil]
  refine ⟨hrun, ?_, ?_, ?_⟩
  · rcases switchToSepolia_cases w with ⟨u, -, h⟩ | ⟨e, -, -, h⟩ | ⟨e, -, -, h | h⟩ <;>
      · rw [h]; simp
  · intro s
    rw [hrun]
    rcases switchToSepolia_cases w with ⟨u, -, h⟩ | ⟨e, -, -, h⟩ | ⟨e, -, -, h | h⟩ <;>
      · rw [h]; rfl
  · rw [hrun]
    rcases switchToSepolia_cases w with ⟨u, hs, h⟩ | ⟨e, hs, hc, h⟩ | ⟨e, hs, hc, h | h⟩
    · rw [h, hs]; simp
    · rw [h, hs]
      simp only [List.cons_append, List.nil_append, List.mem_cons, AEffect.request.injEq,
        List.mem_singleton, Except.error.injEq]
      constructor
      · rintro ⟨params, ok, h1⟩
        simp at h1
      · rintro ⟨e2, h1, h2⟩
        rw [← h1] at h2
        exact absurd h2 hc
    · rw [h, hs]
      exact ⟨fun _ => ⟨e, rfl, hc⟩, fun _ => ⟨addSepoliaParams, true, by simp⟩⟩
    · rw [h, hs]
      exact ⟨fun _ => ⟨e, rfl, hc⟩, fun _ => ⟨addSepoliaParams, false, by simp⟩⟩

/-- Claim C23, witness: a wallet on chain 1 that does not know Sepolia. -/
theorem wrong_chain_reloads_witness :
    mainnetWallet.getNetwork = .ok 1 ∧
    connectWallet mainnetWallet
      = [.request .eth_requestAccounts true, .getNetwork true] ++
          switchToSepolia mainnetWallet ++ [.reload] :=
  ⟨rfl, (wrong_chain_reloads mainnetWallet (.window metaMask)
    ["0x1111111111111111111111111111111111111111"] 1 (by decide) rfl (by decide) rfl
    (by decide)).1⟩

/-- Claim C23, counterexample.  With the wallet on chain 1, a run of `connectWallet` whose
connection request the user rejects (error 4001) alerts and returns without reloading, and
so does a run that gets an empty account list. -/
theorem wrong_chain_without_reload :
    rejectingWallet.getNetwork = .ok 1 ∧
    connectWallet rejectingWallet
      = [.request .eth_requestAccounts false, .consoleError "Error connecting wallet:",
         .alert "Please approve the connection request in MetaMask."] ∧
    AEffect.reload ∉ connectWallet rejectingWallet ∧
    connectWallet { mainnetWallet with eth_requestAccounts := .ok [] }
      = [.request .eth_requestAccounts true,
         .alert "Please unlock your MetaMask wallet and try again."] := by
  decide

/-! ### `handleDeploy`: the mint and the callback `onTokenCreated` -/

theorem parseUnits_ten_thousand (d : Nat) (hd : d ≤ 18) :
    parseUnits "10000" d = .ok (10000 * 10 ^ d) := by
  interval_cases d <;> decide

theorem createdTokens_append : ∀ a b : List CEffect,
    createdTokens (a ++ b) = createdTokens a ++ createdTokens b := by
  intro a b
  induction a with
  | nil => rfl
  | cons x a ih => cases x <;> simp [createdTokens, ih]

/-- The guards of `handleDeploy` passed: what remains is the `try` block, the `catch` and
the `finally`. -/
theorem handleDeploy_body (p : CProps) (s : CState) (f : FactoryWorld) (n : Int)
    (hsigner : p.signer.isSome = true) (haccount : accountSet p.account = true)
    (hname : s.name ≠ "") (hsymbol : s.symbol ≠ "") (hdecimals : s.decimals ≠ "")
    (hparse : parseInt s.decimals = some n) (hlo : 0 ≤ n) (hhi : n ≤ 18) :
    handleDeploy p s f
      = [.setLoading true, .setStatus none] ++
          (match (deployBody p s f n).2 with
           | .threw e =>
             (deployBody p s f n).1 ++ [.setStatus (errorStatus
               (orElse e.reason (orElse e.message "Failed to deploy ZToken")))]
           | _ => (deployBody p s f n).1) ++ [.setLoading false] := by
  have h1 : ¬ (p.signer.isNone ∨ accountSet p.account = false) := by
    cases hs : p.signer with
    | none => rw [hs] at hsigner; cases hsigner
    | some sg => simp [haccount]
  have h2 : ¬ (s.name = "" ∨ s.symbol = "" ∨ s.decimals = "") := by
    rintro (h | h | h)
    · exact hname h
    · exact hsymbol h
    · exact hdecimals h
  have h3 : ¬ (n < 0 ∨ n > 18) := by omega
  unfold handleDeploy
  rw [if_neg h1, if_neg h2, hparse]
  simp only [if_neg h3]

/-- Once the deployed token has reported its decimals and the amount is parsed, the `try`
block requests exactly one mint, for the account and that amount, whatever the answer. -/
theorem deployBody_mint (p : CProps) (s : CState) (f : FactoryWorld) (n : Int)
    (token : DeployedToken) (u : Unit) (address tokenName tokenSymbol : String) (d : Nat)
    (mintAmount : Int)
    (hdeploy : f.deploy s.name s.symbol n = .ok token)
    (hwait : token.waitForDeployment = .ok u) (haddress : token.getAddress = .ok address)
    (hn : token.name = .ok tokenName) (hs : token.symbol = .ok tokenSymbol)
    (hd : token.decimals = .ok d) (hamount : parseUnits "10000" d = .ok mintAmount) :
    (cCalls (deployBody p s f n).1).filter TokenCall.isMint
      = [.mint (p.account.getD "") mintAmount] := by
  unfold deployBody
  cases h7 : token.mint (p.account.getD "") mintAmount with
  | error e =>
    simp [callThen, andThen, cCalls, TokenCall.isMint, hdeploy, hwait, haddress, hn, hs, hd,
      hamount, h7]
  | ok mintTx =>
    cases h8 : mintTx.wait with
    | error e =>
      simp [callThen, andThen, cCalls, TokenCall.isMint, hdeploy, hwait, haddress, hn, hs, hd,
        hamount, h7, h8]
    | ok r =>
      cases h9 : p.hasOnTokenCreated <;>
        simp [callThen, andThen, cCalls, TokenCall.isMint, hdeploy, hwait, haddress, hn, hs,
          hd, hamount, h7, h8, h9]

/-- Claim C24.  In a run of `handleDeploy` that passes the guards and in which the deployed
token reports `d` decimals, `d` from 0 to 18, exactly one mint is requested:
`token.mint(account, 10000 * 10^d)`, that is 10,000 whole tokens in the unit of the decimals
the deployed token reports, whatever the decimals typed into the form. -/
theorem mint_ten_thousand_tokens (p : CProps) (s : CState) (f : FactoryWorld) (n : Int)
    (token : DeployedToken) (u : Unit) (address tokenName tokenSymbol : String) (d : Nat)
    (hsigner : p.signer.isSome = true) (haccount : accountSet p.account = true)
    (hname : s.name ≠ "") (hsymbol : s.symbol ≠ "") (hdecimals : s.decimals ≠ "")
    (hparse : parseInt s.decimals = some n) (hlo : 0 ≤ n) (hhi : n ≤ 18)
    (hdeploy : f.deploy s.name s.symbol n = .ok token)
    (hwait : token.waitForDeployment = .ok u) (haddress : token.getAddress = .ok address)
    (hn : token.name = .ok tokenName) (hs : token.symbol = .ok tokenSymbol)
    (hd : token.decimals = .ok d) (hrange : d ≤ 18) :
    (cCalls (handleDeploy p s f)).filter TokenCall.isMint
      = [.mint (p.account.getD "") (10000 * 10 ^ d)] ∧
    ∃ account, p.account = some account ∧ account ≠ "" ∧
      TokenCall.mint account (10000 * 10 ^ d) ∈ cCalls (handleDeploy p s f) := by
  have hmint := deployBody_mint p s f n token u address tokenName tokenSymbol d
    (10000 * 10 ^ d) hdeploy hwait haddress hn hs hd (parseUnits_ten_thousand d hrange)
  have hcalls : (cCalls (handleDeploy p s f)).filter TokenCall.isMint
      = [.mint (p.account.getD "") (10000 * 10 ^ d)] := by
    rw [handleDeploy_body p s f n hsigner haccount hname hsymbol hdecimals hparse hlo hhi]
    cases (deployBody p s f n).2 <;>
      simp [cCalls_append, cCalls, List.filter_append, hmint]
  refine ⟨hcalls, ?_⟩
  obtain ⟨a, ha, hne⟩ := accountSet_some p.account haccount
  refine ⟨a, ha, hne, ?_⟩
  have hmem : TokenCall.mint (p.account.getD "") (10000 * 10 ^ d)
      ∈ (cCalls (handleDeploy p s f)).filter TokenCall.isMint := by
    rw [hcalls]
    exact List.mem_singleton.mpr rfl
  rw [ha] at hmem
  exact (List.mem_filter.mp hmem).1

/-- Claim C24, witness: the form asks for 6 decimals, the deployed token reports 18. -/
theorem mint_ten_thousand_tokens_witness :
    (cCalls (handleDeploy demoCProps
        { CState.initial with name := "Test Token", symbol := "TEST", decimals := "6" }
        demoFactory)).filter TokenCall.isMint
      = [.mint "0x1111111111111111111111111111111111111111" (10000 * 10 ^ 18)] :=
  (mint_ten_thousand_tokens demoCProps
    { CState.initial with name := "Test Token", symbol := "TEST", decimals := "6" }
    demoFactory 6 demoDeployed () "0x4444444444444444444444444444444444444444" "Test Token"
    "TEST" 18 (by decide) (by decide) (by decide) (by decide) (by decide) (by decide)
    (by decide) (by decide) rfl rfl rfl rfl rfl rfl (by decide)).1

/-- The two ways the `try` block of `handleDeploy` ends.  Either every call succeeds and the
block runs to its end: deployment, the reads, the mint, its receipt, then the callback (if
there is one), the success status and the reset of the form.  Or it throws, having neither
invoked the callback nor written a form field. -/
theorem deployBody_cases (p : CProps) (s : CState) (f : FactoryWorld) (n : Int) :
    (∃ token u address tokenName tokenSymbol d mintAmount mintTx r,
      f.deploy s.name s.symbol n = .ok token ∧ token.waitForDeployment = .ok u ∧
      token.getAddress = .ok address ∧ token.name = .ok tokenName ∧
      token.symbol = .ok tokenSymbol ∧ token.decimals = .ok d ∧
      parseUnits "10000" d = .ok mintAmount ∧
      token.mint (p.account.getD "") mintAmount = .ok mintTx ∧ mintTx.wait = .ok r ∧
      deployBody p s f n
        = ([.call (.deploy s.name s.symbol n) true,
            .setStatus (infoStatus "Deploying contract..."),
            .call .waitForDeployment true, .call .getAddress true,
            .setTokenAddress (some address), .call .name true, .call .symbol true,
            .call .decimals true,
            .setStatus (infoStatus "Minting 10,000 tokens to your address..."),
            .call (.mint (p.account.getD "") mintAmount) true,
            .mined (.mint (p.account.getD "") mintAmount) true] ++
           (if p.hasOnTokenCreated then
              [.onTokenCreated { address := address, name := tokenName,
                                 symbol := tokenSymbol, decimals := d }]
            else []) ++
           [.setStatus (successStatus ("ZToken deployed successfully! 10,000 " ++
              tokenSymbol ++ " minted to your address. Address: " ++ address)),
            .setName "", .setSymbol "", .setDecimals "18"], .finished)) ∨
    (∃ e, (deployBody p s f n).2 = .threw e ∧
      createdTokens (deployBody p s f n).1 = [] ∧
      (deployBody p s f n).1.any CEffect.isFormWrite = false) := by
  unfold deployBody
  cases h0 : f.deploy s.name s.symbol n with
  | error e => exact Or.inr ⟨e, by simp [callThen, createdTokens, CEffect.isFormWrite]⟩
  | ok token =>
  cases h1 : token.waitForDeployment with
  | error e =>
    exact Or.inr ⟨e, by simp [callThen, andThen, createdTokens, CEffect.isFormWrite, h1]⟩
  | ok u =>
  cases h2 : token.getAddress with
  | error e =>
    exact Or.inr ⟨e, by simp [callThen, andThen, createdTokens, CEffect.isFormWrite, h1, h2]⟩
  | ok address =>
  cases h3 : token.name with
  | error e =>
    exact Or.inr ⟨e, by
      simp [callThen, andThen, createdTokens, CEffect.isFormWrite, h1, h2, h3]⟩
  | ok tokenName =>
  cases h4 : token.symbol with
  | error e =>
    exact Or.inr ⟨e, by
      simp [callThen, andThen, createdTokens, CEffect.isFormWrite, h1, h2, h3, h4]⟩
  | ok tokenSymbol =>
  cases h5 : token.decimals with
  | error e =>
    exact Or.inr ⟨e, by
      simp [callThen, andThen, createdTokens, CEffect.isFormWrite, h1, h2, h3, h4, h5]⟩
  | ok d =>
  cases h6 : parseUnits "10000" d with
  | error e =>
    exact Or.inr ⟨e, by
      simp [callThen, andThen, createdTokens, CEffect.isFormWrite, h1, h2, h3, h4, h5, h6]⟩
  | ok mintAmount =>
  cases h7 : token.mint (p.account.getD "") mintAmount with
  | error e =>
    exact Or.inr ⟨e, by
      simp [callThen, andThen, createdTokens, CEffect.isFormWrite, h1, h2, h3, h4, h5, h6,
        h7]⟩
  | ok mintTx =>
  cases h8 : mintTx.wait with
  | error e =>
    exact Or.inr ⟨e, by
      simp [callThen, andThen, createdTokens, CEffect.isFormWrite, h1, h2, h3, h4, h5, h6,
        h7, h8]⟩
  | ok r =>
    refine Or.inl ⟨token, u, address, tokenName, tokenSymbol, d, mintAmount, mintTx, r,
      rfl, h1, h2, h3, h4, h5, h6, h7, h8, ?_⟩
    simp [callThen, andThen, h1, h2, h3, h4, h5, h6, h7, h8]

/-- Every run of `handleDeploy` is one of: a refusal by a guard, which only sets a status;
or the `try` block followed by effects that neither invoke the callback nor write a form
field nor call the token. -/
theorem handleDeploy_shape (p : CProps) (s : CState) (f : FactoryWorld) :
    (∃ st, handleDeploy p s f = [.setStatus st]) ∨
    (∃ n tail, parseInt s.decimals = some n ∧
      handleDeploy p s f
        = [.setLoading true, .setStatus none] ++ (deployBody p s f n).1 ++ tail ∧
      createdTokens tail = [] ∧ tail.any CEffect.isFormWrite = false ∧
      (∀ c ok, CEffect.call c ok ∉ tail ∧ CEffect.mined c ok ∉ tail)) := by
  unfold handleDeploy
  split_ifs with h1 h2
  · exact Or.inl ⟨_, rfl⟩
  · exact Or.inl ⟨_, rfl⟩
  · cases hparse : parseInt s.decimals with
    | none => exact Or.inl ⟨_, rfl⟩
    | some n =>
      simp only
      split_ifs with h3
      · exact Or.inl ⟨_, rfl⟩
      · cases hb : (deployBody p s f n).2 with
        | finished =>
          exact Or.inr ⟨n, [.setLoading false], rfl, by simp, rfl, rfl, by simp⟩
        | returned =>
          exact Or.inr ⟨n, [.setLoading false], rfl, by simp, rfl, rfl, by simp⟩
        | threw e =>
          exact Or.inr ⟨n, [.setStatus (errorStatus
            (orElse e.reason (orElse e.message "Failed to deploy ZToken"))),
            .setLoading false], rfl, by simp, rfl, rfl, by simp⟩

theorem parentEffects_eq (a : AppState) : ∀ effects : List CEffect,
    parentEffects a effects
      = (createdTokens effects).map
          (fun token => AEffect.setDeployedTokens (a.deployedTokens ++ [token])) := by
  intro effects
  induction effects with
  | nil => rfl
  | cons x effects ih =>
    cases x <;> simp [parentEffects, createdTokens, onTokenCreatedCallback, ih]

/-- Effects that write no form field leave name, symbol and decimals as they were. -/
theorem applyAll_form (effects : List CEffect) :
    ∀ s : CState, effects.any CEffect.isFormWrite = false →
      (s.applyAll effects).name = s.name ∧ (s.applyAll effects).symbol = s.symbol ∧
      (s.applyAll effects).decimals = s.decimals := by
  induction effects with
  | nil => intro s _; exact ⟨rfl, rfl, rfl⟩
  | cons x effects ih =>
    intro s h
    simp only [List.any_cons, Bool.or_eq_false_iff] at h
    obtain ⟨h1, h2, h3⟩ := ih (s.apply x) h.2
    have hx : (s.apply x).name = s.name ∧ (s.apply x).symbol = s.symbol ∧
        (s.apply x).decimals = s.decimals := by
      cases x <;> first | exact ⟨rfl, rfl, rfl⟩ | (exact absurd h.1 (by simp [CEffect.isFormWrite]))
    simp only [CState.applyAll, List.foldl_cons] at h1 h2 h3 ⊢
    exact ⟨h1.trans hx.1, h2.trans hx.2.1, h3.trans hx.2.2⟩

/-- The outcomes of a run of `handleDeploy` as far as the callback is concerned.  Either
the callback is not invoked, and then no form field is written or no call failed; or it is
invoked once, right after the receipt of the mint, with the record read back from the
deployed token, and no call failed. -/
theorem handleDeploy_outcomes (p : CProps) (s : CState) (f : FactoryWorld) :
    (createdTokens (handleDeploy p s f) = [] ∧
      ((handleDeploy p s f).any CEffect.isFormWrite = false ∨
       ∀ c, CEffect.call c false ∉ handleDeploy p s f ∧
            CEffect.mined c false ∉ handleDeploy p s f)) ∨
    (∃ record n token mintAmount pre post,
      createdTokens (handleDeploy p s f) = [record] ∧
      (∀ c, CEffect.call c false ∉ handleDeploy p s f ∧
            CEffect.mined c false ∉ handleDeploy p s f) ∧
      parseInt s.decimals = some n ∧ f.deploy s.name s.symbol n = .ok token ∧
      token.getAddress = .ok record.address ∧ token.name = .ok record.name ∧
      token.symbol = .ok record.symbol ∧ token.decimals = .ok record.decimals ∧
      handleDeploy p s f
        = pre ++ [.mined (.mint (p.account.getD "") mintAmount) true,
                  .onTokenCreated record] ++ post ∧
      CEffect.call (.deploy s.name s.symbol n) true ∈ pre ∧
      CEffect.call .waitForDeployment true ∈ pre ∧
      CEffect.call (.mint (p.account.getD "") mintAmount) true ∈ pre) := by
  rcases handleDeploy_shape p s f with ⟨st, hE⟩ | ⟨n, tail, hparse, hE, ht1, ht2, ht3⟩
  · rw [hE]
    exact Or.inl ⟨rfl, Or.inl rfl⟩
  · rcases deployBody_cases p s f n with
      ⟨token, u, address, tokenName, tokenSymbol, d, mintAmount, mintTx, r, e0, e1, e2, e3,
        e4, e5, e6, e7, e8, hbody⟩ | ⟨e, -, hc, hw⟩
    · rw [hbody] at hE
      simp only at hE
      have hcall : ∀ c, CEffect.call c false ∉ tail ∧ CEffect.mined c false ∉ tail :=
        fun c => ht3 c false
      cases hh : p.hasOnTokenCreated with
      | false =>
        left
        rw [hE]
        refine ⟨by simp [hh, createdTokens_append, createdTokens, ht1], Or.inr ?_⟩
        intro c
        simp [hh, (hcall c).1, (hcall c).2]
      | true =>
        right
        refine ⟨{ address := address, name := tokenName, symbol := tokenSymbol,
                  decimals := d }, n, token, mintAmount,
          [.setLoading true, .setStatus none, .call (.deploy s.name s.symbol n) true,
            .setStatus (infoStatus "Deploying contract..."),
            .call .waitForDeployment true, .call .getAddress true,
            .setTokenAddress (some address), .call .name true, .call .symbol true,
            .call .decimals true,
            .setStatus (infoStatus "Minting 10,000 tokens to your address..."),
            .call (.mint (p.account.getD "") mintAmount) true],
          [.setStatus (successStatus ("ZToken deployed successfully! 10,000 " ++
              tokenSymbol ++ " minted to your address. Address: " ++ address)),
            .setName "", .setSymbol "", .setDecimals "18"] ++ tail,
          ?_, ?_, hparse, e0, e2, e3, e4, e5, ?_, by simp, by simp, by simp⟩
        · rw [hE]
          simp [hh, createdTokens_append, createdTokens, ht1]
        · intro c
          rw [hE]
          simp [hh, (hcall c).1, (hcall c).2]
        · rw [hE]
          simp [hh]
    · left
      rw [hE]
      refine ⟨by simp [createdTokens_append, createdTokens, hc, ht1], Or.inl ?_⟩
      simp [List.any_append, hw, ht2, CEffect.isFormWrite]

/-- Claim C27.  In every run of `handleDeploy` the callback `onTokenCreated` is invoked at
most once.  When it is invoked, the deployment, its confirmation and the mint call have
succeeded and the callback comes right after the receipt of the mint, with the address,
name, symbol and decimals the deployed token returned.  The parent then holds
`deployedTokens` with the records of the invocations appended at the end, the earlier
elements kept in order.  If a call or a receipt fails, the callback is not invoked and name,
symbol and decimals of the form keep their values. -/
theorem onTokenCreated_after_mint (p : CProps) (s : CState) (f : FactoryWorld) :
    (createdTokens (handleDeploy p s f)).length ≤ 1 ∧
    (∀ record ∈ createdTokens (handleDeploy p s f),
      ∃ n token mintAmount pre post,
        parseInt s.decimals = some n ∧ f.deploy s.name s.symbol n = .ok token ∧
        token.getAddress = .ok record.address ∧ token.name = .ok record.name ∧
        token.symbol = .ok record.symbol ∧ token.decimals = .ok record.decimals ∧
        handleDeploy p s f
          = pre ++ [.mined (.mint (p.account.getD "") mintAmount) true,
                    .onTokenCreated record] ++ post ∧
        CEffect.call (.deploy s.name s.symbol n) true ∈ pre ∧
        CEffect.call .waitForDeployment true ∈ pre ∧
        CEffect.call (.mint (p.account.getD "") mintAmount) true ∈ pre) ∧
    (∀ a : AppState,
      (a.applyAll (parentEffects a (handleDeploy p s f))).deployedTokens
        = a.deployedTokens ++ createdTokens (handleDeploy p s f)) ∧
    ((∃ c, CEffect.call c false ∈ handleDeploy p s f ∨
           CEffect.mined c false ∈ handleDeploy p s f) →
      createdTokens (handleDeploy p s f) = [] ∧
      (s.applyAll (handleDeploy p s f)).name = s.name ∧
      (s.applyAll (handleDeploy p s f)).symbol = s.symbol ∧
      (s.applyAll (handleDeploy p s f)).decimals = s.decimals) := by
  rcases handleDeploy_outcomes p s f with ⟨hnone, hrest⟩ |
    ⟨record, n, token, mintAmount, pre, post, hone, hok, h1, h2, h3, h4, h5, h6, h7, h8,
      h9, h10⟩
  · refine ⟨by rw [hnone]; exact Nat.zero_le 1, ?_, ?_, ?_⟩
    · intro record hrecord
      rw [hnone] at hrecord
      cases hrecord
    · intro a
      rw [parentEffects_eq, hnone]
      simp [AppState.applyAll]
    · rintro ⟨c, hfail⟩
      rcases hrest with hform | hok
      · exact ⟨hnone, applyAll_form _ s hform⟩
      · rcases hfail with hfail | hfail
        · exact absurd hfail (hok c).1
        · exact absurd hfail (hok c).2
  · refine ⟨by rw [hone]; exact Nat.le_refl 1, ?_, ?_, ?_⟩
    · intro record2 hrecord
      rw [hone] at hrecord
      rw [List.mem_singleton.mp hrecord]
      exact ⟨n, token, mintAmount, pre, post, h1, h2, h3, h4, h5, h6, h7, h8, h9, h10⟩
    · intro a
      rw [parentEffects_eq, hone]
      rfl
    · rintro ⟨c, hfail⟩
      rcases hfail with hfail | hfail
      · exact absurd hfail (hok c).1
      · exact absurd hfail (hok c).2

/-- Claim C27, witness: a deployment that succeeds; the parent held one token before. -/
theorem onTokenCreated_after_mint_witness :
    createdTokens (handleDeploy demoCProps
        { CState.initial with name := "Test Token", symbol := "TEST" } demoFactory)
      = [{ address := "0x4444444444444444444444444444444444444444", name := "Test Token",
           symbol := "TEST", decimals := 18 }] ∧
    ({ AppState.initial with deployedTokens := [demoToken] }.applyAll
      (parentEffects { AppState.initial with deployedTokens := [demoToken] }
        (handleDeploy demoCProps
          { CState.initial with name := "Test Token", symbol := "TEST" }
          demoFactory))).deployedTokens
      = [demoToken] ++ createdTokens (handleDeploy demoCProps
          { CState.initial with name := "Test Token", symbol := "TEST" } demoFactory) :=
  ⟨by decide,
   (onTokenCreated_after_mint demoCProps
      { CState.initial with name := "Test Token", symbol := "TEST" } demoFactory).2.2.1
      { AppState.initial with deployedTokens := [demoToken] }⟩

/-! ### `App`: account, provider and signer are set and cleared together -/

/-- A run of `checkWalletConnection` writes no cell, or it writes provider, signer and
account, all three non-null. -/
theorem checkWalletConnection_cells (w : WalletWorld) :
    (∀ s : AppState, s.applyAll (checkWalletConnection w) = s) ∨
    (∃ ethereum signer account, ∀ s : AppState, s.applyAll (checkWalletConnection w)
      = { s with provider := some ethereum, signer := some signer,
                 account := some account }) := by
  unfold checkWalletConnection
  cases hsel : getEthereumProvider w.ethereum with
  | none => exact Or.inl (fun s => rfl)
  | some ethereum =>
    cases ha : w.eth_accounts with
    | error e => exact Or.inl (fun s => rfl)
    | ok accounts =>
      cases accounts with
      | nil => exact Or.inl (fun s => rfl)
      | cons first rest =>
        cases hg : w.getSigner with
        | error e => exact Or.inl (fun s => by simp [AppState.applyAll, AppState.apply])
        | ok signer =>
          cases hn : w.getNetwork with
          | error e => exact Or.inl (fun s => by simp [AppState.applyAll, AppState.apply])
          | ok chainId =>
            refine Or.inr ⟨ethereum, signer, first, fun s => ?_⟩
            by_cases hc : chainId ≠ 11155111
            · simp only [List.length_cons, gt_iff_lt, Nat.zero_lt_succ, if_true, if_pos hc]
              rfl
            · simp only [List.length_cons, gt_iff_lt, Nat.zero_lt_succ, if_true, if_neg hc]
              rfl

/-- A run of `connectWallet` writes no cell, or it writes provider, signer and account, all
three non-null. -/
theorem connectWallet_cells (w : WalletWorld) :
    (∀ s : AppState, s.applyAll (connectWallet w) = s) ∨
    (∃ ethereum signer account, ∀ s : AppState, s.applyAll (connectWallet w)
      = { s with provider := some ethereum, signer := some signer,
                 account := some account }) := by
  unfold connectWallet
  cases hsel : getEthereumProvider w.ethereum with
  | none =>
    left
    intro s
    simp only
    split_ifs <;> rfl
  | some ethereum =>
    simp only
    split_ifs with hm
    · exact Or.inl (fun s => rfl)
    · unfold connectBody
      cases ha : w.eth_requestAccounts with
      | error e => exact Or.inl (fun s => rfl)
      | ok accounts =>
        simp only
        split_ifs with h0
        · exact Or.inl (fun s => rfl)
        · cases hn : w.getNetwork with
          | error e => exact Or.inl (fun s => rfl)
          | ok chainId =>
            simp only
            split_ifs with h1
            · left
              intro s
              rcases switchToSepolia_cases w with
                ⟨u, -, h⟩ | ⟨e, -, -, h⟩ | ⟨e, -, -, h | h⟩ <;>
                · rw [h]; rfl
            · cases hg : w.getSigner with
              | error e => exact Or.inl (fun s => rfl)
              | ok signer => exact Or.inr ⟨ethereum, signer, signer.address, fun s => rfl⟩

/-- Every event keeps the agreement of the three wallet cells. -/
theorem event_cells (s : AppState) (w : WalletWorld) (ev : AppEvent)
    (h : s.walletCellsAgree) : (s.applyAll (ev.effects s w)).walletCellsAgree := by
  have hset : ∀ (ethereum : Selected) (signer : Signer) (account : String),
      AppState.walletCellsAgree { s with provider := some ethereum, signer := some signer,
                                         account := some account } :=
    fun _ _ _ => Or.inr ⟨rfl, rfl, rfl⟩
  have hcheck : (s.applyAll (checkWalletConnection w)).walletCellsAgree := by
    rcases checkWalletConnection_cells w with h1 | ⟨ethereum, signer, account, h1⟩
    · rw [h1]; exact h
    · rw [h1]; exact hset ethereum signer account
  cases ev with
  | checkWalletConnection => exact hcheck
  | connectWallet =>
    rcases connectWallet_cells w with h1 | ⟨ethereum, signer, account, h1⟩
    · simp only [AppEvent.effects, h1]; exact h
    · simp only [AppEvent.effects, h1]; exact hset ethereum signer account
  | accountsChanged accounts =>
    cases accounts with
    | nil => exact Or.inl ⟨rfl, rfl, rfl⟩
    | cons first rest => exact hcheck
  | tokenCreated token => exact h

/-- Claim C28.  In every state of `App` reachable by events (`checkWalletConnection`,
`connectWallet`, `accountsChanged`, and the report of a new token), account, provider and
signer are all null or all non-null; and from such a state an `accountsChanged` event with
an empty account list sets all three to null. -/
theorem wallet_cells_agree (s : AppState) (h : AReachable s) :
    s.walletCellsAgree ∧
    ∀ w : WalletWorld,
      (s.applyAll ((AppEvent.accountsChanged []).effects s w)).account = none ∧
      (s.applyAll ((AppEvent.accountsChanged []).effects s w)).provider = none ∧
      (s.applyAll ((AppEvent.accountsChanged []).effects s w)).signer = none := by
  refine ⟨?_, fun w => ⟨rfl, rfl, rfl⟩⟩
  induction h with
  | initial => exact Or.inl ⟨rfl, rfl, rfl⟩
  | step s w ev _ ih => exact event_cells s w ev ih

/-- Claim C28, witness: the state after a click on the connect button with MetaMask on
Sepolia, where all three cells are set. -/
theorem wallet_cells_agree_witness :
    (AppState.initial.applyAll
      (AppEvent.connectWallet.effects AppState.initial sepoliaWallet)).walletCellsAgree ∧
    (AppState.initial.applyAll
      (AppEvent.connectWallet.effects AppState.initial sepoliaWallet)).account
      = some "0x1111111111111111111111111111111111111111" :=
  ⟨(wallet_cells_agree _
      (AReachable.step AppState.initial sepoliaWallet .connectWallet AReachable.initial)).1,
   by decide⟩

/-! ### `handleDeposit`: the leaf index read from the receipt, and the form afterwards -/

/-- What the search for an event returns: the first log, in receipt order, that parses and
bears the name; null exactly when no log does. -/
theorem findEvent_spec (name : String) : ∀ logs : List (Option ParsedLog),
    (∀ parsed, findEvent name logs = some parsed →
      ∃ i : Nat, logs[i]? = some (some parsed) ∧ parsed.name = name ∧
        ∀ (j : Nat) (q : ParsedLog), j < i → logs[j]? = some (some q) → q.name ≠ name) ∧
    (findEvent name logs = none ↔ ∀ q : ParsedLog, some q ∈ logs → q.name ≠ name) := by
  intro logs
  induction logs with
  | nil => exact ⟨fun parsed h => (by cases h), by simp [findEvent]⟩
  | cons l logs ih =>
    obtain ⟨ih1, ih2⟩ := ih
    cases l with
    | none =>
      simp only [findEvent]
      constructor
      · intro parsed h
        obtain ⟨i, h1, h2, h3⟩ := ih1 parsed h
        refine ⟨i + 1, by simpa using h1, h2, ?_⟩
        intro j q hj hq
        cases j with
        | zero => simp at hq
        | succ j =>
          simp only [List.getElem?_cons_succ] at hq
          exact h3 j q (by omega) hq
      · rw [ih2]
        constructor
        · intro h q hq
          rcases List.mem_cons.mp hq with e | e
          · cases e
          · exact h q e
        · intro h q hq
          exact h q (List.mem_cons_of_mem _ hq)
    | some l =>
      by_cases hl : l.name = name
      · simp only [findEvent, hl, if_true]
        constructor
        · intro parsed h
          cases h
          exact ⟨0, List.getElem?_cons_zero, hl,
            fun j q hj _ => absurd hj (Nat.not_lt_zero j)⟩
        · constructor
          · intro h; cases h
          · intro h
            exact absurd hl (h l (List.mem_cons_self _ _))
      · simp only [findEvent, hl, if_false]
        constructor
        · intro parsed h
          obtain ⟨i, h1, h2, h3⟩ := ih1 parsed h
          refine ⟨i + 1, by simpa using h1, h2, ?_⟩
          intro j q hj hq
          cases j with
          | zero =>
            simp only [List.getElem?_cons_zero, Option.some.injEq] at hq
            rw [← hq]
            exact hl
          | succ j =>
            simp only [List.getElem?_cons_succ] at hq
            exact h3 j q (by omega) hq
        · rw [ih2]
          constructor
          · intro h q hq
            rcases List.mem_cons.mp hq with e | e
            · cases e
              exact hl
            · exact h q e
          · intro h q hq
            exact h q (List.mem_cons_of_mem _ hq)

/-- An ETH deposit whose transaction is mined: the effects of `handleDeposit`. -/
theorem handleDeposit_eth_mined (p : Props) (s : DState) (w : World) (value : Int) (tx : Tx)
    (receipt : Receipt)
    (hsigner : p.signer.isSome = true) (haccount : accountSet p.account = true)
    (hsecret : s.secret ≠ "") (hnullifier : s.nullifier ≠ "") (hcommitment : s.commitment ≠ "")
    (htype : s.depositType = "ETH")
    (hparse : parseEther (match s.depositAmount with
                          | some a => orElse a "0.001"
                          | none => "0.001") = .ok value)
    (hdeposit : w.deposit s.commitment value = .ok tx) (hwait : tx.wait = .ok receipt) :
    handleDeposit p s w
      = [.setLoading true, .setStatus none, .call (.deposit s.commitment value) true,
         .setStatus (infoStatus "Transaction pending..."),
         .mined (.deposit s.commitment value) true] ++
        (match findEvent "Deposit" receipt.logs with
         | some parsed =>
           [.setDepositInfo (some
              { commitment := parsed.commitment, leafIndex := Nat.repr parsed.leafIndex,
                txHash := receipt.hash, tokenAddress := "", tokenAmount := "",
                tokenSymbol := "", depositType := "ETH" }),
            .setStatus (successStatus ("Deposit successful! Leaf index: " ++
              Nat.repr parsed.leafIndex))]
         | none => [.setStatus (successStatus "Deposit successful!")]) ++
        [.setLoading false] := by
  rw [handleDeposit_body p s w hsigner haccount hsecret hnullifier hcommitment
    (by intro h; rw [htype] at h; exact absurd h (by decide))]
  unfold depositBody ethDeposit
  simp only [htype, if_true, hparse, hdeposit, hwait, callThen, andThen]
  cases findEvent "Deposit" receipt.logs <;> rfl

/-- A token deposit whose two transactions are mined: the effects of `handleDeposit`. -/
theorem handleDeposit_token_mined (p : Props) (s : DState) (w : World) (tok : Token)
    (amount : Int) (balance : Nat) (transferTx insertTx : Tx) (r insertReceipt : Receipt)
    (hsigner : p.signer.isSome = true) (haccount : accountSet p.account = true)
    (hsecret : s.secret ≠ "") (hnullifier : s.nullifier ≠ "") (hcommitment : s.commitment ≠ "")
    (htype : s.depositType = "TOKEN") (htok : s.selectedToken = some tok)
    (hamount : s.tokenAmount ≠ "")
    (hparse : parseUnits s.tokenAmount tok.decimals = .ok amount)
    (hbal : w.balanceOf tok.address (p.account.getD "") = .ok balance)
    (hge : ¬ (balance : Int) < amount)
    (htransfer : w.transfer tok.address p.poolAddress amount = .ok transferTx)
    (hmined : transferTx.wait = .ok r)
    (hinsert : w.insertLeaf s.commitment = .ok insertTx)
    (hwait : insertTx.wait = .ok insertReceipt) :
    handleDeposit p s w
      = [.setLoading true, .setStatus none,
         .call (.balanceOf tok.address (p.account.getD "")) true,
         .setStatus (infoStatus "Transferring tokens to pool..."),
         .call (.transfer tok.address p.poolAddress amount) true,
         .mined (.transfer tok.address p.poolAddress amount) true,
         .setStatus (infoStatus "Creating commitment in pool..."),
         .setStatus (infoStatus "Adding commitment to merkle tree..."),
         .call (.insertLeaf s.commitment) true, .mined (.insertLeaf s.commitment) true,
         .setDepositInfo (some
           { commitment := s.commitment,
             leafIndex := (match findEvent "LeafInserted" insertReceipt.logs with
                           | some parsed => Nat.repr parsed.leafIndex
                           | none => "unknown"),
             txHash := transferTx.hash, tokenAddress := tok.address,
             tokenAmount := s.tokenAmount, tokenSymbol := tok.symbol,
             depositType := "TOKEN" }),
         .setStatus (successStatus ("Token deposit successful! " ++
           (match findEvent "LeafInserted" insertReceipt.logs with
            | some parsed => "Leaf index: " ++ Nat.repr parsed.leafIndex
            | none => "Tokens transferred and commitment added"))),
         .setTokenAmount "", .setSelectedToken none, .setSecret "", .setNullifier "",
         .setCommitment "", .setApproved false, .setLoading false, .setLoading false] := by
  rw [handleDeposit_body p s w hsigner haccount hsecret hnullifier hcommitment
    (fun _ => ⟨(by rw [htok]; exact fun e => by cases e), hamount⟩)]
  have hne : ¬ s.depositType = "ETH" := by rw [htype]; decide
  unfold depositBody tokenDeposit
  simp only [if_neg hne, htok, hparse, hbal, if_neg hge, htransfer, hmined, hinsert, hwait,
    callThen, andThen]
  rfl

/-- After every mined ETH deposit the secret and the nullifier are still in the form and
the status reports success. -/
theorem eth_deposit_keeps_form (p : Props) (s : DState) (w : World) (value : Int) (tx : Tx)
    (receipt : Receipt)
    (hsigner : p.signer.isSome = true) (haccount : accountSet p.account = true)
    (hsecret : s.secret ≠ "") (hnullifier : s.nullifier ≠ "") (hcommitment : s.commitment ≠ "")
    (htype : s.depositType = "ETH")
    (hparse : parseEther (match s.depositAmount with
                          | some a => orElse a "0.001"
                          | none => "0.001") = .ok value)
    (hdeposit : w.deposit s.commitment value = .ok tx) (hwait : tx.wait = .ok receipt) :
    (s.applyAll (handleDeposit p s w)).secret = s.secret ∧
    (s.applyAll (handleDeposit p s w)).nullifier = s.nullifier ∧
    (s.applyAll (handleDeposit p s w)).loading = false := by
  rw [handleDeposit_eth_mined p s w value tx receipt hsigner haccount hsecret hnullifier
    hcommitment htype hparse hdeposit hwait]
  cases findEvent "Deposit" receipt.logs <;> exact ⟨rfl, rfl, rfl⟩

/-- After every mined token deposit the secret, the nullifier and the commitment are
cleared. -/
theorem token_deposit_clears_form (p : Props) (s : DState) (w : World) (tok : Token)
    (amount : Int) (balance : Nat) (transferTx insertTx : Tx) (r insertReceipt : Receipt)
    (hsigner : p.signer.isSome = true) (haccount : accountSet p.account = true)
    (hsecret : s.secret ≠ "") (hnullifier : s.nullifier ≠ "") (hcommitment : s.commitment ≠ "")
    (htype : s.depositType = "TOKEN") (htok : s.selectedToken = some tok)
    (hamount : s.tokenAmount ≠ "")
    (hparse : parseUnits s.tokenAmount tok.decimals = .ok amount)
    (hbal : w.balanceOf tok.address (p.account.getD "") = .ok balance)
    (hge : ¬ (balance : Int) < amount)
    (htransfer : w.transfer tok.address p.poolAddress amount = .ok transferTx)
    (hmined : transferTx.wait = .ok r)
    (hinsert : w.insertLeaf s.commitment = .ok insertTx)
    (hwait : insertTx.wait = .ok insertReceipt) :
    (s.applyAll (handleDeposit p s w)).secret = "" ∧
    (s.applyAll (handleDeposit p s w)).nullifier = "" ∧
    (s.applyAll (handleDeposit p s w)).commitment = "" := by
  rw [handleDeposit_token_mined p s w tok amount balance transferTx insertTx r insertReceipt
    hsigner haccount hsecret hnullifier hcommitment htype htok hamount hparse hbal hge
    htransfer hmined hinsert hwait]
  exact ⟨rfl, rfl, rfl⟩

/-- Claim C25.  An ETH deposit with a connected wallet, secret `0xaa..aa`, nullifier
`0xbb..bb` and their commitment, against a pool that mines it and emits `Deposit` with leaf
index 7: `handleDeposit` reports `Deposit successful! Leaf index: 7` and the secret and the
nullifier are still in the component state.  The token deposit of the same secrets against
the same pool clears both. -/
theorem eth_deposit_keeps_secrets :
    (ethDepositForm.applyAll (handleDeposit demoProps ethDepositForm eventWorld)).status
      = successStatus "Deposit successful! Leaf index: 7" ∧
    (ethDepositForm.applyAll (handleDeposit demoProps ethDepositForm eventWorld)).secret
      = word 'a' ∧
    (ethDepositForm.applyAll (handleDeposit demoProps ethDepositForm eventWorld)).nullifier
      = word 'b' ∧
    (tokenDepositForm.applyAll (handleDeposit demoProps tokenDepositForm eventWorld)).status
      = successStatus "Token deposit successful! Leaf index: 7" ∧
    (tokenDepositForm.applyAll (handleDeposit demoProps tokenDepositForm eventWorld)).secret
      = "" ∧
    (tokenDepositForm.applyAll
      (handleDeposit demoProps tokenDepositForm eventWorld)).nullifier = "" := by
  decide

/-- Claim C26.  For every receipt of a mined deposit: on the ETH path, if a log parses as
`Deposit`, `depositInfo` records the decimal string of the leaf index of the first such log
and the status reports success with it; if none does, `depositInfo` is not written and the
status is `Deposit successful!`.  On the token path `depositInfo` is always written, with
the decimal string of the leaf index of the first log of the `insertLeaf` receipt that
parses as `LeafInserted`, or with `unknown` if none does, and the status reports success.
The log found is the first in receipt order that parses and bears the name; logs that do
not parse and logs of other events are passed over. -/
theorem leaf_index_from_first_event (p : Props) (s : DState) (w : World)
    (hsigner : p.signer.isSome = true) (haccount : accountSet p.account = true)
    (hsecret : s.secret ≠ "") (hnullifier : s.nullifier ≠ "")
    (hcommitment : s.commitment ≠ "") :
    (∀ (value : Int) (tx : Tx) (receipt : Receipt), s.depositType = "ETH" →
      parseEther (match s.depositAmount with
                  | some a => orElse a "0.001"
                  | none => "0.001") = .ok value →
      w.deposit s.commitment value = .ok tx → tx.wait = .ok receipt →
      (∀ parsed, findEvent "Deposit" receipt.logs = some parsed →
        (s.applyAll (handleDeposit p s w)).depositInfo.map DepositInfo.leafIndex
          = some (Nat.repr parsed.leafIndex) ∧
        (s.applyAll (handleDeposit p s w)).status
          = successStatus ("Deposit successful! Leaf index: " ++
              Nat.repr parsed.leafIndex)) ∧
      (findEvent "Deposit" receipt.logs = none →
        (handleDeposit p s w).any DEffect.isSetDepositInfo = false ∧
        (s.applyAll (handleDeposit p s w)).depositInfo = s.depositInfo ∧
        (s.applyAll (handleDeposit p s w)).status
          = successStatus "Deposit successful!")) ∧
    (∀ (tok : Token) (amount : Int) (balance : Nat) (transferTx insertTx : Tx)
        (r insertReceipt : Receipt),
      s.depositType = "TOKEN" → s.selectedToken = some tok → s.tokenAmount ≠ "" →
      parseUnits s.tokenAmount tok.decimals = .ok amount →
      w.balanceOf tok.address (p.account.getD "") = .ok balance →
      ¬ (balance : Int) < amount →
      w.transfer tok.address p.poolAddress amount = .ok transferTx →
      transferTx.wait = .ok r → w.insertLeaf s.commitment = .ok insertTx →
      insertTx.wait = .ok insertReceipt →
      (∀ parsed, findEvent "LeafInserted" insertReceipt.logs = some parsed →
        (s.applyAll (handleDeposit p s w)).depositInfo.map DepositInfo.leafIndex
          = some (Nat.repr parsed.leafIndex) ∧
        (s.applyAll (handleDeposit p s w)).status
          = successStatus ("Token deposit successful! Leaf index: " ++
              Nat.repr parsed.leafIndex)) ∧
      (findEvent "LeafInserted" insertReceipt.logs = none →
        (s.applyAll (handleDeposit p s w)).depositInfo.map DepositInfo.leafIndex
          = some "unknown" ∧
        (s.applyAll (handleDeposit p s w)).status
          = successStatus
              "Token deposit successful! Tokens transferred and commitment added")) ∧
    (∀ (name : String) (logs : List (Option ParsedLog)) (parsed : ParsedLog),
      findEvent name logs = some parsed →
      ∃ i : Nat, logs[i]? = some (some parsed) ∧ parsed.name = name ∧
        ∀ (j : Nat) (q : ParsedLog), j < i → logs[j]? = some (some q) → q.name ≠ name) ∧
    (∀ (name : String) (logs : List (Option ParsedLog)),
      findEvent name logs = none ↔ ∀ q : ParsedLog, some q ∈ logs → q.name ≠ name) := by
  refine ⟨?_, ?_, fun name logs => (findEvent_spec name logs).1,
    fun name logs => (findEvent_spec name logs).2⟩
  · intro value tx receipt htype hparse hdeposit hwait
    rw [handleDeposit_eth_mined p s w value tx receipt hsigner haccount hsecret hnullifier
      hcommitment htype hparse hdeposit hwait]
    constructor
    · intro parsed hfound
      rw [hfound]
      exact ⟨rfl, rfl⟩
    · intro hnone
      rw [hnone]
      exact ⟨rfl, rfl, rfl⟩
  · intro tok amount balance transferTx insertTx r insertReceipt htype htok hamount hparse
      hbal hge htransfer hmined hinsert hwait
    rw [handleDeposit_token_mined p s w tok amount balance transferTx insertTx r
      insertReceipt hsigner haccount hsecret hnullifier hcommitment htype htok hamount hparse
      hbal hge htransfer hmined hinsert hwait]
    constructor
    · intro parsed hfound
      rw [hfound]
      exact ⟨rfl, rfl⟩
    · intro hnone
      rw [hnone]
      exact ⟨rfl, rfl⟩

/-- Claim C26, witness: a receipt whose logs are one that does not parse, one of another
event, and two `Deposit` logs with leaf indices 7 and 9. -/
theorem leaf_index_from_first_event_witness :
    findEvent "Deposit" [none, some (eventLog "LeafInserted" 3), some (eventLog "Deposit" 7),
      some (eventLog "Deposit" 9)] = some (eventLog "Deposit" 7) ∧
    (ethDepositForm.applyAll
      (handleDeposit demoProps ethDepositForm eventWorld)).depositInfo.map
        DepositInfo.leafIndex = some "7" :=
  ⟨by decide,
   (((leaf_index_from_first_event demoProps ethDepositForm eventWorld (by decide)
      (by decide) (by decide) (by decide) (by decide)).1 1000000000000000
      { hash := word '5',
        wait := .ok { hash := word '5',
                      logs := [none, some (eventLog "LeafInserted" 3),
                               some (eventLog "Deposit" 7), some (eventLog "Deposit" 9)] } }
      { hash := word '5',
        logs := [none, some (eventLog "LeafInserted" 3), some (eventLog "Deposit" 7),
                 some (eventLog "Deposit" 9)] }
      rfl (by decide) rfl rfl).1 (eventLog "Deposit" 7) (by decide)).1⟩

end Client
